import Mathlib

/-!
# Buffer-Graphic-Render: navigation mesh and OBJ ingestion

A shallow embedding of `NavMesh.cpp` (`addTriangle`, `trace`, `anyhit`) and of the
face / position handling of `ObjLoad.cpp`, with the properties of the specification
stated and proved over it.

## Scalars

The source computes in `float`.  The embedding keeps the arithmetic exact (rationals)
and adds the three IEEE special values, because the source relies on them: `ObjLoad`
starts its bounding box at `±INFINITY`, and `trace`/`anyhit` divide without testing the
denominator.  Rounding, overflow and the sign of zero are not modelled (a finite value
divided by zero takes the sign of the numerator).
-/

namespace BGR

/-! ## Scalars: exact rationals extended with the IEEE special values -/

/-- A `float` value: a finite (exact) rational, plus or minus infinity, or NaN. -/
inductive FVal where
  | fin (q : ℚ)
  | pinf
  | ninf
  | nan
  deriving DecidableEq

namespace FVal

/-- Unary minus. -/
def neg : FVal → FVal
  | fin q => fin (-q)
  | pinf => ninf
  | ninf => pinf
  | nan => nan

/-- Addition: `inf + (-inf)` is NaN. -/
def add : FVal → FVal → FVal
  | fin a, fin b => fin (a + b)
  | nan, _ => nan
  | _, nan => nan
  | pinf, ninf => nan
  | ninf, pinf => nan
  | pinf, _ => pinf
  | ninf, _ => ninf
  | fin _, pinf => pinf
  | fin _, ninf => ninf

/-- Subtraction. -/
def sub (a b : FVal) : FVal := add a (neg b)

/-- An infinity with the sign of `q` times the sign of `pos`; NaN when `q = 0`. -/
def infOfSign (pos : Bool) (q : ℚ) : FVal :=
  if q = 0 then nan
  else if (decide (0 < q)) = pos then pinf else ninf

/-- Multiplication: `0 * inf` is NaN. -/
def mul : FVal → FVal → FVal
  | fin a, fin b => fin (a * b)
  | nan, _ => nan
  | _, nan => nan
  | pinf, pinf => pinf
  | ninf, ninf => pinf
  | pinf, ninf => ninf
  | ninf, pinf => ninf
  | pinf, fin b => infOfSign true b
  | ninf, fin b => infOfSign false b
  | fin a, pinf => infOfSign true a
  | fin a, ninf => infOfSign false a

/-- Division: `x / 0` is an infinity for `x ≠ 0` and NaN for `x = 0`; `inf / inf` is NaN. -/
def div : FVal → FVal → FVal
  | fin a, fin b => if b = 0 then infOfSign true a else fin (a / b)
  | nan, _ => nan
  | _, nan => nan
  | fin _, pinf => fin 0
  | fin _, ninf => fin 0
  | pinf, fin b => if 0 ≤ b then pinf else ninf
  | ninf, fin b => if 0 ≤ b then ninf else pinf
  | pinf, pinf => nan
  | pinf, ninf => nan
  | ninf, pinf => nan
  | ninf, ninf => nan

/-- The comparison `a < b`; false as soon as one side is NaN. -/
def lt : FVal → FVal → Bool
  | fin a, fin b => decide (a < b)
  | ninf, fin _ => true
  | ninf, pinf => true
  | fin _, pinf => true
  | _, _ => false

/-- The comparison `a > b`, that is `b < a`. -/
def gt (a b : FVal) : Bool := lt b a

/-- The comparison `a != b`; true as soon as one side is NaN. -/
def ne : FVal → FVal → Bool
  | fin a, fin b => decide (a ≠ b)
  | pinf, pinf => false
  | ninf, ninf => false
  | _, _ => true

/-- A value is finite. -/
def isFinite : FVal → Bool
  | fin _ => true
  | _ => false

end FVal

/-! ## Vectors (the part of glm the source uses) -/

/-- The type `glm::vec3`. -/
structure Vec3 where
  x : FVal
  y : FVal
  z : FVal
  deriving DecidableEq

/-- The type `glm::vec4`. -/
structure Vec4 where
  x : FVal
  y : FVal
  z : FVal
  w : FVal
  deriving DecidableEq

namespace Vec3

/-- Componentwise `a - b`. -/
def sub (a b : Vec3) : Vec3 := ⟨a.x.sub b.x, a.y.sub b.y, a.z.sub b.z⟩

/-- Componentwise `a + b`. -/
def add (a b : Vec3) : Vec3 := ⟨a.x.add b.x, a.y.add b.y, a.z.add b.z⟩

/-- The product `s * v` of a scalar and a vector. -/
def smul (s : FVal) (v : Vec3) : Vec3 := ⟨s.mul v.x, s.mul v.y, s.mul v.z⟩

/-- The product `v * s` of a vector and a scalar. -/
def muls (v : Vec3) (s : FVal) : Vec3 := ⟨v.x.mul s, v.y.mul s, v.z.mul s⟩

/-- The quotient `v / s` of a vector by a scalar. -/
def divs (v : Vec3) (s : FVal) : Vec3 := ⟨v.x.div s, v.y.div s, v.z.div s⟩

/-- The function `glm::dot` on `vec3`: the sum of the componentwise products. -/
def dot (a b : Vec3) : FVal := ((a.x.mul b.x).add (a.y.mul b.y)).add (a.z.mul b.z)

/-- The function `glm::cross`. -/
def cross (a b : Vec3) : Vec3 :=
  ⟨(a.y.mul b.z).sub (b.y.mul a.z),
   (a.z.mul b.x).sub (b.z.mul a.x),
   (a.x.mul b.y).sub (b.x.mul a.y)⟩

/-- The function `glm::normalize`, which is `v * inversesqrt(dot(v, v))`; the library's
`inversesqrt` is the parameter `rsqrt`. -/
def normalize (rsqrt : FVal → FVal) (v : Vec3) : Vec3 := v.muls (rsqrt (dot v v))

/-- Componentwise `glm::min(a, b)`: each component is `b < a ? b : a`. -/
def min (a b : Vec3) : Vec3 :=
  ⟨if b.x.lt a.x then b.x else a.x, if b.y.lt a.y then b.y else a.y,
   if b.z.lt a.z then b.z else a.z⟩

/-- Componentwise `glm::max(a, b)`: each component is `a < b ? b : a`. -/
def max (a b : Vec3) : Vec3 :=
  ⟨if a.x.lt b.x then b.x else a.x, if a.y.lt b.y then b.y else a.y,
   if a.z.lt b.z then b.z else a.z⟩

/-- The constructor `vec3(s)`: all three components equal to `s`. -/
def splat (s : FVal) : Vec3 := ⟨s, s, s⟩

end Vec3

namespace Vec4

/-- The constructor `vec4(v, w)`. -/
def ofVec3 (v : Vec3) (w : FVal) : Vec4 := ⟨v.x, v.y, v.z, w⟩

/-- The function `glm::dot` on `vec4`. -/
def dot (a b : Vec4) : FVal :=
  ((a.x.mul b.x).add (a.y.mul b.y)).add ((a.z.mul b.z).add (a.w.mul b.w))

end Vec4

/-! ## NavMesh.hpp / NavMesh.cpp -/

/-- The class `NavMesh`: three arrays, one entry of each per triangle. -/
structure NavMesh where
  plane : List Vec4
  alpha : List Vec4
  beta : List Vec4
  deriving DecidableEq

namespace NavMesh

/-- The constructor `NavMesh()`: three empty arrays. -/
def empty : NavMesh := ⟨[], [], []⟩

/-- The method `NavMesh::addTriangle`. -/
def addTriangle (rsqrt : FVal → FVal) (m : NavMesh) (v0 v1 v2 : Vec3) : NavMesh :=
  let e0 := v1.sub v2
  let e1 := v2.sub v0
  let e2 := v0.sub v1
  let N := Vec3.normalize rsqrt (Vec3.cross e0 e1)
  let Na := Vec3.cross N e0
  let Nb := Vec3.cross N e1
  let Na := Na.divs (Vec3.dot Na e2)
  let Nb := Nb.divs (Vec3.dot Nb e0)
  { plane := m.plane ++ [Vec4.ofVec3 N (Vec3.dot N v0).neg]
    alpha := m.alpha ++ [Vec4.ofVec3 Na (Vec3.dot Na v1).neg]
    beta := m.beta ++ [Vec4.ofVec3 Nb (Vec3.dot Nb v2).neg] }

/-- The loop of `NavMesh::trace` from index `i` on, `planes` being `plane[i..]`.
`none` stands for a read of `alpha[i]` or `beta[i]` past the end of its array. -/
def traceFrom (m : NavMesh) (start direction : Vec3) (near : FVal) :
    List Vec4 → Nat → FVal → Option FVal
  | [], _, far => some far
  | pl :: planes, i, far =>
    let s := Vec4.ofVec3 start (FVal.fin 1)
    let d := Vec4.ofVec3 direction (FVal.fin 0)
    let t := ((Vec4.dot pl s).neg).div (Vec4.dot pl d)
    if t.lt near || t.gt far then traceFrom m start direction near planes (i + 1) far
    else
      let p := Vec4.ofVec3 (start.add (Vec3.smul t direction)) (FVal.fin 1)
      match m.alpha[i]? with
      | none => none
      | some al =>
        let a := Vec4.dot al p
        if a.lt (FVal.fin 0) || a.gt (FVal.fin 1) then
          traceFrom m start direction near planes (i + 1) far
        else
          match m.beta[i]? with
          | none => none
          | some be =>
            let b := Vec4.dot be p
            if b.lt (FVal.fin 0) || (a.add b).gt (FVal.fin 1) then
              traceFrom m start direction near planes (i + 1) far
            else traceFrom m start direction near planes (i + 1) t

/-- The method `NavMesh::trace`. -/
def trace (m : NavMesh) (start direction : Vec3) (near far : FVal) : Option FVal :=
  traceFrom m start direction near m.plane 0 far

/-- The loop of `NavMesh::anyhit` from index `i` on, `planes` being `plane[i..]`. -/
def anyhitFrom (m : NavMesh) (start direction : Vec3) (near far : FVal) :
    List Vec4 → Nat → Option Bool
  | [], _ => some false
  | pl :: planes, i =>
    let s := Vec4.ofVec3 start (FVal.fin 1)
    let d := Vec4.ofVec3 direction (FVal.fin 0)
    let t := ((Vec4.dot pl s).neg).div (Vec4.dot pl d)
    if t.lt near || t.gt far then anyhitFrom m start direction near far planes (i + 1)
    else
      let p := Vec4.ofVec3 (start.add (Vec3.smul t direction)) (FVal.fin 1)
      match m.alpha[i]? with
      | none => none
      | some al =>
        let a := Vec4.dot al p
        if a.lt (FVal.fin 0) || a.gt (FVal.fin 1) then
          anyhitFrom m start direction near far planes (i + 1)
        else
          match m.beta[i]? with
          | none => none
          | some be =>
            let b := Vec4.dot be p
            if b.lt (FVal.fin 0) || (a.add b).gt (FVal.fin 1) then
              anyhitFrom m start direction near far planes (i + 1)
            else some true

/-- The method `NavMesh::anyhit`. -/
def anyhit (m : NavMesh) (start direction : Vec3) (near far : FVal) : Option Bool :=
  anyhitFrom m start direction near far m.plane 0

end NavMesh

/-! ## Exact-arithmetic reading of the specification

The specification states the queries over exact numbers.  The definitions below follow
its words: finite vectors, the per-triangle parameter `t = -dot(plane,[start,1]) /
dot(plane,[direction,0])`, the barycentric values `a`, `b` at the hit point, and the
closest-hit distance as a minimum. -/

/-- A vector with three finite coordinates. -/
structure QVec3 where
  x : ℚ
  y : ℚ
  z : ℚ
  deriving DecidableEq

/-- A vector with four finite coordinates. -/
structure QVec4 where
  x : ℚ
  y : ℚ
  z : ℚ
  w : ℚ
  deriving DecidableEq

namespace QVec3

/-- The `vec3` holding these finite coordinates. -/
def toVec3 (v : QVec3) : Vec3 := ⟨FVal.fin v.x, FVal.fin v.y, FVal.fin v.z⟩

/-- Componentwise difference. -/
def sub (a b : QVec3) : QVec3 := ⟨a.x - b.x, a.y - b.y, a.z - b.z⟩

/-- Componentwise sum. -/
def add (a b : QVec3) : QVec3 := ⟨a.x + b.x, a.y + b.y, a.z + b.z⟩

/-- Scalar multiple. -/
def smul (s : ℚ) (v : QVec3) : QVec3 := ⟨s * v.x, s * v.y, s * v.z⟩

/-- Dot product. -/
def dot (a b : QVec3) : ℚ := a.x * b.x + a.y * b.y + a.z * b.z

/-- Cross product. -/
def cross (a b : QVec3) : QVec3 :=
  ⟨a.y * b.z - b.y * a.z, a.z * b.x - b.z * a.x, a.x * b.y - b.x * a.y⟩

end QVec3

namespace QVec4

/-- The `vec4` holding these finite coordinates. -/
def toVec4 (v : QVec4) : Vec4 := ⟨FVal.fin v.x, FVal.fin v.y, FVal.fin v.z, FVal.fin v.w⟩

/-- The vector `[v, w]`. -/
def ofVec3 (v : QVec3) (w : ℚ) : QVec4 := ⟨v.x, v.y, v.z, w⟩

/-- Dot product. -/
def dot (a b : QVec4) : ℚ := (a.x * b.x + a.y * b.y) + (a.z * b.z + a.w * b.w)

end QVec4

/-- One Triangle Record with finite entries. -/
structure QRec where
  plane : QVec4
  alpha : QVec4
  beta : QVec4
  deriving DecidableEq

namespace QRec

/-- The numerator `-dot(plane, [start, 1])` of the per-triangle parameter. -/
def num (r : QRec) (start : QVec3) : ℚ := -(QVec4.dot r.plane (QVec4.ofVec3 start 1))

/-- The denominator `dot(plane, [direction, 0])`; zero when the ray is parallel to the
plane. -/
def den (r : QRec) (direction : QVec3) : ℚ := QVec4.dot r.plane (QVec4.ofVec3 direction 0)

/-- The per-triangle parameter `t = -dot(plane,[start,1]) / dot(plane,[direction,0])`. -/
def tParam (r : QRec) (start direction : QVec3) : ℚ := r.num start / r.den direction

/-- The point `start + t * direction`. -/
def hitPoint (r : QRec) (start direction : QVec3) : QVec3 :=
  start.add (QVec3.smul (r.tParam start direction) direction)

/-- The value `a = dot(alpha, [p, 1])` at the hit point. -/
def coordA (r : QRec) (start direction : QVec3) : ℚ :=
  QVec4.dot r.alpha (QVec4.ofVec3 (r.hitPoint start direction) 1)

/-- The value `b = dot(beta, [p, 1])` at the hit point. -/
def coordB (r : QRec) (start direction : QVec3) : ℚ :=
  QVec4.dot r.beta (QVec4.ofVec3 (r.hitPoint start direction) 1)

/-- The barycentric test at the hit point: `0 ≤ a ≤ 1`, `b ≥ 0`, `a + b ≤ 1`. -/
def baryOk (r : QRec) (start direction : QVec3) : Prop :=
  0 ≤ r.coordA start direction ∧ r.coordA start direction ≤ 1 ∧
  0 ≤ r.coordB start direction ∧ r.coordA start direction + r.coordB start direction ≤ 1

instance (r : QRec) (start direction : QVec3) : Decidable (r.baryOk start direction) := by
  unfold baryOk; infer_instance

/-- A triangle qualifies: `near ≤ t ≤ far` and the barycentric test passes at the hit
point. -/
def qualifies (r : QRec) (start direction : QVec3) (near far : ℚ) : Prop :=
  near ≤ r.tParam start direction ∧ r.tParam start direction ≤ far ∧
  r.baryOk start direction

instance (r : QRec) (start direction : QVec3) (near far : ℚ) :
    Decidable (r.qualifies start direction near far) := by
  unfold qualifies; infer_instance

/-- The ray lies in the plane of the record: numerator and denominator both vanish. -/
def inPlane (r : QRec) (start direction : QVec3) : Prop :=
  r.num start = 0 ∧ r.den direction = 0

instance (r : QRec) (start direction : QVec3) : Decidable (r.inPlane start direction) := by
  unfold inPlane; infer_instance

end QRec

/-- The navigation mesh whose arrays hold the given finite records, in order. -/
def NavMesh.ofRecords (rs : List QRec) : NavMesh :=
  { plane := rs.map (fun r => r.plane.toVec4)
    alpha := rs.map (fun r => r.alpha.toVec4)
    beta := rs.map (fun r => r.beta.toVec4) }

/-- The parameters of the records whose plane the ray crosses and which qualify, in array
order. -/
def hitParams (rs : List QRec) (start direction : QVec3) (near far : ℚ) : List ℚ :=
  (rs.filter (fun r => decide (r.den direction ≠ 0 ∧ r.qualifies start direction near far))).map
    (fun r => r.tParam start direction)

/-- The minimum of the original `far` and of the parameters of all qualifying records. -/
def closestHit (rs : List QRec) (start direction : QVec3) (near far : ℚ) : ℚ :=
  (hitParams rs start direction near far).foldl min far

/-- A floor triangle record: the one `addTriangle` computes for the corners `(0,0,0)`,
`(1,0,0)`, `(0,1,0)`. -/
def sampleFloor : QRec :=
  { plane := ⟨0, 0, 1, 0⟩, alpha := ⟨-1, -1, 0, 1⟩, beta := ⟨1, 0, 0, 0⟩ }

namespace NavMesh

/-- The per-triangle parameter `t` that both loops compute from a plane entry. -/
def param (pl : Vec4) (start direction : Vec3) : FVal :=
  ((Vec4.dot pl (Vec4.ofVec3 start (FVal.fin 1))).neg).div
    (Vec4.dot pl (Vec4.ofVec3 direction (FVal.fin 0)))

/-- The per-triangle test of both loops: none of the three `continue` guards fires. -/
def accepts (pl al be : Vec4) (start direction : Vec3) (near far : FVal) : Bool :=
  let t := param pl start direction
  let p := Vec4.ofVec3 (start.add (Vec3.smul t direction)) (FVal.fin 1)
  let a := Vec4.dot al p
  let b := Vec4.dot be p
  !(t.lt near || t.gt far) && (!(a.lt (FVal.fin 0) || a.gt (FVal.fin 1)) &&
    !(b.lt (FVal.fin 0) || (a.add b).gt (FVal.fin 1)))

/-- The Triangle Records of a mesh: entry `i` of each of the three arrays. -/
def records (m : NavMesh) : List (Vec4 × Vec4 × Vec4) :=
  List.zip m.plane (List.zip m.alpha m.beta)

/-- The three arrays have the same length. -/
def lockstep (m : NavMesh) : Prop :=
  m.alpha.length = m.plane.length ∧ m.beta.length = m.plane.length

instance (m : NavMesh) : Decidable m.lockstep := by
  unfold lockstep; infer_instance

end NavMesh

/-- A stand-in for the library's `inversesqrt`: exact at `0`, at `1` and on the special
values, and a positive lower approximation `2 / (1 + q)` at the other positive `q`. -/
def sampleRsqrt : FVal → FVal
  | FVal.fin q => if q < 0 then FVal.nan else if q = 0 then FVal.pinf else FVal.fin (2 / (1 + q))
  | FVal.pinf => FVal.fin 0
  | FVal.ninf => FVal.nan
  | FVal.nan => FVal.nan

/-- A mesh holding one floor triangle with corners `(0,0,0)`, `(1,0,0)`, `(0,1,0)`. -/
def floorMesh : NavMesh :=
  NavMesh.addTriangle sampleRsqrt NavMesh.empty (QVec3.toVec3 ⟨0, 0, 0⟩) (QVec3.toVec3 ⟨1, 0, 0⟩)
    (QVec3.toVec3 ⟨0, 1, 0⟩)

namespace QVec3

/-- The product `v * s` of a vector and a scalar. -/
def muls (v : QVec3) (s : ℚ) : QVec3 := ⟨v.x * s, v.y * s, v.z * s⟩

/-- The quotient `v / s` of a vector by a scalar. -/
def divs (v : QVec3) (s : ℚ) : QVec3 := ⟨v.x / s, v.y / s, v.z / s⟩

/-- The combination `w0 * v0 + w1 * v1 + w2 * v2`. -/
def comb (w0 w1 w2 : ℚ) (v0 v1 v2 : QVec3) : QVec3 :=
  ⟨w0 * v0.x + w1 * v1.x + w2 * v2.x, w0 * v0.y + w1 * v1.y + w2 * v2.y,
   w0 * v0.z + w1 * v1.z + w2 * v2.z⟩

end QVec3

/-- The record `addTriangle` computes in exact arithmetic, `k` being the value
`inversesqrt` returns for the squared length of `cross(e0, e1)`. -/
def triRecord (k : ℚ) (v0 v1 v2 : QVec3) : QRec :=
  let e0 := v1.sub v2
  let e1 := v2.sub v0
  let e2 := v0.sub v1
  let N := (QVec3.cross e0 e1).muls k
  let Na := QVec3.cross N e0
  let Nb := QVec3.cross N e1
  let Na := Na.divs (QVec3.dot Na e2)
  let Nb := Nb.divs (QVec3.dot Nb e0)
  { plane := QVec4.ofVec3 N (-(QVec3.dot N v0))
    alpha := QVec4.ofVec3 Na (-(QVec3.dot Na v1))
    beta := QVec4.ofVec3 Nb (-(QVec3.dot Nb v2)) }

/-- The mesh `m` with one more record appended to each array. -/
def NavMesh.push (m : NavMesh) (r : QRec) : NavMesh :=
  { plane := m.plane ++ [r.plane.toVec4]
    alpha := m.alpha ++ [r.alpha.toVec4]
    beta := m.beta ++ [r.beta.toVec4] }

/-- A normal of the plane through `v0`, `v1`, `v2`: `(v1 - v0) × (v2 - v0)`. -/
def triNormal (v0 v1 v2 : QVec3) : QVec3 := QVec3.cross (v1.sub v0) (v2.sub v0)

/-- The triangle is non-degenerate: its corners are not collinear. -/
def nonDegenerate (v0 v1 v2 : QVec3) : Prop := triNormal v0 v1 v2 ≠ ⟨0, 0, 0⟩

instance (v0 v1 v2 : QVec3) : Decidable (nonDegenerate v0 v1 v2) := by
  unfold nonDegenerate; infer_instance

/-- The point `p` lies on the plane through `v0`, `v1`, `v2`. -/
def onPlane (v0 v1 v2 p : QVec3) : Prop := QVec3.dot (triNormal v0 v1 v2) (p.sub v0) = 0

instance (v0 v1 v2 p : QVec3) : Decidable (onPlane v0 v1 v2 p) := by
  unfold onPlane; infer_instance

/-- The point `p` lies in the closed triangle with corners `v0`, `v1`, `v2`: it is a convex
combination of the corners. -/
def inTriangle (v0 v1 v2 p : QVec3) : Prop :=
  ∃ w0 w1 w2 : ℚ, 0 ≤ w0 ∧ 0 ≤ w1 ∧ 0 ≤ w2 ∧ w0 + w1 + w2 = 1 ∧
    p = QVec3.comb w0 w1 w2 v0 v1 v2

/-- The library's `inversesqrt` returns a positive finite value on a positive finite one. -/
def RsqrtPositive (rsqrt : FVal → FVal) : Prop :=
  ∀ q : ℚ, 0 < q → ∃ k : ℚ, 0 < k ∧ rsqrt (FVal.fin q) = FVal.fin k

namespace NavMesh

/-- The three entries `addTriangle` computes for one triangle. -/
def triEntry (rsqrt : FVal → FVal) (v0 v1 v2 : Vec3) : Vec4 × Vec4 × Vec4 :=
  let e0 := v1.sub v2
  let e1 := v2.sub v0
  let e2 := v0.sub v1
  let N := Vec3.normalize rsqrt (Vec3.cross e0 e1)
  let Na := Vec3.cross N e0
  let Nb := Vec3.cross N e1
  let Na := Na.divs (Vec3.dot Na e2)
  let Nb := Nb.divs (Vec3.dot Nb e0)
  (Vec4.ofVec3 N (Vec3.dot N v0).neg, Vec4.ofVec3 Na (Vec3.dot Na v1).neg,
    Vec4.ofVec3 Nb (Vec3.dot Nb v2).neg)

/-- The mesh obtained from the empty one by `addTriangle` on each triangle, in list order. -/
def build (rsqrt : FVal → FVal) (tris : List (Vec3 × Vec3 × Vec3)) : NavMesh :=
  tris.foldl (fun m t => addTriangle rsqrt m t.1 t.2.1 t.2.2) empty

end NavMesh

/-- A floor triangle in the plane `z = 0`: corners `(0,0,0)`, `(1,0,0)`, `(0,1,0)`. -/
def floorTri : Vec3 × Vec3 × Vec3 :=
  (QVec3.toVec3 ⟨0, 0, 0⟩, QVec3.toVec3 ⟨1, 0, 0⟩, QVec3.toVec3 ⟨0, 1, 0⟩)

/-- A wall triangle in the plane `x = 10`: corners `(10,0,-1/2)`, `(10,1,-1/2)`,
`(10,0,1/2)`. -/
def wallTri : Vec3 × Vec3 × Vec3 :=
  (QVec3.toVec3 ⟨10, 0, -1/2⟩, QVec3.toVec3 ⟨10, 1, -1/2⟩, QVec3.toVec3 ⟨10, 0, 1/2⟩)

/-- The finite value `inversesqrt` returns at the finite argument `q` (`0` when it is not
finite). -/
def rsqrtValue (rsqrt : FVal → FVal) (q : ℚ) : ℚ :=
  match rsqrt (FVal.fin q) with
  | FVal.fin k => k
  | _ => 0

/-- The exact record of a triangle with finite corners under a given `inversesqrt`. -/
def recordOf (rsqrt : FVal → FVal) (t : QVec3 × QVec3 × QVec3) : QRec :=
  triRecord (rsqrtValue rsqrt (QVec3.dot (triNormal t.1 t.2.1 t.2.2) (triNormal t.1 t.2.1 t.2.2)))
    t.1 t.2.1 t.2.2

/-- A triangle with finite corners, as `vec3` values. -/
def embTri (t : QVec3 × QVec3 × QVec3) : Vec3 × Vec3 × Vec3 :=
  (t.1.toVec3, t.2.1.toVec3, t.2.2.toVec3)

/-- The ray lies in the plane of the triangle: its start is on the plane and its direction
is parallel to it. -/
def rayInPlane (t : QVec3 × QVec3 × QVec3) (start direction : QVec3) : Prop :=
  onPlane t.1 t.2.1 t.2.2 start ∧ QVec3.dot (triNormal t.1 t.2.1 t.2.2) direction = 0

instance (t : QVec3 × QVec3 × QVec3) (start direction : QVec3) :
    Decidable (rayInPlane t start direction) := by
  unfold rayInPlane; infer_instance

/-! ## ObjLoad.cpp

The file is read line by line; each line takes the first branch of the `sscanf` chain that
matches it.  A `Line` is the branch taken together with the values it captured.  The file
system and the GPU are parameters (`Env`). -/

/-- The type `glm::vec2`. -/
structure Vec2 where
  x : FVal
  y : FVal
  deriving DecidableEq

/-- The struct `Material` of ObjLoad.cpp. -/
structure Material where
  Ka : Vec3
  Kd : Vec3
  Ks : Vec3
  Ns : FVal
  maps : List String
  channels : List Int
  deriving DecidableEq

/-- The constructor `Material()`. -/
def Material.default : Material :=
  { Ka := Vec3.splat (FVal.fin 0), Kd := Vec3.splat (FVal.fin (1/2)),
    Ks := Vec3.splat (FVal.fin 0), Ns := FVal.fin 0,
    maps := ["", "", "", ""], channels := [-1, -1, -1, -1] }

/-- The part of the class `Object` that ObjLoad fills: the material values copied at
creation and the four arrays. -/
structure Object where
  maps : List String
  channels : List Int
  Ambient : Vec3
  Diffuse : Vec3
  Specular : Vec4
  vert : List Vec3
  norm : List Vec3
  uv : List Vec2
  indices : List Nat
  deriving DecidableEq

/-- What ObjLoad takes from outside the program: the library's `inversesqrt`, the parse of
a material library file into the material map (`none` when the file cannot be opened), and
whether the texture loading of the `Object` constructor runs through its assertions. -/
structure Env where
  rsqrt : FVal → FVal
  loadMtl : String → List (String × Material) → Option (List (String × Material))
  texturesOk : List String → List Int → Bool

/-- How a load stops without returning: `abort` is a failed assertion or an uncaught
exception, `undefined` is an unchecked read outside an array. -/
inductive ObjError where
  | abort
  | undefined
  deriving DecidableEq

instance instDecidableEqExcept {ε α : Type} [DecidableEq ε] [DecidableEq α] :
    DecidableEq (Except ε α)
  | Except.ok a, Except.ok b =>
    if h : a = b then isTrue (by rw [h]) else isFalse (fun h2 => h (Except.ok.inj h2))
  | Except.error a, Except.error b =>
    if h : a = b then isTrue (by rw [h]) else isFalse (fun h2 => h (Except.error.inj h2))
  | Except.ok _, Except.error _ => isFalse (fun h => Except.noConfusion h)
  | Except.error _, Except.ok _ => isFalse (fun h => Except.noConfusion h)

/-- One line of the mesh description, by the branch of the `sscanf` chain it takes. -/
inductive Line where
  | mtllib (file : String)
  | usemtl (name : String)
  | v (x y z : FVal)
  | vt (x y : FVal)
  | vn (x y z : FVal)
  | f (tokens : List String)
  | other
  deriving DecidableEq

/-- The loop of `Object::initGPUData` that adds each face normal to its three vertices. -/
def accumulateNormals (vert : List Vec3) : List Nat → List Vec3 → List Vec3
  | i0 :: i1 :: i2 :: rest, norm =>
    let p0 := vert.getD i0 (Vec3.splat FVal.nan)
    let p1 := vert.getD i1 (Vec3.splat FVal.nan)
    let p2 := vert.getD i2 (Vec3.splat FVal.nan)
    let normal := Vec3.cross (p1.sub p0) (p2.sub p0)
    let normal := normal.divs (Vec3.dot normal normal)
    let norm := norm.modify (fun n => n.add normal) i0
    let norm := norm.modify (fun n => n.add normal) i1
    let norm := norm.modify (fun n => n.add normal) i2
    accumulateNormals vert rest norm
  | _, norm => norm

/-- The arrays after `Object::initGPUData`: missing texture coordinates and normals are
filled in and the normals renormalized; `vert` and `indices` are only uploaded. -/
def Object.initGPUData (rsqrt : FVal → FVal) (o : Object) : Object :=
  let uv := if o.uv.length = 0 then List.replicate o.vert.length ⟨FVal.fin 0, FVal.fin 0⟩
    else o.uv
  let norm := if o.norm.length = 0 then
      accumulateNormals o.vert o.indices (List.replicate o.vert.length (Vec3.splat (FVal.fin 0)))
    else o.norm
  { o with uv := uv, norm := norm.map (Vec3.normalize rsqrt) }

/-- A full match of `re_farg`, `(\d+)(?:/(\d*)(?:/(\d+))?)?`: the three captured groups,
empty when a group did not take part; `none` when the token does not match. -/
def reFarg (tuple : String) : Option (List Char × List Char × List Char) :=
  let (d1, r1) := tuple.toList.span Char.isDigit
  if d1 = [] then none
  else match r1 with
    | [] => some (d1, [], [])
    | c :: r2 =>
      if c ≠ '/' then none
      else
        let (d2, r3) := r2.span Char.isDigit
        match r3 with
        | [] => some (d1, d2, [])
        | c2 :: r4 =>
          if c2 ≠ '/' then none
          else
            let (d3, r5) := r4.span Char.isDigit
            if d3 ≠ [] ∧ r5 = [] then some (d1, d2, d3) else none

/-- The call `stoi` on a captured group (decimal digits, or empty when there was no match):
it throws on the empty string and on a value that does not fit an `int`. -/
def stoi (ds : List Char) : Except ObjError Int :=
  if ds = [] then Except.error ObjError.abort
  else
    let n := ds.foldl (fun acc c => 10 * acc + (c.toNat - 48)) 0
    if 2147483647 < n then Except.error ObjError.abort else Except.ok (Int.ofNat n)

/-- The unchecked read `arr[k]` with an `int` index. -/
def readAt {α : Type} (arr : List α) (k : Int) : Except ObjError α :=
  if k < 0 then Except.error ObjError.undefined
  else match arr[k.toNat]? with
    | some a => Except.ok a
    | none => Except.error ObjError.undefined

/-- The variables of ObjLoad that live across lines. -/
structure LoadState where
  materialMap : List (String × Material)
  currentMaterial : String
  vertexMap : List (String × Nat)
  objects : List Object
  newobj : Option Object
  v : List Vec3
  vt : List Vec2
  vn : List Vec3
  BoxMin : Vec3
  BoxMax : Vec3
  navmesh : Option NavMesh
  deriving DecidableEq

/-- The variables of the token loop of a face line: the dedup map, the current object, the
navigation mesh and the array `vertexTuple`. -/
structure FaceLoop where
  vertexMap : List (String × Nat)
  obj : Object
  navmesh : Option NavMesh
  vertexTuple : Nat × Nat × Nat
  deriving DecidableEq

/-- The entry `materialMap[name]`, created with default values when missing. -/
def materialEntry (mm : List (String × Material)) (name : String) :
    List (String × Material) × Material :=
  match mm.lookup name with
  | some mat => (mm, mat)
  | none => (mm ++ [(name, Material.default)], Material.default)

/-- The body of `if (vertexMap.find(tuple) == vertexMap.end())`: a new vertex slot for a
token not seen before in this group. -/
def newVertex (v : List Vec3) (vt : List Vec2) (vn : List Vec3) (s : FaceLoop)
    (tuple : String) : Except ObjError FaceLoop := do
  let vertexMap := s.vertexMap ++ [(tuple, s.obj.vert.length)]
  let (g1, g2, g3) := (reFarg tuple).getD ([], [], [])
  let k1 ← stoi g1
  let p ← readAt v (k1 - 1)
  let obj := { s.obj with vert := s.obj.vert ++ [p] }
  let obj ← (if g2 ≠ [] then do
      let k2 ← stoi g2
      let t ← readAt vt (k2 - 1)
      pure { obj with uv := obj.uv ++ [t] }
    else pure obj)
  let obj ← (if g3 ≠ [] then do
      let k3 ← stoi g3
      let n ← readAt vn (k3 - 1)
      pure { obj with norm := obj.norm ++ [n] }
    else pure obj)
  pure { s with vertexMap := vertexMap, obj := obj }

/-- The two assignments that advance the triangle fan at token number `i`:
`vertexTuple[1] = vertexTuple[2]; vertexTuple[2 * (i != 0)] = vertexMap[tuple]`.  The array
is not initialised in the source; the entries read before they are assigned are never
emitted. -/
def advanceFan (s : FaceLoop) (i : Nat) (tuple : String) : FaceLoop :=
  let slot := (s.vertexMap.lookup tuple).getD 0
  let t1 := s.vertexTuple.2.2
  if i ≠ 0 then { s with vertexTuple := (s.vertexTuple.1, t1, slot) }
  else { s with vertexTuple := (slot, t1, s.vertexTuple.2.2) }

/-- The body of `if (i > 1)`: three indices, and the triangle handed to the navigation mesh
when there is one. -/
def emitTriangle (env : Env) (s : FaceLoop) : Except ObjError FaceLoop := do
  let t0 := s.vertexTuple.1
  let t1 := s.vertexTuple.2.1
  let t2 := s.vertexTuple.2.2
  let obj := { s.obj with indices := s.obj.indices ++ [t0, t1, t2] }
  match s.navmesh with
  | none => pure { s with obj := obj }
  | some nav =>
    let p0 ← readAt obj.vert (Int.ofNat t0)
    let p1 ← readAt obj.vert (Int.ofNat t1)
    let p2 ← readAt obj.vert (Int.ofNat t2)
    pure { s with obj := obj, navmesh := some (NavMesh.addTriangle env.rsqrt nav p0 p1 p2) }

/-- The body of the token loop for token number `i`. -/
def tokenStep (env : Env) (v : List Vec3) (vt : List Vec2) (vn : List Vec3) (s : FaceLoop)
    (i : Nat) (tuple : String) : Except ObjError FaceLoop := do
  let s1 ← (if (s.vertexMap.lookup tuple).isNone then newVertex v vt vn s tuple else pure s)
  let s2 := advanceFan s1 i tuple
  if 1 < i then emitTriangle env s2 else pure s2

/-- The token loop of a face line, from token number `i` on. -/
def tokenLoop (env : Env) (v : List Vec3) (vt : List Vec2) (vn : List Vec3) :
    FaceLoop → Nat → List String → Except ObjError FaceLoop
  | s, _, [] => Except.ok s
  | s, i, tuple :: rest => do
    let s1 ← tokenStep env v vt vn s i tuple
    tokenLoop env v vt vn s1 (i + 1) rest

/-- The object a face line creates when there is none: built from the current material. -/
def newObject (mat : Material) : Object :=
  { maps := mat.maps, channels := mat.channels, Ambient := mat.Ka, Diffuse := mat.Kd,
    Specular := Vec4.ofVec3 mat.Ks mat.Ns, vert := [], norm := [], uv := [], indices := [] }

/-- The body of the line loop of ObjLoad. -/
def processLine (env : Env) (st : LoadState) : Line → Except ObjError LoadState
  | Line.mtllib file =>
    match env.loadMtl file st.materialMap with
    | none => Except.error ObjError.abort
    | some mm => Except.ok { st with materialMap := mm }
  | Line.usemtl name =>
    Except.ok { st with
      materialMap := (materialEntry st.materialMap name).1
      currentMaterial := name
      objects := st.objects ++ (st.newobj.map (Object.initGPUData env.rsqrt)).toList
      newobj := none
      vertexMap := [] }
  | Line.v x y z =>
    let newv : Vec3 := ⟨x, y, z⟩
    Except.ok { st with
      BoxMin := Vec3.min st.BoxMin newv, BoxMax := Vec3.max st.BoxMax newv, v := st.v ++ [newv] }
  | Line.vt x y => Except.ok { st with vt := st.vt ++ [⟨x, y⟩] }
  | Line.vn x y z => Except.ok { st with vn := st.vn ++ [⟨x, y, z⟩] }
  | Line.f tokens => do
    let obj ← (match st.newobj with
      | some o => pure o
      | none =>
        let mat := (materialEntry st.materialMap st.currentMaterial).2
        if env.texturesOk mat.maps mat.channels then pure (newObject mat)
        else Except.error ObjError.abort)
    let s ← tokenLoop env st.v st.vt st.vn
      { vertexMap := st.vertexMap, obj := obj, navmesh := st.navmesh, vertexTuple := (0, 0, 0) }
      0 tokens
    pure { st with vertexMap := s.vertexMap, newobj := some s.obj, navmesh := s.navmesh }
  | Line.other => Except.ok st

/-- The line loop of ObjLoad. -/
def processLines (env : Env) : LoadState → List Line → Except ObjError LoadState
  | st, [] => Except.ok st
  | st, l :: rest => do
    let st1 ← processLine env st l
    processLines env st1 rest

/-- The variables of ObjLoad before the first line is read; `objects` is `app.objects`. -/
def initialState (objects : List Object) (navmesh : Option NavMesh) : LoadState :=
  { materialMap := [("", Material.default)], currentMaterial := "", vertexMap := [],
    objects := objects, newobj := none, v := [], vt := [], vn := [],
    BoxMin := Vec3.splat FVal.pinf, BoxMax := Vec3.splat FVal.ninf, navmesh := navmesh }

/-- The function `ObjLoad`: the returned extent, with `app.objects` and the navigation mesh
as the call leaves them.  `file` is `none` when the file cannot be opened. -/
def ObjLoad (env : Env) (objects : List Object) (navmesh : Option NavMesh)
    (file : Option (List Line)) : Except ObjError (Vec3 × List Object × Option NavMesh) :=
  match file with
  | none => Except.error ObjError.abort
  | some lines => do
    let st ← processLines env (initialState objects navmesh) lines
    let objects := st.objects ++ (st.newobj.map (Object.initGPUData env.rsqrt)).toList
    pure (st.BoxMax.sub st.BoxMin, objects, st.navmesh)

/-- The slot `vertexMap[tuple]` of a token. -/
def slotOf (vertexMap : List (String × Nat)) (tuple : String) : Nat :=
  (vertexMap.lookup tuple).getD 0

/-- The triangles of the fan over the slots `s0, s1, ..., s(n-1)`: `(s0, s(i-1), s(i))` for
`i = 2, ..., n-1`, in that order. -/
def fanTriangles (slots : List Nat) : List (Nat × Nat × Nat) :=
  (List.range (slots.length - 2)).map
    (fun j => (slots.getD 0 0, slots.getD (j + 1) 0, slots.getD (j + 2) 0))

/-- The index entries of a list of triangles, three per triangle. -/
def flattenTriangles (ts : List (Nat × Nat × Nat)) : List Nat :=
  ts.foldr (fun t acc => t.1 :: t.2.1 :: t.2.2 :: acc) []

/-- What the token loop emits from token number `i` on, `vertexTuple` holding `vT`. -/
def fanFrom : Nat → Nat × Nat × Nat → List Nat → List (Nat × Nat × Nat)
  | _, _, [] => []
  | i, vT, x :: xs =>
    let vT2 : Nat × Nat × Nat := if i ≠ 0 then (vT.1, vT.2.2, x) else (x, vT.2.2, vT.2.2)
    (if 1 < i then [vT2] else []) ++ fanFrom (i + 1) vT2 xs


/-- An environment in which every file loads: material libraries change nothing and all
textures load. -/
def sampleEnv : Env :=
  { rsqrt := sampleRsqrt, loadMtl := fun _ mm => some mm, texturesOk := fun _ _ => true }

/-- The state of a load after the four position lines `v 0 0 0`, `v 1 0 0`, `v 1 1 0`,
`v 0 1 0`, with an empty navigation mesh. -/
def quadState : LoadState :=
  { initialState [] (some NavMesh.empty) with
    v := [QVec3.toVec3 ⟨0, 0, 0⟩, QVec3.toVec3 ⟨1, 0, 0⟩, QVec3.toVec3 ⟨1, 1, 0⟩,
      QVec3.toVec3 ⟨0, 1, 0⟩]
    BoxMin := QVec3.toVec3 ⟨0, 0, 0⟩, BoxMax := QVec3.toVec3 ⟨1, 1, 0⟩ }

/-- The state `quadState` after the face line `f 1 2 3 4`. -/
def quadFaceState : LoadState :=
  { quadState with
    vertexMap := [("1", 0), ("2", 1), ("3", 2), ("4", 3)]
    newobj := some { newObject Material.default with
      vert := [QVec3.toVec3 ⟨0, 0, 0⟩, QVec3.toVec3 ⟨1, 0, 0⟩, QVec3.toVec3 ⟨1, 1, 0⟩,
        QVec3.toVec3 ⟨0, 1, 0⟩]
      indices := [0, 1, 2, 0, 2, 3] }
    navmesh := some (NavMesh.build sampleRsqrt
      [(QVec3.toVec3 ⟨0, 0, 0⟩, QVec3.toVec3 ⟨1, 0, 0⟩, QVec3.toVec3 ⟨1, 1, 0⟩),
       (QVec3.toVec3 ⟨0, 0, 0⟩, QVec3.toVec3 ⟨1, 1, 0⟩, QVec3.toVec3 ⟨0, 1, 0⟩)]) }

/-- The distinct tokens, in order of first occurrence, when `acc` lists those seen so far. -/
def distinctFrom (acc : List String) (toks : List String) : List String :=
  toks.foldl (fun seen t => if t ∈ seen then seen else seen ++ [t]) acc

/-- The distinct tokens of a sequence, in order of first occurrence. -/
def distinctTokens (toks : List String) : List String := distinctFrom [] toks

/-- The rank of the first occurrence of a token among the distinct tokens. -/
def tokenRank (toks : List String) (t : String) : Nat := (distinctTokens toks).indexOf t

/-- The token lists of the face lines among `ls`, in order. -/
def faceLines : List Line → List (List String)
  | [] => []
  | Line.f tokens :: rest => tokens :: faceLines rest
  | _ :: rest => faceLines rest

/-- The index entries the face lines emit when each token is given the slot `slot`. -/
def faceIndices (slot : String → Nat) (fs : List (List String)) : List Nat :=
  fs.foldr (fun toks acc => flattenTriangles (fanTriangles (toks.map slot)) ++ acc) []

/-- The line is not a `usemtl` directive. -/
def Line.notUsemtl : Line → Bool
  | Line.usemtl _ => false
  | _ => true

/-- Inside a Surface Group whose face lines so far are `fs`: the dedup map lists the
distinct tokens in order of first occurrence with slots `0, 1, 2, ...`, and the object, when
there is one, has one position per slot and the index entries of the face lines. -/
def GroupInv (st : LoadState) (fs : List (List String)) : Prop :=
  st.vertexMap.map Prod.fst = distinctTokens fs.flatten ∧
  st.vertexMap.map Prod.snd = List.range st.vertexMap.length ∧
  match st.newobj with
  | none => fs = []
  | some o => o.vert.length = st.vertexMap.length ∧
      o.indices = faceIndices (slotOf st.vertexMap) fs


/-- A Surface Group that repeats tokens: `f 1 2 3` then `f 1 3 4`. -/
def twoFaceLines : List Line := [Line.f ["1", "2", "3"], Line.other, Line.f ["1", "3", "4"]]

/-- The state `quadState` after the lines `twoFaceLines`. -/
def twoFaceState : LoadState := quadFaceState

/-- The state `twoFaceState` after `usemtl m` and then `f 3 4 1`: tokens seen in the first
group get fresh slots, numbered from `0`. -/
def secondGroupState : LoadState :=
  { quadState with
    materialMap := [("", Material.default), ("m", Material.default)]
    currentMaterial := "m"
    vertexMap := [("3", 0), ("4", 1), ("1", 2)]
    objects := [Object.initGPUData sampleRsqrt { newObject Material.default with
      vert := [QVec3.toVec3 ⟨0, 0, 0⟩, QVec3.toVec3 ⟨1, 0, 0⟩, QVec3.toVec3 ⟨1, 1, 0⟩,
        QVec3.toVec3 ⟨0, 1, 0⟩]
      indices := [0, 1, 2, 0, 2, 3] }]
    newobj := some { newObject Material.default with
      vert := [QVec3.toVec3 ⟨1, 1, 0⟩, QVec3.toVec3 ⟨0, 1, 0⟩, QVec3.toVec3 ⟨0, 0, 0⟩]
      indices := [0, 1, 2] }
    navmesh := some (NavMesh.build sampleRsqrt
      [(QVec3.toVec3 ⟨0, 0, 0⟩, QVec3.toVec3 ⟨1, 0, 0⟩, QVec3.toVec3 ⟨1, 1, 0⟩),
       (QVec3.toVec3 ⟨0, 0, 0⟩, QVec3.toVec3 ⟨1, 1, 0⟩, QVec3.toVec3 ⟨0, 1, 0⟩),
       (QVec3.toVec3 ⟨1, 1, 0⟩, QVec3.toVec3 ⟨0, 1, 0⟩, QVec3.toVec3 ⟨0, 0, 0⟩)]) }

/-- The positions of the `v` lines among `ls`, in order. -/
def positionsOf : List Line → List Vec3
  | [] => []
  | Line.v x y z :: rest => ⟨x, y, z⟩ :: positionsOf rest
  | _ :: rest => positionsOf rest

/-- The least element of a list of numbers (`0` for the empty list). -/
def minOf (l : List ℚ) : ℚ := l.foldl min (l.headD 0)

/-- The greatest element of a list of numbers (`0` for the empty list). -/
def maxOf (l : List ℚ) : ℚ := l.foldl max (l.headD 0)

/-- The component-wise `max - min` over a list of finite positions. -/
def extentOf (qs : List QVec3) : QVec3 :=
  ⟨maxOf (qs.map (fun q => q.x)) - minOf (qs.map (fun q => q.x)),
   maxOf (qs.map (fun q => q.y)) - minOf (qs.map (fun q => q.y)),
   maxOf (qs.map (fun q => q.z)) - minOf (qs.map (fun q => q.z))⟩

/-- Component-wise minimum of two finite vectors. -/
def QVec3.min (a b : QVec3) : QVec3 := ⟨Min.min a.x b.x, Min.min a.y b.y, Min.min a.z b.z⟩

/-- Component-wise maximum of two finite vectors. -/
def QVec3.max (a b : QVec3) : QVec3 := ⟨Max.max a.x b.x, Max.max a.y b.y, Max.max a.z b.z⟩

/-- A captured group names an index between `1` and `n`, the size of its pool. -/
def idxOk (g : List Char) (n : Nat) : Bool :=
  match stoi g with
  | Except.ok k => decide (1 ≤ k ∧ k ≤ (n : Int))
  | Except.error _ => false

/-- The token matches `re_farg` and each index it names is within the pool read so far:
`nv` positions, `nvt` texture coordinates, `nvn` normals. -/
def tokenOk (nv nvt nvn : Nat) (tuple : String) : Bool :=
  match reFarg tuple with
  | none => false
  | some (g1, g2, g3) =>
    idxOk g1 nv && ((decide (g2 = []) || idxOk g2 nvt) && (decide (g3 = []) || idxOk g3 nvn))

/-- Every token of every face line is well formed and in range for the pools read before
the line; `nv`, `nvt`, `nvn` count the `v`, `vt`, `vn` lines before `ls`. -/
def facesResolve : Nat → Nat → Nat → List Line → Bool
  | _, _, _, [] => true
  | nv, nvt, nvn, Line.v _ _ _ :: rest => facesResolve (nv + 1) nvt nvn rest
  | nv, nvt, nvn, Line.vt _ _ :: rest => facesResolve nv (nvt + 1) nvn rest
  | nv, nvt, nvn, Line.vn _ _ _ :: rest => facesResolve nv nvt (nvn + 1) rest
  | nv, nvt, nvn, Line.f tokens :: rest =>
    tokens.all (tokenOk nv nvt nvn) && facesResolve nv nvt nvn rest
  | nv, nvt, nvn, _ :: rest => facesResolve nv nvt nvn rest

/-- Every material library can be opened and every texture loads. -/
def EnvOk (env : Env) : Prop :=
  (∀ file mm, (env.loadMtl file mm).isSome = true) ∧ (∀ maps channels, env.texturesOk maps channels = true)

/-- The slots of the dedup map are `0, 1, 2, ...` and the current object has one position
per slot. -/
def SlotInv (vertexMap : List (String × Nat)) (newobj : Option Object) : Prop :=
  vertexMap.map Prod.snd = List.range vertexMap.length ∧
  match newobj with
  | none => vertexMap = []
  | some o => o.vert.length = vertexMap.length


/-- A mesh description with the positions `(-1,0,0)`, `(1,0,0)`, `(0,1,0)`, a material
directive and a face. -/
def extentLines : List Line :=
  [Line.v (FVal.fin (-1)) (FVal.fin 0) (FVal.fin 0), Line.usemtl "m",
   Line.v (FVal.fin 1) (FVal.fin 0) (FVal.fin 0), Line.v (FVal.fin 0) (FVal.fin 1) (FVal.fin 0),
   Line.f ["1", "2", "3"], Line.other]

/-- The three positions of `extentLines`. -/
def extentPositions : List QVec3 := [⟨-1, 0, 0⟩, ⟨1, 0, 0⟩, ⟨0, 1, 0⟩]

/-! ## GLapp.cpp: the motion part of `sceneUpdate` -/

/-- The members of `GLapp` that the motion part of `sceneUpdate` reads or writes.  The
constructor sets `navmesh = new NavMesh`, so the pointer is never null. -/
structure GLapp where
  position : Vec3
  pan : FVal
  moveRate : FVal
  strafeRate : FVal
  navmesh : NavMesh
  deriving DecidableEq

/-- The library functions `sceneUpdate` calls: `sin`, `cos` and glm's `inversesqrt`. -/
structure Trig where
  sin : FVal → FVal
  cos : FVal → FVal
  rsqrt : FVal → FVal

namespace GLapp

/-- The vector `motion = moveRate * dTime * forward + strafeRate * dTime * right` of
`sceneUpdate`, with `forward = (sin pan, cos pan, 0)` and `right = (cos pan, -sin pan, 0)`. -/
def motion (lib : Trig) (app : GLapp) (dTime : FVal) : Vec3 :=
  let forward : Vec3 := ⟨lib.sin app.pan, lib.cos app.pan, FVal.fin 0⟩
  let right : Vec3 := ⟨lib.cos app.pan, (lib.sin app.pan).neg, FVal.fin 0⟩
  (Vec3.smul (app.moveRate.mul dTime) forward).add (Vec3.smul (app.strafeRate.mul dTime) right)

/-- The value of `nextpos` when the floor is traced: the position, or the position plus the
motion when a rate is nonzero and `anyhit` finds nothing along the normalized motion over
`[0, 250]`.  `none` stands for an out-of-range read inside `anyhit`. -/
def candidate (lib : Trig) (app : GLapp) (dTime : FVal) : Option Vec3 :=
  if app.moveRate.ne (FVal.fin 0) || app.strafeRate.ne (FVal.fin 0) then
    match app.navmesh.anyhit app.position (Vec3.normalize lib.rsqrt (motion lib app dTime))
        (FVal.fin 0) (FVal.fin 250) with
    | none => none
    | some hit => some (if !hit then app.position.add (motion lib app dTime) else app.position)
  else some app.position

/-- The method `GLapp::sceneUpdate`, up to the assignment of `position`. -/
def sceneUpdate (lib : Trig) (app : GLapp) (dTime : FVal) : Option GLapp :=
  match candidate lib app dTime with
  | none => none
  | some nextpos =>
    match app.navmesh.trace nextpos ⟨FVal.fin 0, FVal.fin 0, FVal.fin (-1)⟩ (FVal.fin 0)
        (FVal.fin 750) with
    | none => none
    | some floorhit =>
      if floorhit.gt (FVal.fin 250) && floorhit.lt (FVal.fin 750) then
        some { app with
          position := ⟨nextpos.x, nextpos.y, (nextpos.z.sub floorhit).add (FVal.fin 500)⟩ }
      else some app

end GLapp

/-- Stand-ins for the library's `sin` and `cos`: the point of the unit circle with
half-angle tangent `q / 2`, exact at `0`; NaN outside the finite values. -/
def sampleTrig : Trig :=
  { sin := fun x => match x with
      | FVal.fin q => FVal.fin (q / (1 + q * q / 4))
      | _ => FVal.nan
    cos := fun x => match x with
      | FVal.fin q => FVal.fin ((1 - q * q / 4) / (1 + q * q / 4))
      | _ => FVal.nan
    rsqrt := sampleRsqrt }

/-- An agent at `(1/4, 1/4, 600)` at rest above the floor triangle in the plane `z = 0`. -/
def restingApp : GLapp :=
  { position := QVec3.toVec3 ⟨1/4, 1/4, 600⟩, pan := FVal.fin 0, moveRate := FVal.fin 0,
    strafeRate := FVal.fin 0, navmesh := floorMesh }

/-- An agent at `(0, 0, 500)` moving forward at rate `1000`, with an empty navigation mesh. -/
def movingApp : GLapp :=
  { position := QVec3.toVec3 ⟨0, 0, 500⟩, pan := FVal.fin 0, moveRate := FVal.fin 1000,
    strafeRate := FVal.fin 0, navmesh := NavMesh.empty }

/-- An agent at `(5, 1/4, 0)` strafing towards the wall triangle in the plane `x = 10`. -/
def blockedApp : GLapp :=
  { position := QVec3.toVec3 ⟨5, 1/4, 0⟩, pan := FVal.fin 0, moveRate := FVal.fin 0,
    strafeRate := FVal.fin 1, navmesh := NavMesh.build sampleRsqrt [wallTri] }

/-- An agent at `(1/8, 1/8, 600)` above the floor triangle, moving forward at rate `1`. -/
def walkingApp : GLapp :=
  { position := QVec3.toVec3 ⟨1/8, 1/8, 600⟩, pan := FVal.fin 0, moveRate := FVal.fin 1,
    strafeRate := FVal.fin 0, navmesh := floorMesh }

/-- A zero-area triangle: the collinear corners `(0,0,0)`, `(1,0,0)`, `(2,0,0)`. -/
def flatTri : Vec3 × Vec3 × Vec3 :=
  (QVec3.toVec3 ⟨0, 0, 0⟩, QVec3.toVec3 ⟨1, 0, 0⟩, QVec3.toVec3 ⟨2, 0, 0⟩)

/-- The `vec4` with four NaN entries. -/
def Vec4.nan : Vec4 := ⟨FVal.nan, FVal.nan, FVal.nan, FVal.nan⟩

/-- The `vec3` with three NaN entries. -/
def Vec3.nan : Vec3 := ⟨FVal.nan, FVal.nan, FVal.nan⟩

/-! ## ObjLoad.cpp: the `sscanf` chain that picks the branch of a line -/

/-- The characters `isspace` accepts, which a blank in a `scanf` format skips. -/
def isSpace (c : Char) : Bool :=
  c = ' ' || c = '\t' || c = '\n' || c = '\r' || c.toNat = 11 || c.toNat = 12

/-- A blank in a format: skips any white space of the input. -/
def skipSpace (cs : List Char) : List Char := cs.dropWhile isSpace

/-- Literal characters in a format: each must equal the next input character; gives the
input that remains. -/
def matchLit : List Char → List Char → Option (List Char)
  | [], cs => some cs
  | _ :: _, [] => none
  | k :: ks, c :: cs => if k = c then matchLit ks cs else none

/-- The conversion `%*s`: skips white space, then takes the characters up to the next white
space; fails at the end of the input. -/
def scanWord (cs : List Char) : Option (List Char × List Char) :=
  let cs := skipSpace cs
  let w := cs.takeWhile (fun c => !isSpace c)
  if w = [] then none else some (w, cs.dropWhile (fun c => !isSpace c))

/-- The test `pos1=0, sscanf(cline, " KEY %n%*s%n", &pos0, &pos1), pos1>0` and the word
`string(cline+pos0, pos1-pos0)` it captures. -/
def scanKeyword (key : String) (cs : List Char) : Option String :=
  match matchLit key.toList (skipSpace cs) with
  | none => none
  | some rest => (scanWord rest).map (fun w => String.mk w.1)

/-- The words that the loop `sscanf(cline, " %n%*s%n", &pos0, &pos1)` of a face line takes
one after the other; `cur` holds the characters of the word being read, last first. -/
def scanWords : List Char → List Char → List String
  | [], cur => if cur = [] then [] else [String.mk cur.reverse]
  | c :: cs, cur =>
    if isSpace c then
      (if cur = [] then scanWords cs [] else String.mk cur.reverse :: scanWords cs [])
    else scanWords cs (c :: cur)

/-- The branch of the `sscanf` chain a line of text takes, in the order of the source:
`mtllib`, `usemtl`, `v`, `vt`, `vn`, `f`.  The conversion `%f` of the C library is the
parameter `scanFloat`: it skips white space and converts the longest prefix that is a
number, or fails. -/
def classify (scanFloat : List Char → Option (FVal × List Char)) (line : String) : Line :=
  let cs := line.toList
  match scanKeyword "mtllib" cs with
  | some file => Line.mtllib file
  | none =>
  match scanKeyword "usemtl" cs with
  | some name => Line.usemtl name
  | none =>
  let three (key : String) : Option (FVal × FVal × FVal) :=
    match matchLit key.toList (skipSpace cs) with
    | none => none
    | some r0 =>
      match scanFloat r0 with
      | none => none
      | some (x, r1) =>
        match scanFloat r1 with
        | none => none
        | some (y, r2) =>
          match scanFloat r2 with
          | none => none
          | some (z, _) => some (x, y, z)
  let two (key : String) : Option (FVal × FVal) :=
    match matchLit key.toList (skipSpace cs) with
    | none => none
    | some r0 =>
      match scanFloat r0 with
      | none => none
      | some (x, r1) =>
        match scanFloat r1 with
        | none => none
        | some (y, _) => some (x, y)
  match three "v" with
  | some (x, y, z) => Line.v x y z
  | none =>
  match two "vt" with
  | some (x, y) => Line.vt x y
  | none =>
  match three "vn" with
  | some (x, y, z) => Line.vn x y z
  | none =>
  match matchLit "f".toList (skipSpace cs) with
  | some rest => Line.f (scanWords rest [])
  | none => Line.other

/-- The first white-space-delimited word of a line (empty for a blank line). -/
def firstWord (line : String) : String :=
  String.mk ((skipSpace line.toList).takeWhile (fun c => !isSpace c))

/-- A stand-in for the conversion `%f` on plain decimal numbers: an optional sign, digits,
and an optional fraction. -/
def sampleScanFloat (cs : List Char) : Option (FVal × List Char) :=
  let cs := skipSpace cs
  let (neg, cs) := match cs with
    | '-' :: r => (true, r)
    | '+' :: r => (false, r)
    | _ => (false, cs)
  let ip := cs.takeWhile Char.isDigit
  let r1 := cs.dropWhile Char.isDigit
  let (fp, r2) := match r1 with
    | '.' :: r => (r.takeWhile Char.isDigit, r.dropWhile Char.isDigit)
    | _ => ([], r1)
  if ip = [] ∧ fp = [] then none
  else
    let num : Nat := (ip ++ fp).foldl (fun acc c => 10 * acc + (c.toNat - 48)) 0
    let q : ℚ := (num : ℚ) / ((10 : ℚ) ^ fp.length)
    some (FVal.fin (if neg then -q else q), r2)

/-! ## ObjLoad.cpp: the triangles handed to the navigation mesh -/

/-- The source position `v[stoi(match[1]) - 1]` a face token names in the pool `v` of the
positions parsed so far; `none` when the first group is unusable or the index is outside
the pool. -/
def tokenPosition (v : List Vec3) (tuple : String) : Option Vec3 :=
  match stoi ((reFarg tuple).getD ([], [], [])).1 with
  | Except.ok k1 =>
    (match readAt v (k1 - 1) with
    | Except.ok p => some p
    | Except.error _ => none)
  | Except.error _ => none

/-- The position a token names, for a token that names one. -/
def cornerOf (v : List Vec3) (tuple : String) : Vec3 := (tokenPosition v tuple).getD Vec3.nan

/-- The triangles of the fan over the tokens of a face line, as source positions: tokens
`(0, i-1, i)` for `i = 2, ..., n-1`, in that order. -/
def faceTriangles (v : List Vec3) (tokens : List String) : List (Vec3 × Vec3 × Vec3) :=
  (List.range (tokens.length - 2)).map (fun j =>
    (cornerOf v (tokens.getD 0 ""), cornerOf v (tokens.getD (j + 1) ""),
      cornerOf v (tokens.getD (j + 2) "")))

/-- The triangles of all the face lines among `ls`, in order; `v` holds the positions
parsed before `ls`, and each face line sees the positions parsed before it. -/
def navTriangles : List Vec3 → List Line → List (Vec3 × Vec3 × Vec3)
  | _, [] => []
  | v, Line.v x y z :: rest => navTriangles (v ++ [⟨x, y, z⟩]) rest
  | v, Line.f tokens :: rest => faceTriangles v tokens ++ navTriangles v rest
  | v, _ :: rest => navTriangles v rest

/-- Every token of every face line names a position parsed before the line. -/
def tokensResolve : List Vec3 → List Line → Bool
  | _, [] => true
  | v, Line.v x y z :: rest => tokensResolve (v ++ [⟨x, y, z⟩]) rest
  | v, Line.f tokens :: rest =>
    tokens.all (fun t => (tokenPosition v t).isSome) && tokensResolve v rest
  | v, _ :: rest => tokensResolve v rest

/-- The sum over the face lines of `max (n - 2) 0`, `n` the number of tokens. -/
def fanCount (ls : List Line) : Nat := ((faceLines ls).map (fun toks => toks.length - 2)).sum

/-- Every slot of the dedup map holds the source position its token names. -/
def PosInv (v : List Vec3) (vertexMap : List (String × Nat)) (vert : List Vec3) : Prop :=
  ∀ tok slot, vertexMap.lookup tok = some slot →
    ∃ p, vert[slot]? = some p ∧ tokenPosition v tok = some p

/-- The positions of the current object, none when there is no object. -/
def vertsOf : Option Object → List Vec3
  | some o => o.vert
  | none => []

/-- Four position lines, the corners of the unit square, and the face line `f 1 2 3 4`. -/
def quadLines : List Line :=
  [Line.v (FVal.fin 0) (FVal.fin 0) (FVal.fin 0), Line.v (FVal.fin 1) (FVal.fin 0) (FVal.fin 0),
   Line.v (FVal.fin 1) (FVal.fin 1) (FVal.fin 0), Line.v (FVal.fin 0) (FVal.fin 1) (FVal.fin 0),
   Line.f ["1", "2", "3", "4"]]

/-! ## GLapp.cpp: an agent at rest over finite records -/

/-- The direction `vec3(0, 0, -1)` of the floor trace of `sceneUpdate`. -/
def downward : QVec3 := ⟨0, 0, -1⟩

/-- An agent at rest (`moveRate = strafeRate = 0`) at the finite position `p`, over the
navigation mesh that holds the finite records `rs`. -/
def restingAt (rs : List QRec) (p : QVec3) (pan : FVal) : GLapp :=
  { position := p.toVec3, pan := pan, moveRate := FVal.fin 0, strafeRate := FVal.fin 0,
    navmesh := NavMesh.ofRecords rs }

/-- The exact floor distance below `p`: the closest hit of the downward ray over `[0, 750]`,
`750` when nothing is hit. -/
def floorDistance (rs : List QRec) (p : QVec3) : ℚ := closestHit rs p downward 0 750

/-- The position floor snapping gives: `z - floorhit + 500` when `250 < floorhit < 750`,
the position itself otherwise. -/
def snapped (rs : List QRec) (p : QVec3) : QVec3 :=
  if 250 < floorDistance rs p ∧ floorDistance rs p < 750 then
    ⟨p.x, p.y, p.z - floorDistance rs p + 500⟩
  else p

/-! ## GLapp.cpp: an agent walking past a wall -/

/-- A floor triangle in the plane `z = 0`: corners `(0,0,0)`, `(4,0,0)`, `(0,4,0)`. -/
def wideFloor : QVec3 × QVec3 × QVec3 := (⟨0, 0, 0⟩, ⟨4, 0, 0⟩, ⟨0, 4, 0⟩)

/-- A wall triangle in the plane `y = 10`: corners `(0,10,-1/2)`, `(1,10,-1/2)`,
`(0,10,1/2)`. -/
def farWall : QVec3 × QVec3 × QVec3 := (⟨0, 10, -1/2⟩, ⟨1, 10, -1/2⟩, ⟨0, 10, 1/2⟩)

/-- An agent at `(1/8, 1/8, 600)` above the floor `wideFloor`, moving forward (towards
`+y`) at rate `1`; the wall `farWall` is ahead, out of reach of one step. -/
def corridorApp : GLapp :=
  { position := QVec3.toVec3 ⟨1/8, 1/8, 600⟩, pan := FVal.fin 0, moveRate := FVal.fin 1,
    strafeRate := FVal.fin 0,
    navmesh := NavMesh.build sampleRsqrt [embTri wideFloor, embTri farWall] }

/-! ## The orderings of the corners of a triangle -/

/-- The six orderings of the corners of a triangle. -/
def orderings (t : QVec3 × QVec3 × QVec3) : List (QVec3 × QVec3 × QVec3) :=
  [(t.1, t.2.1, t.2.2), (t.1, t.2.2, t.2.1), (t.2.1, t.1, t.2.2),
   (t.2.1, t.2.2, t.1), (t.2.2, t.1, t.2.1), (t.2.2, t.2.1, t.1)]

/-- The floor triangle `(0,0,0)`, `(1,0,0)`, `(0,1,0)` with finite corners. -/
def floorCorners : QVec3 × QVec3 × QVec3 := (⟨0, 0, 0⟩, ⟨1, 0, 0⟩, ⟨0, 1, 0⟩)

/-- The floor triangle with its last two corners exchanged: the other winding. -/
def floorFlipped : QVec3 × QVec3 × QVec3 := (⟨0, 0, 0⟩, ⟨0, 1, 0⟩, ⟨1, 0, 0⟩)

/-- A triangle in the plane `z = 1`: corners `(0,0,1)`, `(1,0,1)`, `(0,1,1)`. -/
def shelfCorners : QVec3 × QVec3 × QVec3 := (⟨0, 0, 1⟩, ⟨1, 0, 1⟩, ⟨0, 1, 1⟩)

/-! # Theorems -/

/-! ## Scalar and vector evaluation on finite values -/

namespace FVal

@[simp] theorem neg_fin (a : ℚ) : (fin a).neg = fin (-a) := rfl

@[simp] theorem add_fin (a b : ℚ) : (fin a).add (fin b) = fin (a + b) := rfl

@[simp] theorem sub_fin (a b : ℚ) : (fin a).sub (fin b) = fin (a - b) := by
  simp [sub, sub_eq_add_neg]

@[simp] theorem mul_fin (a b : ℚ) : (fin a).mul (fin b) = fin (a * b) := rfl

theorem div_fin (a b : ℚ) :
    (fin a).div (fin b) = if b = 0 then infOfSign true a else fin (a / b) := rfl

theorem div_fin_of_ne {a b : ℚ} (h : b ≠ 0) : (fin a).div (fin b) = fin (a / b) := by
  simp [div_fin, h]

@[simp] theorem lt_fin (a b : ℚ) : (fin a).lt (fin b) = decide (a < b) := rfl

@[simp] theorem gt_fin (a b : ℚ) : (fin a).gt (fin b) = decide (b < a) := rfl

end FVal

/-! ## The loops on finite records -/

@[simp] theorem Vec4.dot_toVec4 (a b : QVec4) :
    Vec4.dot a.toVec4 b.toVec4 = FVal.fin (QVec4.dot a b) := by
  simp [Vec4.dot, QVec4.toVec4, QVec4.dot]

theorem Vec4.ofVec3_toVec3 (v : QVec3) (w : ℚ) :
    Vec4.ofVec3 v.toVec3 (FVal.fin w) = (QVec4.ofVec3 v w).toVec4 := rfl

@[simp] theorem Vec3.smul_toVec3 (t : ℚ) (v : QVec3) :
    Vec3.smul (FVal.fin t) v.toVec3 = (QVec3.smul t v).toVec3 := rfl

@[simp] theorem Vec3.add_toVec3 (a b : QVec3) :
    a.toVec3.add b.toVec3 = (a.add b).toVec3 := rfl

theorem FVal.div_zero_lt_or_gt {a : ℚ} (h : a ≠ 0) (near far : ℚ) :
    (((FVal.fin a).div (FVal.fin 0)).lt (FVal.fin near) ||
      ((FVal.fin a).div (FVal.fin 0)).gt (FVal.fin far)) = true := by
  simp only [FVal.div_fin, if_true, FVal.infOfSign, h, if_false]
  by_cases hp : 0 < a <;> simp [hp, FVal.lt, FVal.gt]

theorem NavMesh.traceFrom_cons_finite (m : NavMesh) (r : QRec) (start direction : QVec3)
    (near far : ℚ) (planes : List Vec4) (i : Nat)
    (ha : m.alpha[i]? = some r.alpha.toVec4) (hb : m.beta[i]? = some r.beta.toVec4)
    (hp : ¬ r.inPlane start direction) :
    NavMesh.traceFrom m start.toVec3 direction.toVec3 (FVal.fin near)
        (r.plane.toVec4 :: planes) i (FVal.fin far) =
      NavMesh.traceFrom m start.toVec3 direction.toVec3 (FVal.fin near) planes (i + 1)
        (FVal.fin (if r.den direction ≠ 0 ∧ r.qualifies start direction near far
          then r.tParam start direction else far)) := by
  rw [NavMesh.traceFrom]
  simp only [Vec4.ofVec3_toVec3, Vec4.dot_toVec4, FVal.neg_fin, ha, hb]
  by_cases hd : r.den direction = 0
  · have hn : r.num start ≠ 0 := fun h => hp ⟨h, hd⟩
    have hd2 : QVec4.dot r.plane (QVec4.ofVec3 direction 0) = 0 := hd
    have hn2 : -QVec4.dot r.plane (QVec4.ofVec3 start 1) ≠ 0 := hn
    rw [hd2, FVal.div_zero_lt_or_gt hn2]
    simp [hd]
  · have hd2 : QVec4.dot r.plane (QVec4.ofVec3 direction 0) ≠ 0 := hd
    rw [FVal.div_fin_of_ne hd2]
    simp only [Vec3.smul_toVec3, Vec3.add_toVec3, Vec4.ofVec3_toVec3, Vec4.dot_toVec4,
      FVal.add_fin, FVal.lt_fin, FVal.gt_fin, Bool.or_eq_true, decide_eq_true_eq]
    change (if r.tParam start direction < near ∨ far < r.tParam start direction then _
      else if r.coordA start direction < 0 ∨ 1 < r.coordA start direction then _
      else if r.coordB start direction < 0 ∨
          1 < r.coordA start direction + r.coordB start direction then _
      else NavMesh.traceFrom m start.toVec3 direction.toVec3 (FVal.fin near) planes (i + 1)
        (FVal.fin (r.tParam start direction))) = _
    by_cases hq : r.qualifies start direction near far
    · obtain ⟨h1, h2, h3, h4, h5, h6⟩ := hq
      have hq : r.qualifies start direction near far := ⟨h1, h2, h3, h4, h5, h6⟩
      simp [hd, hq, not_lt.mpr h1, not_lt.mpr h2, not_lt.mpr h3, not_lt.mpr h4, not_lt.mpr h5,
        not_lt.mpr h6]
    · simp only [hd, hq, and_false, if_false, ne_eq, not_false_eq_true]
      simp only [QRec.qualifies, QRec.baryOk, not_and_or, not_le] at hq
      split_ifs <;> first | rfl | (exfalso; tauto)
theorem NavMesh.anyhitFrom_cons_finite (m : NavMesh) (r : QRec) (start direction : QVec3)
    (near far : ℚ) (planes : List Vec4) (i : Nat)
    (ha : m.alpha[i]? = some r.alpha.toVec4) (hb : m.beta[i]? = some r.beta.toVec4)
    (hp : ¬ r.inPlane start direction) :
    NavMesh.anyhitFrom m start.toVec3 direction.toVec3 (FVal.fin near) (FVal.fin far)
        (r.plane.toVec4 :: planes) i =
      if r.den direction ≠ 0 ∧ r.qualifies start direction near far then some true
      else NavMesh.anyhitFrom m start.toVec3 direction.toVec3 (FVal.fin near) (FVal.fin far)
        planes (i + 1) := by
  rw [NavMesh.anyhitFrom]
  simp only [Vec4.ofVec3_toVec3, Vec4.dot_toVec4, FVal.neg_fin, ha, hb]
  by_cases hd : r.den direction = 0
  · have hn : r.num start ≠ 0 := fun h => hp ⟨h, hd⟩
    have hd2 : QVec4.dot r.plane (QVec4.ofVec3 direction 0) = 0 := hd
    have hn2 : -QVec4.dot r.plane (QVec4.ofVec3 start 1) ≠ 0 := hn
    rw [hd2, FVal.div_zero_lt_or_gt hn2]
    simp [hd]
  · have hd2 : QVec4.dot r.plane (QVec4.ofVec3 direction 0) ≠ 0 := hd
    rw [FVal.div_fin_of_ne hd2]
    simp only [Vec3.smul_toVec3, Vec3.add_toVec3, Vec4.ofVec3_toVec3, Vec4.dot_toVec4,
      FVal.add_fin, FVal.lt_fin, FVal.gt_fin, Bool.or_eq_true, decide_eq_true_eq]
    change (if r.tParam start direction < near ∨ far < r.tParam start direction then _
      else if r.coordA start direction < 0 ∨ 1 < r.coordA start direction then _
      else if r.coordB start direction < 0 ∨
          1 < r.coordA start direction + r.coordB start direction then _
      else some true) = _
    by_cases hq : r.qualifies start direction near far
    · obtain ⟨h1, h2, h3, h4, h5, h6⟩ := hq
      have hq : r.qualifies start direction near far := ⟨h1, h2, h3, h4, h5, h6⟩
      simp [hd, hq, not_lt.mpr h1, not_lt.mpr h2, not_lt.mpr h3, not_lt.mpr h4, not_lt.mpr h5,
        not_lt.mpr h6]
    · simp only [hd, hq, and_false, if_false, ne_eq, not_false_eq_true]
      simp only [QRec.qualifies, QRec.baryOk, not_and_or, not_le] at hq
      split_ifs <;> first | rfl | (exfalso; tauto)

theorem NavMesh.ofRecords_alpha_get (pre suf : List QRec) (r : QRec) :
    (NavMesh.ofRecords (pre ++ r :: suf)).alpha[pre.length]? = some r.alpha.toVec4 := by
  have h : pre.length = (pre.map (fun r => r.alpha.toVec4)).length := by simp
  simp only [NavMesh.ofRecords, List.map_append, List.map_cons]
  rw [h, List.getElem?_append_right (le_refl _)]
  simp

theorem NavMesh.ofRecords_beta_get (pre suf : List QRec) (r : QRec) :
    (NavMesh.ofRecords (pre ++ r :: suf)).beta[pre.length]? = some r.beta.toVec4 := by
  have h : pre.length = (pre.map (fun r => r.beta.toVec4)).length := by simp
  simp only [NavMesh.ofRecords, List.map_append, List.map_cons]
  rw [h, List.getElem?_append_right (le_refl _)]
  simp

theorem hitParams_nil (start direction : QVec3) (near far : ℚ) :
    hitParams [] start direction near far = [] := rfl

theorem hitParams_cons (r : QRec) (rs : List QRec) (start direction : QVec3) (near far : ℚ) :
    hitParams (r :: rs) start direction near far =
      if r.den direction ≠ 0 ∧ r.qualifies start direction near far
      then r.tParam start direction :: hitParams rs start direction near far
      else hitParams rs start direction near far := by
  unfold hitParams
  by_cases h : r.den direction ≠ 0 ∧ r.qualifies start direction near far
  · simp [List.filter_cons, h]
  · rw [if_neg h, List.filter_cons]
    simp [h]

theorem NavMesh.traceFrom_ofRecords (start direction : QVec3) (near far : ℚ) :
    ∀ (suf pre : List QRec) (cur : ℚ), (∀ r ∈ suf, ¬ r.inPlane start direction) → cur ≤ far →
      NavMesh.traceFrom (NavMesh.ofRecords (pre ++ suf)) start.toVec3 direction.toVec3
          (FVal.fin near) (suf.map (fun r => r.plane.toVec4)) pre.length (FVal.fin cur) =
        some (FVal.fin ((hitParams suf start direction near far).foldl min cur)) := by
  intro suf
  induction suf with
  | nil => intro pre cur _ _; simp [NavMesh.traceFrom, hitParams_nil]
  | cons r rest ih =>
    intro pre cur hp hc
    have hr : ¬ r.inPlane start direction := hp r (List.mem_cons_self _ _)
    have hrest : ∀ x ∈ rest, ¬ x.inPlane start direction :=
      fun x hx => hp x (List.mem_cons_of_mem _ hx)
    rw [List.map_cons, NavMesh.traceFrom_cons_finite _ r start direction near cur _ _
      (NavMesh.ofRecords_alpha_get pre rest r) (NavMesh.ofRecords_beta_get pre rest r) hr]
    have hpre : pre ++ r :: rest = (pre ++ [r]) ++ rest := by simp
    have hlen : pre.length + 1 = (pre ++ [r]).length := by simp
    rw [hpre, hlen, hitParams_cons]
    by_cases hd : r.den direction ≠ 0
    · by_cases hq : r.qualifies start direction near cur
      · have hq2 : r.qualifies start direction near far := ⟨hq.1, le_trans hq.2.1 hc, hq.2.2⟩
        rw [if_pos ⟨hd, hq⟩, if_pos ⟨hd, hq2⟩, ih (pre ++ [r]) _ hrest (le_trans hq.2.1 hc),
          List.foldl_cons, min_eq_right hq.2.1]
      · rw [if_neg (fun h => hq h.2), ih (pre ++ [r]) _ hrest hc]
        by_cases hq2 : r.qualifies start direction near far
        · have hlt : cur < r.tParam start direction := by
            by_contra hle
            exact hq ⟨hq2.1, not_lt.mp hle, hq2.2.2⟩
          rw [if_pos ⟨hd, hq2⟩, List.foldl_cons, min_eq_left (le_of_lt hlt)]
        · rw [if_neg (fun h => hq2 h.2)]
    · rw [if_neg (fun h => hd h.1), if_neg (fun h => hd h.1), ih (pre ++ [r]) _ hrest hc]

theorem NavMesh.anyhitFrom_ofRecords (start direction : QVec3) (near far : ℚ) :
    ∀ (suf pre : List QRec), (∀ r ∈ suf, ¬ r.inPlane start direction) →
      NavMesh.anyhitFrom (NavMesh.ofRecords (pre ++ suf)) start.toVec3 direction.toVec3
          (FVal.fin near) (FVal.fin far) (suf.map (fun r => r.plane.toVec4)) pre.length =
        some (decide (hitParams suf start direction near far ≠ [])) := by
  intro suf
  induction suf with
  | nil => intro pre _; simp [NavMesh.anyhitFrom, hitParams_nil]
  | cons r rest ih =>
    intro pre hp
    have hr : ¬ r.inPlane start direction := hp r (List.mem_cons_self _ _)
    have hrest : ∀ x ∈ rest, ¬ x.inPlane start direction :=
      fun x hx => hp x (List.mem_cons_of_mem _ hx)
    rw [List.map_cons, NavMesh.anyhitFrom_cons_finite _ r start direction near far _ _
      (NavMesh.ofRecords_alpha_get pre rest r) (NavMesh.ofRecords_beta_get pre rest r) hr]
    have hpre : pre ++ r :: rest = (pre ++ [r]) ++ rest := by simp
    have hlen : pre.length + 1 = (pre ++ [r]).length := by simp
    rw [hpre, hlen, hitParams_cons, ih (pre ++ [r]) hrest]
    by_cases h : r.den direction ≠ 0 ∧ r.qualifies start direction near far
    · simp [h]
    · rw [if_neg h, if_neg h]

/-- On finite records none of whose planes contains the ray, `trace` returns the minimum of
`far` and the parameters of the qualifying records. -/
theorem NavMesh.trace_ofRecords (rs : List QRec) (start direction : QVec3) (near far : ℚ)
    (hp : ∀ r ∈ rs, ¬ r.inPlane start direction) :
    NavMesh.trace (NavMesh.ofRecords rs) start.toVec3 direction.toVec3 (FVal.fin near)
        (FVal.fin far) = some (FVal.fin (closestHit rs start direction near far)) := by
  have h := NavMesh.traceFrom_ofRecords start direction near far rs [] far hp le_rfl
  simpa [NavMesh.trace, closestHit, NavMesh.ofRecords] using h

/-- On finite records none of whose planes contains the ray, `anyhit` tells whether some
record qualifies. -/
theorem NavMesh.anyhit_ofRecords (rs : List QRec) (start direction : QVec3) (near far : ℚ)
    (hp : ∀ r ∈ rs, ¬ r.inPlane start direction) :
    NavMesh.anyhit (NavMesh.ofRecords rs) start.toVec3 direction.toVec3 (FVal.fin near)
        (FVal.fin far) = some (decide (hitParams rs start direction near far ≠ [])) := by
  have h := NavMesh.anyhitFrom_ofRecords start direction near far rs [] hp
  simpa [NavMesh.anyhit, NavMesh.ofRecords] using h

/-! ## Closest hit (`trace`) -/

theorem foldl_min_le_init (l : List ℚ) (c : ℚ) : l.foldl min c ≤ c := by
  induction l generalizing c with
  | nil => exact le_rfl
  | cons x xs ih => exact le_trans (ih (min c x)) (min_le_left c x)

theorem foldl_min_le_mem (l : List ℚ) (c : ℚ) : ∀ x ∈ l, l.foldl min c ≤ x := by
  induction l generalizing c with
  | nil => intro x hx; cases hx
  | cons y ys ih =>
    intro x hx
    rcases List.mem_cons.mp hx with h | h
    · subst h
      exact le_trans (foldl_min_le_init ys (min c x)) (min_le_right c x)
    · exact ih (min c y) x h

theorem foldl_min_eq_or_mem (l : List ℚ) (c : ℚ) : l.foldl min c = c ∨ l.foldl min c ∈ l := by
  induction l generalizing c with
  | nil => exact Or.inl rfl
  | cons y ys ih =>
    rcases ih (min c y) with h | h
    · rcases min_choice c y with hc | hy
      · exact Or.inl (by rw [List.foldl_cons, h, hc])
      · exact Or.inr (by rw [List.foldl_cons, h, hy]; exact List.mem_cons_self _ _)
    · exact Or.inr (List.mem_cons_of_mem _ h)

theorem mem_hitParams {rs : List QRec} {start direction : QVec3} {near far x : ℚ} :
    x ∈ hitParams rs start direction near far ↔
      ∃ r ∈ rs, (r.den direction ≠ 0 ∧ r.qualifies start direction near far) ∧
        r.tParam start direction = x := by
  simp [hitParams, List.mem_map, List.mem_filter, and_assoc]

/-- C1: for finite records and a finite ray parallel to no record's plane, `trace` returns
a value `res` that is the minimum of the original `far` and the parameters `t_i` of the
qualifying records: it is at most `far`, at most every qualifying `t_i`, and equal to `far`
or to a qualifying `t_i`; it is `far` itself when no record qualifies. -/
theorem trace_closest_hit (rs : List QRec) (start direction : QVec3) (near far : ℚ)
    (hpar : ∀ r ∈ rs, r.den direction ≠ 0) :
    ∃ res : ℚ,
      NavMesh.trace (NavMesh.ofRecords rs) start.toVec3 direction.toVec3 (FVal.fin near)
        (FVal.fin far) = some (FVal.fin res) ∧
      res = ((rs.filter (fun r => decide (r.qualifies start direction near far))).map
        (fun r => r.tParam start direction)).foldl min far ∧
      res ≤ far ∧
      (∀ r ∈ rs, r.qualifies start direction near far → res ≤ r.tParam start direction) ∧
      (res = far ∨ ∃ r ∈ rs, r.qualifies start direction near far ∧
        r.tParam start direction = res) ∧
      ((∀ r ∈ rs, ¬ r.qualifies start direction near far) → res = far) := by
  refine ⟨closestHit rs start direction near far, ?_, ?_, ?_, ?_, ?_, ?_⟩
  · exact NavMesh.trace_ofRecords rs start direction near far (fun r hr h => hpar r hr h.2)
  · unfold closestHit hitParams
    congr 2
    apply List.filter_congr
    intro r hr
    simp [hpar r hr]
  · exact foldl_min_le_init _ _
  · intro r hr hq
    exact foldl_min_le_mem _ _ _ (mem_hitParams.mpr ⟨r, hr, ⟨hpar r hr, hq⟩, rfl⟩)
  · rcases foldl_min_eq_or_mem (hitParams rs start direction near far) far with h | h
    · exact Or.inl h
    · obtain ⟨r, hr, hq, ht⟩ := mem_hitParams.mp h
      exact Or.inr ⟨r, hr, hq.2, ht⟩
  · intro hnone
    rcases foldl_min_eq_or_mem (hitParams rs start direction near far) far with h | h
    · exact h
    · obtain ⟨r, hr, hq, _⟩ := mem_hitParams.mp h
      exact absurd hq.2 (hnone r hr)

/-- Witness for C1: one floor triangle, a ray straight down from height 3. -/
theorem trace_closest_hit_witness :
    (∀ r ∈ [sampleFloor], r.den ⟨0, 0, -1⟩ ≠ 0) ∧
    ∃ res : ℚ,
      NavMesh.trace (NavMesh.ofRecords [sampleFloor]) (QVec3.toVec3 ⟨1/4, 1/4, 3⟩)
        (QVec3.toVec3 ⟨0, 0, -1⟩) (FVal.fin 0) (FVal.fin 10) = some (FVal.fin res) ∧
      res = (([sampleFloor].filter (fun r => decide (r.qualifies ⟨1/4, 1/4, 3⟩ ⟨0, 0, -1⟩ 0 10))).map
        (fun r => r.tParam ⟨1/4, 1/4, 3⟩ ⟨0, 0, -1⟩)).foldl min 10 ∧
      res ≤ 10 ∧
      (∀ r ∈ [sampleFloor], r.qualifies ⟨1/4, 1/4, 3⟩ ⟨0, 0, -1⟩ 0 10 →
        res ≤ r.tParam ⟨1/4, 1/4, 3⟩ ⟨0, 0, -1⟩) ∧
      (res = 10 ∨ ∃ r ∈ [sampleFloor], r.qualifies ⟨1/4, 1/4, 3⟩ ⟨0, 0, -1⟩ 0 10 ∧
        r.tParam ⟨1/4, 1/4, 3⟩ ⟨0, 0, -1⟩ = res) ∧
      ((∀ r ∈ [sampleFloor], ¬ r.qualifies ⟨1/4, 1/4, 3⟩ ⟨0, 0, -1⟩ 0 10) → res = 10) :=
  ⟨by decide!, trace_closest_hit [sampleFloor] ⟨1/4, 1/4, 3⟩ ⟨0, 0, -1⟩ 0 10 (by decide!)⟩

/-! ## The loops on arbitrary records: both apply the same per-triangle test -/

theorem NavMesh.traceFrom_cons (m : NavMesh) (pl al be : Vec4) (start direction : Vec3)
    (near far : FVal) (planes : List Vec4) (i : Nat)
    (ha : m.alpha[i]? = some al) (hb : m.beta[i]? = some be) :
    NavMesh.traceFrom m start direction near (pl :: planes) i far =
      NavMesh.traceFrom m start direction near planes (i + 1)
        (if NavMesh.accepts pl al be start direction near far
          then NavMesh.param pl start direction else far) := by
  rw [NavMesh.traceFrom]
  simp only [ha, hb, NavMesh.accepts, NavMesh.param]
  split_ifs <;> simp_all

theorem NavMesh.anyhitFrom_cons (m : NavMesh) (pl al be : Vec4) (start direction : Vec3)
    (near far : FVal) (planes : List Vec4) (i : Nat)
    (ha : m.alpha[i]? = some al) (hb : m.beta[i]? = some be) :
    NavMesh.anyhitFrom m start direction near far (pl :: planes) i =
      if NavMesh.accepts pl al be start direction near far then some true
      else NavMesh.anyhitFrom m start direction near far planes (i + 1) := by
  rw [NavMesh.anyhitFrom]
  simp only [ha, hb, NavMesh.accepts, NavMesh.param]
  split_ifs <;> simp_all

theorem getElem?_of_drop_eq_cons {α : Type} {l t : List α} {a : α} {i : Nat}
    (h : l.drop i = a :: t) : l[i]? = some a ∧ l.drop (i + 1) = t := by
  constructor
  · have h0 : (l.drop i)[0]? = some a := by rw [h]; simp
    rw [List.getElem?_drop] at h0
    simpa using h0
  · have h1 : (l.drop i).drop 1 = t := by rw [h]; rfl
    rw [List.drop_drop] at h1
    simpa [Nat.add_comm] using h1

theorem NavMesh.traceFrom_lockstep (m : NavMesh) (start direction : Vec3) (near : FVal) :
    ∀ (planes als bes : List Vec4) (i : Nat) (far : FVal),
      m.alpha.drop i = als → m.beta.drop i = bes →
      als.length = planes.length → bes.length = planes.length →
      NavMesh.traceFrom m start direction near planes i far =
        some ((List.zip planes (List.zip als bes)).foldl
          (fun cur rec => if NavMesh.accepts rec.1 rec.2.1 rec.2.2 start direction near cur
            then NavMesh.param rec.1 start direction else cur) far) := by
  intro planes
  induction planes with
  | nil => intro als bes i far _ _ _ _; simp [NavMesh.traceFrom]
  | cons pl ps ih =>
    intro als bes i far ha hb hla hlb
    cases als with
    | nil => simp at hla
    | cons al als =>
      cases bes with
      | nil => simp at hlb
      | cons be bes =>
        obtain ⟨ha1, ha2⟩ := getElem?_of_drop_eq_cons ha
        obtain ⟨hb1, hb2⟩ := getElem?_of_drop_eq_cons hb
        rw [NavMesh.traceFrom_cons m pl al be start direction near far ps i ha1 hb1,
          ih als bes (i + 1) _ ha2 hb2 (by simpa using hla) (by simpa using hlb)]
        simp

theorem NavMesh.anyhitFrom_lockstep (m : NavMesh) (start direction : Vec3) (near far : FVal) :
    ∀ (planes als bes : List Vec4) (i : Nat),
      m.alpha.drop i = als → m.beta.drop i = bes →
      als.length = planes.length → bes.length = planes.length →
      NavMesh.anyhitFrom m start direction near far planes i =
        some ((List.zip planes (List.zip als bes)).any
          (fun rec => NavMesh.accepts rec.1 rec.2.1 rec.2.2 start direction near far)) := by
  intro planes
  induction planes with
  | nil => intro als bes i _ _ _ _; simp [NavMesh.anyhitFrom]
  | cons pl ps ih =>
    intro als bes i ha hb hla hlb
    cases als with
    | nil => simp at hla
    | cons al als =>
      cases bes with
      | nil => simp at hlb
      | cons be bes =>
        obtain ⟨ha1, ha2⟩ := getElem?_of_drop_eq_cons ha
        obtain ⟨hb1, hb2⟩ := getElem?_of_drop_eq_cons hb
        rw [NavMesh.anyhitFrom_cons m pl al be start direction near far ps i ha1 hb1,
          ih als bes (i + 1) ha2 hb2 (by simpa using hla) (by simpa using hlb)]
        by_cases hacc : NavMesh.accepts pl al be start direction near far = true
        · simp [hacc]
        · simp [hacc]

/-- With the three arrays in step, `trace` folds the per-triangle test over the records,
shrinking `far` to the parameter of each accepted record. -/
theorem NavMesh.trace_eq_foldl (m : NavMesh) (h : m.lockstep) (start direction : Vec3)
    (near far : FVal) :
    m.trace start direction near far =
      some (m.records.foldl
        (fun cur rec => if NavMesh.accepts rec.1 rec.2.1 rec.2.2 start direction near cur
          then NavMesh.param rec.1 start direction else cur) far) :=
  NavMesh.traceFrom_lockstep m start direction near m.plane m.alpha m.beta 0 far rfl rfl h.1 h.2

/-- With the three arrays in step, `anyhit` tells whether some record passes the test. -/
theorem NavMesh.anyhit_eq_any (m : NavMesh) (h : m.lockstep) (start direction : Vec3)
    (near far : FVal) :
    m.anyhit start direction near far =
      some (m.records.any
        (fun rec => NavMesh.accepts rec.1 rec.2.1 rec.2.2 start direction near far)) :=
  NavMesh.anyhitFrom_lockstep m start direction near far m.plane m.alpha m.beta 0 rfl rfl h.1 h.2

/-! ## Any hit (`anyhit`) -/

theorem NavMesh.accepts_finite (r : QRec) (start direction : QVec3) (near far : ℚ)
    (hp : ¬ r.inPlane start direction) :
    NavMesh.accepts r.plane.toVec4 r.alpha.toVec4 r.beta.toVec4 start.toVec3 direction.toVec3
        (FVal.fin near) (FVal.fin far) =
      decide (r.den direction ≠ 0 ∧ r.qualifies start direction near far) := by
  simp only [NavMesh.accepts, NavMesh.param, Vec4.ofVec3_toVec3, Vec4.dot_toVec4, FVal.neg_fin]
  by_cases hd : r.den direction = 0
  · have hn : r.num start ≠ 0 := fun h => hp ⟨h, hd⟩
    have hd2 : QVec4.dot r.plane (QVec4.ofVec3 direction 0) = 0 := hd
    have hn2 : -QVec4.dot r.plane (QVec4.ofVec3 start 1) ≠ 0 := hn
    rw [hd2, FVal.div_zero_lt_or_gt hn2]
    simp [hd]
  · have hd2 : QVec4.dot r.plane (QVec4.ofVec3 direction 0) ≠ 0 := hd
    rw [FVal.div_fin_of_ne hd2]
    simp only [Vec3.smul_toVec3, Vec3.add_toVec3, Vec4.ofVec3_toVec3, Vec4.dot_toVec4,
      FVal.add_fin, FVal.lt_fin, FVal.gt_fin]
    change (!(decide (r.tParam start direction < near) || decide (far < r.tParam start direction)) &&
      (!(decide (r.coordA start direction < 0) || decide (1 < r.coordA start direction)) &&
        !(decide (r.coordB start direction < 0) ||
          decide (1 < r.coordA start direction + r.coordB start direction)))) = _
    rw [Bool.eq_iff_iff]
    simp only [Bool.and_eq_true, Bool.not_eq_true', Bool.or_eq_false_iff, decide_eq_false_iff_not,
      not_lt, decide_eq_true_eq, QRec.qualifies, QRec.baryOk, ne_eq, hd, not_false_eq_true,
      true_and]
    tauto

/-- C3: with the three arrays in step, `anyhit` returns true exactly when at least one
stored record passes the per-triangle test, which is the very test `trace` folds over the
records; it returns false on the empty mesh; and on a finite record and a finite ray that
does not lie in the record's plane the test reads: the ray crosses the plane, `near ≤ t ≤ far`,
`0 ≤ a ≤ 1`, `b ≥ 0`, `a + b ≤ 1`. -/
theorem anyhit_iff_some_record_accepted (m : NavMesh) (h : m.lockstep)
    (start direction : Vec3) (near far : FVal) :
    (∃ hit : Bool, m.anyhit start direction near far = some hit ∧
      (hit = true ↔ ∃ rec ∈ m.records,
        NavMesh.accepts rec.1 rec.2.1 rec.2.2 start direction near far = true)) ∧
    m.trace start direction near far =
      some (m.records.foldl
        (fun cur rec => if NavMesh.accepts rec.1 rec.2.1 rec.2.2 start direction near cur
          then NavMesh.param rec.1 start direction else cur) far) ∧
    NavMesh.empty.anyhit start direction near far = some false ∧
    (∀ (r : QRec) (s d : QVec3) (n f : ℚ), ¬ r.inPlane s d →
      (NavMesh.accepts r.plane.toVec4 r.alpha.toVec4 r.beta.toVec4 s.toVec3 d.toVec3
          (FVal.fin n) (FVal.fin f) = true ↔
        r.den d ≠ 0 ∧ n ≤ r.tParam s d ∧ r.tParam s d ≤ f ∧ 0 ≤ r.coordA s d ∧
          r.coordA s d ≤ 1 ∧ 0 ≤ r.coordB s d ∧ r.coordA s d + r.coordB s d ≤ 1)) := by
  refine ⟨⟨_, NavMesh.anyhit_eq_any m h start direction near far, ?_⟩,
    NavMesh.trace_eq_foldl m h start direction near far, rfl, ?_⟩
  · simp [List.any_eq_true]
  · intro r s d n f hin
    rw [NavMesh.accepts_finite r s d n f hin]
    simp [QRec.qualifies, QRec.baryOk]

/-- Witness for C3: the mesh holding one floor triangle, a ray straight down. -/
theorem anyhit_iff_some_record_accepted_witness :
    floorMesh.lockstep ∧
    (∃ hit : Bool, floorMesh.anyhit (QVec3.toVec3 ⟨1/4, 1/4, 3⟩) (QVec3.toVec3 ⟨0, 0, -1⟩)
        (FVal.fin 0) (FVal.fin 10) = some hit ∧
      (hit = true ↔ ∃ rec ∈ floorMesh.records,
        NavMesh.accepts rec.1 rec.2.1 rec.2.2 (QVec3.toVec3 ⟨1/4, 1/4, 3⟩)
          (QVec3.toVec3 ⟨0, 0, -1⟩) (FVal.fin 0) (FVal.fin 10) = true)) :=
  ⟨by decide, (anyhit_iff_some_record_accepted floorMesh (by decide)
    (QVec3.toVec3 ⟨1/4, 1/4, 3⟩) (QVec3.toVec3 ⟨0, 0, -1⟩) (FVal.fin 0) (FVal.fin 10)).1⟩

/-- The floor mesh built by `addTriangle` holds the record `sampleFloor`. -/
theorem floorMesh_eq : floorMesh = NavMesh.ofRecords [sampleFloor] := by decide!

/-- C2, counterexample: over the floor triangle, a ray straight down from height 3 with
`far = 3` hits at exactly `t = far`; `anyhit` returns true while `trace` returns `3`, which is
not strictly below `far`. -/
theorem anyhit_iff_trace_lt_counterexample :
    ¬ (floorMesh.anyhit (QVec3.toVec3 ⟨1/4, 1/4, 3⟩) (QVec3.toVec3 ⟨0, 0, -1⟩)
          (FVal.fin 0) (FVal.fin 3) = some true ↔
        ∃ v, floorMesh.trace (QVec3.toVec3 ⟨1/4, 1/4, 3⟩) (QVec3.toVec3 ⟨0, 0, -1⟩)
          (FVal.fin 0) (FVal.fin 3) = some v ∧ v.lt (FVal.fin 3) = true) := by
  have h1 : floorMesh.anyhit (QVec3.toVec3 ⟨1/4, 1/4, 3⟩) (QVec3.toVec3 ⟨0, 0, -1⟩)
      (FVal.fin 0) (FVal.fin 3) = some true := by decide!
  have h2 : floorMesh.trace (QVec3.toVec3 ⟨1/4, 1/4, 3⟩) (QVec3.toVec3 ⟨0, 0, -1⟩)
      (FVal.fin 0) (FVal.fin 3) = some (FVal.fin 3) := by decide!
  intro hiff
  obtain ⟨v, hv, hlt⟩ := hiff.mp h1
  rw [h2] at hv
  cases hv
  simp at hlt

/-- C2, amended: for finite records and a finite ray lying in no record's plane, `anyhit`
returns true exactly when `trace` returns a value strictly below `far`, or some record
qualifies at exactly `t = far`; so `trace < far` implies `anyhit`, and `anyhit` false implies
that `trace` returns `far`. -/
theorem anyhit_iff_trace_lt_or_hit_at_far (rs : List QRec) (start direction : QVec3)
    (near far : ℚ) (hp : ∀ r ∈ rs, ¬ r.inPlane start direction) :
    ∃ (res : ℚ) (hit : Bool),
      NavMesh.trace (NavMesh.ofRecords rs) start.toVec3 direction.toVec3 (FVal.fin near)
        (FVal.fin far) = some (FVal.fin res) ∧
      NavMesh.anyhit (NavMesh.ofRecords rs) start.toVec3 direction.toVec3 (FVal.fin near)
        (FVal.fin far) = some hit ∧
      (hit = true ↔ (res < far ∨ ∃ r ∈ rs, r.den direction ≠ 0 ∧
        r.qualifies start direction near far ∧ r.tParam start direction = far)) ∧
      (res < far → hit = true) ∧ (hit = false → res = far) := by
  refine ⟨closestHit rs start direction near far,
    decide (hitParams rs start direction near far ≠ []),
    NavMesh.trace_ofRecords rs start direction near far hp,
    NavMesh.anyhit_ofRecords rs start direction near far hp, ?_, ?_, ?_⟩
  · rw [decide_eq_true_eq]
    constructor
    · intro hne
      by_cases hlt : closestHit rs start direction near far < far
      · exact Or.inl hlt
      · right
        obtain ⟨x, hx⟩ := List.exists_mem_of_ne_nil _ hne
        obtain ⟨r, hr, hq, ht⟩ := mem_hitParams.mp hx
        refine ⟨r, hr, hq.1, hq.2, ?_⟩
        have h1 : closestHit rs start direction near far ≤ x := foldl_min_le_mem _ _ x hx
        have h2 : x ≤ far := ht ▸ hq.2.2.1
        rw [ht]
        exact le_antisymm h2 (le_trans (not_lt.mp hlt) h1)
    · rintro (hlt | ⟨r, hr, hd, hq, _⟩)
      · rcases foldl_min_eq_or_mem (hitParams rs start direction near far) far with h | h
        · exact absurd h (ne_of_lt hlt)
        · exact List.ne_nil_of_mem h
      · exact List.ne_nil_of_mem (mem_hitParams.mpr ⟨r, hr, ⟨hd, hq⟩, rfl⟩)
  · intro hlt
    rw [decide_eq_true_eq]
    rcases foldl_min_eq_or_mem (hitParams rs start direction near far) far with h | h
    · exact absurd h (ne_of_lt hlt)
    · exact List.ne_nil_of_mem h
  · intro hf
    rw [decide_eq_false_iff_not, not_not] at hf
    simp [closestHit, hf]

/-- Witness for C2 (amended): the floor record, a ray straight down with `far = 3`. -/
theorem anyhit_iff_trace_lt_or_hit_at_far_witness :
    (∀ r ∈ [sampleFloor], ¬ r.inPlane ⟨1/4, 1/4, 3⟩ ⟨0, 0, -1⟩) ∧
    ∃ (res : ℚ) (hit : Bool),
      NavMesh.trace (NavMesh.ofRecords [sampleFloor]) (QVec3.toVec3 ⟨1/4, 1/4, 3⟩)
        (QVec3.toVec3 ⟨0, 0, -1⟩) (FVal.fin 0) (FVal.fin 3) = some (FVal.fin res) ∧
      NavMesh.anyhit (NavMesh.ofRecords [sampleFloor]) (QVec3.toVec3 ⟨1/4, 1/4, 3⟩)
        (QVec3.toVec3 ⟨0, 0, -1⟩) (FVal.fin 0) (FVal.fin 3) = some hit ∧
      (hit = true ↔ (res < 3 ∨ ∃ r ∈ [sampleFloor], r.den ⟨0, 0, -1⟩ ≠ 0 ∧
        r.qualifies ⟨1/4, 1/4, 3⟩ ⟨0, 0, -1⟩ 0 3 ∧ r.tParam ⟨1/4, 1/4, 3⟩ ⟨0, 0, -1⟩ = 3)) ∧
      (res < 3 → hit = true) ∧ (hit = false → res = 3) :=
  ⟨by decide!, anyhit_iff_trace_lt_or_hit_at_far [sampleFloor] ⟨1/4, 1/4, 3⟩ ⟨0, 0, -1⟩ 0 3
    (by decide!)⟩

/-! ## `addTriangle` on a non-degenerate triangle with finite corners -/

@[simp] theorem Vec3.sub_toVec3 (a b : QVec3) :
    a.toVec3.sub b.toVec3 = (a.sub b).toVec3 := by
  simp [Vec3.sub, QVec3.sub, QVec3.toVec3]

@[simp] theorem Vec3.cross_toVec3 (a b : QVec3) :
    Vec3.cross a.toVec3 b.toVec3 = (QVec3.cross a b).toVec3 := by
  simp [Vec3.cross, QVec3.cross, QVec3.toVec3]

@[simp] theorem Vec3.dot_toVec3 (a b : QVec3) :
    Vec3.dot a.toVec3 b.toVec3 = FVal.fin (QVec3.dot a b) := by
  simp [Vec3.dot, QVec3.dot, QVec3.toVec3]

@[simp] theorem Vec3.muls_toVec3 (a : QVec3) (s : ℚ) :
    a.toVec3.muls (FVal.fin s) = (a.muls s).toVec3 := rfl

theorem Vec3.divs_toVec3 (a : QVec3) {s : ℚ} (hs : s ≠ 0) :
    a.toVec3.divs (FVal.fin s) = (a.divs s).toVec3 := by
  simp [Vec3.divs, QVec3.divs, QVec3.toVec3, FVal.div_fin_of_ne hs]

theorem sampleRsqrt_positive : RsqrtPositive sampleRsqrt := by
  intro q hq
  refine ⟨2 / (1 + q), by positivity, ?_⟩
  simp [sampleRsqrt, not_lt.mpr (le_of_lt hq), ne_of_gt hq]

theorem QVec3.dot_self_pos {c : QVec3} (h : c ≠ ⟨0, 0, 0⟩) : 0 < QVec3.dot c c := by
  obtain ⟨x, y, z⟩ := c
  simp only [QVec3.dot]
  by_contra hle
  have hx : x = 0 := by nlinarith [sq_nonneg x, sq_nonneg y, sq_nonneg z]
  have hy : y = 0 := by nlinarith [sq_nonneg x, sq_nonneg y, sq_nonneg z]
  have hz : z = 0 := by nlinarith [sq_nonneg x, sq_nonneg y, sq_nonneg z]
  exact h (by rw [hx, hy, hz])

theorem edge_cross_eq_triNormal (v0 v1 v2 : QVec3) :
    QVec3.cross (v1.sub v2) (v2.sub v0) = triNormal v0 v1 v2 := by
  simp only [triNormal, QVec3.cross, QVec3.sub, QVec3.mk.injEq]
  refine ⟨by ring, by ring, by ring⟩

theorem alpha_den_eq (k : ℚ) (v0 v1 v2 : QVec3) :
    QVec3.dot (QVec3.cross ((QVec3.cross (v1.sub v2) (v2.sub v0)).muls k) (v1.sub v2))
        (v0.sub v1) = -(k * QVec3.dot (triNormal v0 v1 v2) (triNormal v0 v1 v2)) := by
  simp only [triNormal, QVec3.cross, QVec3.sub, QVec3.dot, QVec3.muls]
  ring

theorem beta_den_eq (k : ℚ) (v0 v1 v2 : QVec3) :
    QVec3.dot (QVec3.cross ((QVec3.cross (v1.sub v2) (v2.sub v0)).muls k) (v2.sub v0))
        (v1.sub v2) = -(k * QVec3.dot (triNormal v0 v1 v2) (triNormal v0 v1 v2)) := by
  simp only [triNormal, QVec3.cross, QVec3.sub, QVec3.dot, QVec3.muls]
  ring

/-- On a non-degenerate triangle with finite corners, `addTriangle` appends the record
`triRecord k v0 v1 v2`, where `k` is the value `inversesqrt` returned. -/
theorem NavMesh.addTriangle_finite (rsqrt : FVal → FVal) (m : NavMesh) (v0 v1 v2 : QVec3)
    (k : ℚ) (hk : k ≠ 0) (hnd : nonDegenerate v0 v1 v2)
    (hr : rsqrt (FVal.fin (QVec3.dot (triNormal v0 v1 v2) (triNormal v0 v1 v2))) = FVal.fin k) :
    NavMesh.addTriangle rsqrt m v0.toVec3 v1.toVec3 v2.toVec3 =
      m.push (triRecord k v0 v1 v2) := by
  have hcc : QVec3.dot (triNormal v0 v1 v2) (triNormal v0 v1 v2) ≠ 0 :=
    ne_of_gt (QVec3.dot_self_pos hnd)
  have hda := alpha_den_eq k v0 v1 v2
  have hdb := beta_den_eq k v0 v1 v2
  have hda0 : QVec3.dot (QVec3.cross ((QVec3.cross (v1.sub v2) (v2.sub v0)).muls k)
      (v1.sub v2)) (v0.sub v1) ≠ 0 := by
    rw [hda]; exact neg_ne_zero.mpr (mul_ne_zero hk hcc)
  have hdb0 : QVec3.dot (QVec3.cross ((QVec3.cross (v1.sub v2) (v2.sub v0)).muls k)
      (v2.sub v0)) (v1.sub v2) ≠ 0 := by
    rw [hdb]; exact neg_ne_zero.mpr (mul_ne_zero hk hcc)
  simp only [NavMesh.addTriangle, Vec3.normalize, Vec3.sub_toVec3, Vec3.cross_toVec3,
    Vec3.dot_toVec3, edge_cross_eq_triNormal, hr, Vec3.muls_toVec3]
  rw [← edge_cross_eq_triNormal]
  simp only [Vec3.divs_toVec3 _ hda0, Vec3.divs_toVec3 _ hdb0, Vec3.dot_toVec3, FVal.neg_fin,
    Vec4.ofVec3_toVec3]
  rfl

/-! ## Barycentric coordinates -/

theorem alpha_value (k : ℚ) (v0 v1 v2 p : QVec3) (hk : k ≠ 0) (hnd : nonDegenerate v0 v1 v2) :
    QVec4.dot (triRecord k v0 v1 v2).alpha (QVec4.ofVec3 p 1) =
      -(QVec3.dot (QVec3.cross (triNormal v0 v1 v2) (v1.sub v2)) (p.sub v2)) /
        QVec3.dot (triNormal v0 v1 v2) (triNormal v0 v1 v2) := by
  have hcc : QVec3.dot (triNormal v0 v1 v2) (triNormal v0 v1 v2) ≠ 0 :=
    ne_of_gt (QVec3.dot_self_pos hnd)
  simp only [triRecord, alpha_den_eq]
  generalize QVec3.dot (triNormal v0 v1 v2) (triNormal v0 v1 v2) = n at hcc ⊢
  simp only [triNormal, QVec4.dot, QVec4.ofVec3, QVec3.divs, QVec3.dot, QVec3.cross, QVec3.sub,
    QVec3.muls]
  field_simp
  ring

theorem beta_value (k : ℚ) (v0 v1 v2 p : QVec3) (hk : k ≠ 0) (hnd : nonDegenerate v0 v1 v2) :
    QVec4.dot (triRecord k v0 v1 v2).beta (QVec4.ofVec3 p 1) =
      QVec3.dot (QVec3.cross (triNormal v0 v1 v2) (v0.sub v2)) (p.sub v2) /
        QVec3.dot (triNormal v0 v1 v2) (triNormal v0 v1 v2) := by
  have hcc : QVec3.dot (triNormal v0 v1 v2) (triNormal v0 v1 v2) ≠ 0 :=
    ne_of_gt (QVec3.dot_self_pos hnd)
  simp only [triRecord, beta_den_eq]
  generalize QVec3.dot (triNormal v0 v1 v2) (triNormal v0 v1 v2) = n at hcc ⊢
  simp only [triNormal, QVec4.dot, QVec4.ofVec3, QVec3.divs, QVec3.dot, QVec3.cross, QVec3.sub,
    QVec3.muls]
  field_simp
  ring

theorem alpha_comb (k : ℚ) (v0 v1 v2 : QVec3) (w0 w1 w2 : ℚ) (hk : k ≠ 0)
    (hnd : nonDegenerate v0 v1 v2) (hw : w0 + w1 + w2 = 1) :
    QVec4.dot (triRecord k v0 v1 v2).alpha (QVec4.ofVec3 (QVec3.comb w0 w1 w2 v0 v1 v2) 1) =
      w0 := by
  have hcc : QVec3.dot (triNormal v0 v1 v2) (triNormal v0 v1 v2) ≠ 0 :=
    ne_of_gt (QVec3.dot_self_pos hnd)
  have hw2 : w2 = 1 - w0 - w1 := by linarith
  subst hw2
  rw [alpha_value k v0 v1 v2 _ hk hnd, div_eq_iff hcc]
  simp only [triNormal, QVec3.dot, QVec3.cross, QVec3.sub, QVec3.comb]
  ring

theorem beta_comb (k : ℚ) (v0 v1 v2 : QVec3) (w0 w1 w2 : ℚ) (hk : k ≠ 0)
    (hnd : nonDegenerate v0 v1 v2) (hw : w0 + w1 + w2 = 1) :
    QVec4.dot (triRecord k v0 v1 v2).beta (QVec4.ofVec3 (QVec3.comb w0 w1 w2 v0 v1 v2) 1) =
      w1 := by
  have hcc : QVec3.dot (triNormal v0 v1 v2) (triNormal v0 v1 v2) ≠ 0 :=
    ne_of_gt (QVec3.dot_self_pos hnd)
  have hw2 : w2 = 1 - w0 - w1 := by linarith
  subst hw2
  rw [beta_value k v0 v1 v2 _ hk hnd, div_eq_iff hcc]
  simp only [triNormal, QVec3.dot, QVec3.cross, QVec3.sub, QVec3.comb]
  ring

theorem comb_corner0 (v0 v1 v2 : QVec3) : QVec3.comb 1 0 0 v0 v1 v2 = v0 := by
  simp [QVec3.comb]

theorem comb_corner1 (v0 v1 v2 : QVec3) : QVec3.comb 0 1 0 v0 v1 v2 = v1 := by
  simp [QVec3.comb]

theorem comb_corner2 (v0 v1 v2 : QVec3) : QVec3.comb 0 0 1 v0 v1 v2 = v2 := by
  simp [QVec3.comb]

/-- A point of the plane is the combination of the corners with weights `a`, `b`,
`1 - a - b`. -/
theorem onPlane_eq_comb (k : ℚ) (v0 v1 v2 p : QVec3) (hk : k ≠ 0)
    (hnd : nonDegenerate v0 v1 v2) (hp : onPlane v0 v1 v2 p) :
    p = QVec3.comb (QVec4.dot (triRecord k v0 v1 v2).alpha (QVec4.ofVec3 p 1))
      (QVec4.dot (triRecord k v0 v1 v2).beta (QVec4.ofVec3 p 1))
      (1 - QVec4.dot (triRecord k v0 v1 v2).alpha (QVec4.ofVec3 p 1) -
        QVec4.dot (triRecord k v0 v1 v2).beta (QVec4.ofVec3 p 1)) v0 v1 v2 := by
  have hcc : QVec3.dot (triNormal v0 v1 v2) (triNormal v0 v1 v2) ≠ 0 :=
    ne_of_gt (QVec3.dot_self_pos hnd)
  rw [alpha_value k v0 v1 v2 p hk hnd, beta_value k v0 v1 v2 p hk hnd]
  obtain ⟨x0, y0, z0⟩ := v0
  obtain ⟨x1, y1, z1⟩ := v1
  obtain ⟨x2, y2, z2⟩ := v2
  obtain ⟨px, py, pz⟩ := p
  simp only [onPlane, triNormal, QVec3.dot, QVec3.cross, QVec3.sub] at hp hcc
  simp only [triNormal, QVec3.dot, QVec3.cross, QVec3.sub, QVec3.comb, QVec3.mk.injEq]
  refine ⟨?_, ?_, ?_⟩
  · field_simp
    linear_combination ((y1 - y0) * (z2 - z0) - (y2 - y0) * (z1 - z0)) * hp
  · field_simp
    linear_combination ((z1 - z0) * (x2 - x0) - (z2 - z0) * (x1 - x0)) * hp
  · field_simp
    linear_combination ((x1 - x0) * (y2 - y0) - (x2 - x0) * (y1 - y0)) * hp

theorem inTriangle_iff_bary (k : ℚ) (v0 v1 v2 p : QVec3) (hk : k ≠ 0)
    (hnd : nonDegenerate v0 v1 v2) (hp : onPlane v0 v1 v2 p) :
    inTriangle v0 v1 v2 p ↔
      0 ≤ QVec4.dot (triRecord k v0 v1 v2).alpha (QVec4.ofVec3 p 1) ∧
      0 ≤ QVec4.dot (triRecord k v0 v1 v2).beta (QVec4.ofVec3 p 1) ∧
      QVec4.dot (triRecord k v0 v1 v2).alpha (QVec4.ofVec3 p 1) +
        QVec4.dot (triRecord k v0 v1 v2).beta (QVec4.ofVec3 p 1) ≤ 1 := by
  constructor
  · rintro ⟨w0, w1, w2, h0, h1, h2, hs, rfl⟩
    rw [alpha_comb k v0 v1 v2 w0 w1 w2 hk hnd hs, beta_comb k v0 v1 v2 w0 w1 w2 hk hnd hs]
    exact ⟨h0, h1, by linarith⟩
  · rintro ⟨ha, hb, hab⟩
    exact ⟨_, _, _, ha, hb, by linarith, by ring, onPlane_eq_comb k v0 v1 v2 p hk hnd hp⟩

/-- C5: for a non-degenerate triangle with finite corners, `addTriangle` appends a record
whose `a = dot(alpha,[p,1])` and `b = dot(beta,[p,1])` take the values `(1,0)`, `(0,1)`,
`(0,0)` at `v0`, `v1`, `v2`, satisfy `p = a*v0 + b*v1 + (1-a-b)*v2` at every point `p` of the
triangle's plane, and such a `p` lies in the closed triangle exactly when `0 ≤ a ≤ 1`,
`0 ≤ b ≤ 1` and `a + b ≤ 1`. -/
theorem barycentric_coordinates (rsqrt : FVal → FVal) (hr : RsqrtPositive rsqrt) (m : NavMesh)
    (v0 v1 v2 : QVec3) (hnd : nonDegenerate v0 v1 v2) :
    ∃ rec : QRec,
      NavMesh.addTriangle rsqrt m v0.toVec3 v1.toVec3 v2.toVec3 = m.push rec ∧
      (QVec4.dot rec.alpha (QVec4.ofVec3 v0 1) = 1 ∧ QVec4.dot rec.beta (QVec4.ofVec3 v0 1) = 0) ∧
      (QVec4.dot rec.alpha (QVec4.ofVec3 v1 1) = 0 ∧ QVec4.dot rec.beta (QVec4.ofVec3 v1 1) = 1) ∧
      (QVec4.dot rec.alpha (QVec4.ofVec3 v2 1) = 0 ∧ QVec4.dot rec.beta (QVec4.ofVec3 v2 1) = 0) ∧
      ∀ p : QVec3, onPlane v0 v1 v2 p →
        p = QVec3.comb (QVec4.dot rec.alpha (QVec4.ofVec3 p 1))
          (QVec4.dot rec.beta (QVec4.ofVec3 p 1))
          (1 - QVec4.dot rec.alpha (QVec4.ofVec3 p 1) - QVec4.dot rec.beta (QVec4.ofVec3 p 1))
          v0 v1 v2 ∧
        (inTriangle v0 v1 v2 p ↔
          0 ≤ QVec4.dot rec.alpha (QVec4.ofVec3 p 1) ∧
          QVec4.dot rec.alpha (QVec4.ofVec3 p 1) ≤ 1 ∧
          0 ≤ QVec4.dot rec.beta (QVec4.ofVec3 p 1) ∧
          QVec4.dot rec.beta (QVec4.ofVec3 p 1) ≤ 1 ∧
          QVec4.dot rec.alpha (QVec4.ofVec3 p 1) + QVec4.dot rec.beta (QVec4.ofVec3 p 1) ≤ 1) := by
  obtain ⟨k, hkpos, hkr⟩ := hr _ (QVec3.dot_self_pos hnd)
  have hk : k ≠ 0 := ne_of_gt hkpos
  refine ⟨triRecord k v0 v1 v2, NavMesh.addTriangle_finite rsqrt m v0 v1 v2 k hk hnd hkr,
    ?_, ?_, ?_, ?_⟩
  · have ha := alpha_comb k v0 v1 v2 1 0 0 hk hnd (by norm_num)
    have hb := beta_comb k v0 v1 v2 1 0 0 hk hnd (by norm_num)
    rw [comb_corner0] at ha hb
    exact ⟨ha, hb⟩
  · have ha := alpha_comb k v0 v1 v2 0 1 0 hk hnd (by norm_num)
    have hb := beta_comb k v0 v1 v2 0 1 0 hk hnd (by norm_num)
    rw [comb_corner1] at ha hb
    exact ⟨ha, hb⟩
  · have ha := alpha_comb k v0 v1 v2 0 0 1 hk hnd (by norm_num)
    have hb := beta_comb k v0 v1 v2 0 0 1 hk hnd (by norm_num)
    rw [comb_corner2] at ha hb
    exact ⟨ha, hb⟩
  · intro p hp
    refine ⟨onPlane_eq_comb k v0 v1 v2 p hk hnd hp, ?_⟩
    rw [inTriangle_iff_bary k v0 v1 v2 p hk hnd hp]
    constructor
    · rintro ⟨ha, hb, hab⟩
      exact ⟨ha, by linarith, hb, by linarith, hab⟩
    · rintro ⟨ha, _, hb, _, hab⟩
      exact ⟨ha, hb, hab⟩

/-- Witness for C5: the floor triangle `(0,0,0)`, `(1,0,0)`, `(0,1,0)`. -/
theorem barycentric_coordinates_witness :
    RsqrtPositive sampleRsqrt ∧ nonDegenerate ⟨0, 0, 0⟩ ⟨1, 0, 0⟩ ⟨0, 1, 0⟩ ∧
    ∃ rec : QRec,
      NavMesh.addTriangle sampleRsqrt NavMesh.empty (QVec3.toVec3 ⟨0, 0, 0⟩)
        (QVec3.toVec3 ⟨1, 0, 0⟩) (QVec3.toVec3 ⟨0, 1, 0⟩) = NavMesh.empty.push rec ∧
      (QVec4.dot rec.alpha (QVec4.ofVec3 ⟨0, 0, 0⟩ 1) = 1 ∧
        QVec4.dot rec.beta (QVec4.ofVec3 ⟨0, 0, 0⟩ 1) = 0) :=
  ⟨sampleRsqrt_positive, by decide!,
    (barycentric_coordinates sampleRsqrt sampleRsqrt_positive NavMesh.empty ⟨0, 0, 0⟩ ⟨1, 0, 0⟩
      ⟨0, 1, 0⟩ (by decide!)).imp (fun _ h => ⟨h.1, h.2.1⟩)⟩

/-! ## The per-triangle test, geometrically -/

theorem triRecord_den (k : ℚ) (v0 v1 v2 d : QVec3) :
    (triRecord k v0 v1 v2).den d = k * QVec3.dot (triNormal v0 v1 v2) d := by
  simp only [triRecord, QRec.den, triNormal, QVec4.dot, QVec4.ofVec3, QVec3.dot, QVec3.cross,
    QVec3.sub, QVec3.muls]
  ring

theorem triRecord_num (k : ℚ) (v0 v1 v2 s : QVec3) :
    (triRecord k v0 v1 v2).num s = -(k * QVec3.dot (triNormal v0 v1 v2) (s.sub v0)) := by
  simp only [triRecord, QRec.num, triNormal, QVec4.dot, QVec4.ofVec3, QVec3.dot, QVec3.cross,
    QVec3.sub, QVec3.muls]
  ring

theorem onPlane_ray_iff (k : ℚ) (v0 v1 v2 start direction : QVec3) (t : ℚ) (hk : k ≠ 0)
    (hnp : QVec3.dot (triNormal v0 v1 v2) direction ≠ 0) :
    onPlane v0 v1 v2 (start.add (QVec3.smul t direction)) ↔
      t = (triRecord k v0 v1 v2).tParam start direction := by
  have hden : k * QVec3.dot (triNormal v0 v1 v2) direction ≠ 0 := mul_ne_zero hk hnp
  rw [QRec.tParam, triRecord_den, triRecord_num, eq_div_iff hden]
  have hlin : QVec3.dot (triNormal v0 v1 v2) ((start.add (QVec3.smul t direction)).sub v0) =
      QVec3.dot (triNormal v0 v1 v2) (start.sub v0) +
        t * QVec3.dot (triNormal v0 v1 v2) direction := by
    simp only [QVec3.dot, QVec3.sub, QVec3.add, QVec3.smul]
    ring
  rw [onPlane, hlin]
  constructor
  · intro h
    linear_combination k * h
  · intro h
    have h2 : k * (QVec3.dot (triNormal v0 v1 v2) (start.sub v0) +
        t * QVec3.dot (triNormal v0 v1 v2) direction) = 0 := by linear_combination h
    rcases mul_eq_zero.mp h2 with h3 | h3
    · exact absurd h3 hk
    · exact h3

theorem triRecord_accepts_iff (k : ℚ) (v0 v1 v2 start direction : QVec3) (near far : ℚ)
    (hk : k ≠ 0) (hnd : nonDegenerate v0 v1 v2)
    (hnp : QVec3.dot (triNormal v0 v1 v2) direction ≠ 0) :
    NavMesh.accepts (triRecord k v0 v1 v2).plane.toVec4 (triRecord k v0 v1 v2).alpha.toVec4
        (triRecord k v0 v1 v2).beta.toVec4 start.toVec3 direction.toVec3 (FVal.fin near)
        (FVal.fin far) = true ↔
      near ≤ (triRecord k v0 v1 v2).tParam start direction ∧
      (triRecord k v0 v1 v2).tParam start direction ≤ far ∧
      inTriangle v0 v1 v2 ((triRecord k v0 v1 v2).hitPoint start direction) := by
  have hden : (triRecord k v0 v1 v2).den direction ≠ 0 := by
    rw [triRecord_den]; exact mul_ne_zero hk hnp
  have hon : onPlane v0 v1 v2 ((triRecord k v0 v1 v2).hitPoint start direction) :=
    (onPlane_ray_iff k v0 v1 v2 start direction _ hk hnp).mpr rfl
  rw [NavMesh.accepts_finite _ start direction near far (fun hin => hden hin.2),
    inTriangle_iff_bary k v0 v1 v2 _ hk hnd hon]
  simp only [decide_eq_true_eq, ne_eq, hden, not_false_eq_true, true_and, QRec.qualifies,
    QRec.baryOk, QRec.coordA, QRec.coordB]
  constructor
  · rintro ⟨h1, h2, ha, _, hb, hab⟩
    exact ⟨h1, h2, ha, hb, hab⟩
  · rintro ⟨h1, h2, ha, hb, hab⟩
    exact ⟨h1, h2, ha, by linarith, hb, hab⟩

/-- C4: for a non-degenerate triangle with finite corners recorded by `addTriangle` and a
finite ray whose direction is not parallel to the triangle's plane, the parameter `t`
computed from the plane vector is the unique one with `start + t*direction` on the plane
through `v0`, `v1`, `v2`, and the per-triangle test accepts exactly when `near ≤ t ≤ far` and
that point lies in the closed triangle; on the mesh holding this one triangle `anyhit`
answers that condition and `trace` returns `t` under it and `far` otherwise. -/
theorem per_triangle_test_geometric (rsqrt : FVal → FVal) (hr : RsqrtPositive rsqrt)
    (m : NavMesh) (v0 v1 v2 start direction : QVec3) (near far : ℚ)
    (hnd : nonDegenerate v0 v1 v2)
    (hnp : QVec3.dot (triNormal v0 v1 v2) direction ≠ 0) :
    ∃ rec : QRec,
      NavMesh.addTriangle rsqrt m v0.toVec3 v1.toVec3 v2.toVec3 = m.push rec ∧
      (∀ t : ℚ, onPlane v0 v1 v2 (start.add (QVec3.smul t direction)) ↔
        t = rec.tParam start direction) ∧
      NavMesh.param rec.plane.toVec4 start.toVec3 direction.toVec3 =
        FVal.fin (rec.tParam start direction) ∧
      (NavMesh.accepts rec.plane.toVec4 rec.alpha.toVec4 rec.beta.toVec4 start.toVec3
          direction.toVec3 (FVal.fin near) (FVal.fin far) = true ↔
        near ≤ rec.tParam start direction ∧ rec.tParam start direction ≤ far ∧
          inTriangle v0 v1 v2 (start.add (QVec3.smul (rec.tParam start direction) direction))) ∧
      ((NavMesh.addTriangle rsqrt NavMesh.empty v0.toVec3 v1.toVec3 v2.toVec3).anyhit
          start.toVec3 direction.toVec3 (FVal.fin near) (FVal.fin far) = some true ↔
        near ≤ rec.tParam start direction ∧ rec.tParam start direction ≤ far ∧
          inTriangle v0 v1 v2 (start.add (QVec3.smul (rec.tParam start direction) direction))) ∧
      ((near ≤ rec.tParam start direction ∧ rec.tParam start direction ≤ far ∧
          inTriangle v0 v1 v2 (start.add (QVec3.smul (rec.tParam start direction) direction))) →
        (NavMesh.addTriangle rsqrt NavMesh.empty v0.toVec3 v1.toVec3 v2.toVec3).trace
          start.toVec3 direction.toVec3 (FVal.fin near) (FVal.fin far) =
          some (FVal.fin (rec.tParam start direction))) ∧
      (¬ (near ≤ rec.tParam start direction ∧ rec.tParam start direction ≤ far ∧
          inTriangle v0 v1 v2 (start.add (QVec3.smul (rec.tParam start direction) direction))) →
        (NavMesh.addTriangle rsqrt NavMesh.empty v0.toVec3 v1.toVec3 v2.toVec3).trace
          start.toVec3 direction.toVec3 (FVal.fin near) (FVal.fin far) =
          some (FVal.fin far)) := by
  obtain ⟨k, hkpos, hkr⟩ := hr _ (QVec3.dot_self_pos hnd)
  have hk : k ≠ 0 := ne_of_gt hkpos
  have hden : (triRecord k v0 v1 v2).den direction ≠ 0 := by
    rw [triRecord_den]; exact mul_ne_zero hk hnp
  have hacc := triRecord_accepts_iff k v0 v1 v2 start direction near far hk hnd hnp
  have hmesh : NavMesh.addTriangle rsqrt NavMesh.empty v0.toVec3 v1.toVec3 v2.toVec3 =
      NavMesh.ofRecords [triRecord k v0 v1 v2] :=
    NavMesh.addTriangle_finite rsqrt NavMesh.empty v0 v1 v2 k hk hnd hkr
  have hin : ∀ r ∈ [triRecord k v0 v1 v2], ¬ r.inPlane start direction := by
    intro r hr hin
    rw [List.mem_singleton] at hr
    subst hr
    exact hden hin.2
  have hqual : (triRecord k v0 v1 v2).qualifies start direction near far ↔
      (near ≤ (triRecord k v0 v1 v2).tParam start direction ∧
        (triRecord k v0 v1 v2).tParam start direction ≤ far ∧
        inTriangle v0 v1 v2 ((triRecord k v0 v1 v2).hitPoint start direction)) := by
    rw [← hacc, NavMesh.accepts_finite _ start direction near far (fun h => hden h.2)]
    simp [hden]
  have hqual : (triRecord k v0 v1 v2).qualifies start direction near far ↔
      (near ≤ (triRecord k v0 v1 v2).tParam start direction ∧
        (triRecord k v0 v1 v2).tParam start direction ≤ far ∧
        inTriangle v0 v1 v2 (start.add
          (QVec3.smul ((triRecord k v0 v1 v2).tParam start direction) direction))) := hqual
  have hparams : hitParams [triRecord k v0 v1 v2] start direction near far =
      if (triRecord k v0 v1 v2).qualifies start direction near far
      then [(triRecord k v0 v1 v2).tParam start direction] else [] := by
    rw [hitParams_cons, hitParams_nil]
    by_cases hq : (triRecord k v0 v1 v2).qualifies start direction near far
    · rw [if_pos ⟨hden, hq⟩, if_pos hq]
    · rw [if_neg (fun h => hq h.2), if_neg hq]
  refine ⟨triRecord k v0 v1 v2, NavMesh.addTriangle_finite rsqrt m v0 v1 v2 k hk hnd hkr,
    fun t => onPlane_ray_iff k v0 v1 v2 start direction t hk hnp, ?_, hacc, ?_, ?_, ?_⟩
  · simp only [NavMesh.param, Vec4.ofVec3_toVec3, Vec4.dot_toVec4, FVal.neg_fin]
    exact FVal.div_fin_of_ne hden
  · rw [hmesh, NavMesh.anyhit_ofRecords _ start direction near far hin, hparams, ← hqual]
    by_cases hq : (triRecord k v0 v1 v2).qualifies start direction near far <;> simp [hq]
  · intro hc
    have hq := hqual.mpr hc
    rw [hmesh, NavMesh.trace_ofRecords _ start direction near far hin, closestHit, hparams,
      if_pos hq, List.foldl_cons, List.foldl_nil, min_eq_right hq.2.1]
  · intro hc
    have hq : ¬ (triRecord k v0 v1 v2).qualifies start direction near far :=
      fun h => hc (hqual.mp h)
    rw [hmesh, NavMesh.trace_ofRecords _ start direction near far hin, closestHit, hparams,
      if_neg hq, List.foldl_nil]

/-- Witness for C4: the floor triangle and a ray straight down from height 3. -/
theorem per_triangle_test_geometric_witness :
    RsqrtPositive sampleRsqrt ∧ nonDegenerate ⟨0, 0, 0⟩ ⟨1, 0, 0⟩ ⟨0, 1, 0⟩ ∧
    QVec3.dot (triNormal ⟨0, 0, 0⟩ ⟨1, 0, 0⟩ ⟨0, 1, 0⟩) ⟨0, 0, -1⟩ ≠ 0 ∧
    ∃ rec : QRec,
      NavMesh.addTriangle sampleRsqrt NavMesh.empty (QVec3.toVec3 ⟨0, 0, 0⟩)
        (QVec3.toVec3 ⟨1, 0, 0⟩) (QVec3.toVec3 ⟨0, 1, 0⟩) = NavMesh.empty.push rec ∧
      (∀ t : ℚ, onPlane ⟨0, 0, 0⟩ ⟨1, 0, 0⟩ ⟨0, 1, 0⟩
          (QVec3.add ⟨1/4, 1/4, 3⟩ (QVec3.smul t ⟨0, 0, -1⟩)) ↔
        t = rec.tParam ⟨1/4, 1/4, 3⟩ ⟨0, 0, -1⟩) :=
  ⟨sampleRsqrt_positive, by decide!, by decide!,
    (per_triangle_test_geometric sampleRsqrt sampleRsqrt_positive NavMesh.empty ⟨0, 0, 0⟩
      ⟨1, 0, 0⟩ ⟨0, 1, 0⟩ ⟨1/4, 1/4, 3⟩ ⟨0, 0, -1⟩ 0 10 (by decide!) (by decide!)).imp
      (fun _ h => ⟨h.1, h.2.1⟩)⟩

/-! ## A ray lying in the plane of a triangle

When `dot(plane,[start,1])` and `dot(plane,[direction,0])` are both zero the parameter is
`0/0`, a NaN; every comparison with it is false, so none of the `continue` guards fires and
the record is accepted. -/

/-- C6, the defect evaluated: the wall `x = 10` is genuinely hit at `t = 5` by the ray from
`(5, 1/4, 0)` along `(1, 0, 0)`, but the ray lies in the plane `z = 0` of the floor triangle
added after it, whose parameter `0/0` is accepted: `trace` returns NaN, not a value in
`[near, far]`. -/
theorem trace_in_plane_returns_nan :
    NavMesh.trace (NavMesh.build sampleRsqrt [wallTri])
        (QVec3.toVec3 ⟨5, 1/4, 0⟩) (QVec3.toVec3 ⟨1, 0, 0⟩) (FVal.fin 0) (FVal.fin 250) =
      some (FVal.fin 5) ∧
    NavMesh.param (NavMesh.triEntry sampleRsqrt floorTri.1 floorTri.2.1 floorTri.2.2).1
        (QVec3.toVec3 ⟨5, 1/4, 0⟩) (QVec3.toVec3 ⟨1, 0, 0⟩) = FVal.nan ∧
    NavMesh.trace (NavMesh.build sampleRsqrt [wallTri, floorTri])
        (QVec3.toVec3 ⟨5, 1/4, 0⟩) (QVec3.toVec3 ⟨1, 0, 0⟩) (FVal.fin 0) (FVal.fin 250) =
      some FVal.nan := by
  refine ⟨by decide!, by decide!, by decide!⟩

/-- C7, the defect evaluated: with the same two triangles and the same ray, adding the wall
first makes `trace` return NaN, adding the floor first makes it return `5`. -/
theorem trace_depends_on_order_in_plane :
    List.Perm [wallTri, floorTri] [floorTri, wallTri] ∧
    NavMesh.trace (NavMesh.build sampleRsqrt [wallTri, floorTri])
        (QVec3.toVec3 ⟨5, 1/4, 0⟩) (QVec3.toVec3 ⟨1, 0, 0⟩) (FVal.fin 0) (FVal.fin 250) =
      some FVal.nan ∧
    NavMesh.trace (NavMesh.build sampleRsqrt [floorTri, wallTri])
        (QVec3.toVec3 ⟨5, 1/4, 0⟩) (QVec3.toVec3 ⟨1, 0, 0⟩) (FVal.fin 0) (FVal.fin 250) =
      some (FVal.fin 5) := by
  refine ⟨List.Perm.swap _ _ _, by decide!, by decide!⟩

/-! ## What holds away from the defect: re-query and insertion order -/

theorem closestHit_mem_hitParams (rs : List QRec) (start direction : QVec3) (near far : ℚ)
    (hne : hitParams rs start direction near far ≠ []) :
    closestHit rs start direction near far ∈ hitParams rs start direction near far := by
  rcases foldl_min_eq_or_mem (hitParams rs start direction near far) far with h | h
  · obtain ⟨x, hx⟩ := List.exists_mem_of_ne_nil _ hne
    obtain ⟨r, _, hq, ht⟩ := mem_hitParams.mp hx
    have h1 : closestHit rs start direction near far ≤ x := foldl_min_le_mem _ _ x hx
    have h2 : x ≤ far := ht ▸ hq.2.2.1
    have h3 : x = closestHit rs start direction near far := by
      apply le_antisymm _ h1
      rw [closestHit, h]; exact h2
    rw [← h3]; exact hx
  · exact h

/-- Away from rays lying in a record's plane, when some record qualifies the value `trace`
returns lies in `[near, far]` and a second query with `far` replaced by it returns it
again. -/
theorem trace_requery_of_no_inPlane (rs : List QRec) (start direction : QVec3) (near far : ℚ)
    (hp : ∀ r ∈ rs, ¬ r.inPlane start direction)
    (hhit : ∃ r ∈ rs, r.den direction ≠ 0 ∧ r.qualifies start direction near far) :
    ∃ res : ℚ,
      NavMesh.trace (NavMesh.ofRecords rs) start.toVec3 direction.toVec3 (FVal.fin near)
        (FVal.fin far) = some (FVal.fin res) ∧
      near ≤ res ∧ res ≤ far ∧
      NavMesh.trace (NavMesh.ofRecords rs) start.toVec3 direction.toVec3 (FVal.fin near)
        (FVal.fin res) = some (FVal.fin res) := by
  obtain ⟨r, hr, hd, hq⟩ := hhit
  have hne : hitParams rs start direction near far ≠ [] :=
    List.ne_nil_of_mem (mem_hitParams.mpr ⟨r, hr, ⟨hd, hq⟩, rfl⟩)
  have hmem := closestHit_mem_hitParams rs start direction near far hne
  obtain ⟨r0, _, hq0, ht0⟩ := mem_hitParams.mp hmem
  refine ⟨closestHit rs start direction near far,
    NavMesh.trace_ofRecords rs start direction near far hp, ?_, foldl_min_le_init _ _, ?_⟩
  · rw [← ht0]; exact hq0.2.1
  · rw [NavMesh.trace_ofRecords rs start direction near _ hp]
    congr 2
    apply le_antisymm (foldl_min_le_init _ _)
    rcases foldl_min_eq_or_mem
      (hitParams rs start direction near (closestHit rs start direction near far))
      (closestHit rs start direction near far) with h | h
    · exact le_of_eq h.symm
    · obtain ⟨r1, hr1, hq1, ht1⟩ := mem_hitParams.mp h
      have hq1far : r1.qualifies start direction near far :=
        ⟨hq1.2.1, le_trans hq1.2.2.1 (foldl_min_le_init _ _), hq1.2.2.2⟩
      have := foldl_min_le_mem (hitParams rs start direction near far) far _
        (mem_hitParams.mpr ⟨r1, hr1, ⟨hq1.1, hq1far⟩, rfl⟩)
      rw [closestHit] at ht1 ⊢
      rw [← ht1]
      exact this

theorem closestHit_perm {rs rs2 : List QRec} (h : rs.Perm rs2) (start direction : QVec3)
    (near far : ℚ) :
    closestHit rs start direction near far = closestHit rs2 start direction near far := by
  unfold closestHit hitParams
  apply List.Perm.foldl_eq' ((h.filter _).map _)
  intro x _ y _ z
  rw [min_assoc, min_comm x y, ← min_assoc]

theorem hitParams_perm_ne_nil {rs rs2 : List QRec} (h : rs.Perm rs2) (start direction : QVec3)
    (near far : ℚ) :
    (hitParams rs start direction near far ≠ []) ↔
      (hitParams rs2 start direction near far ≠ []) := by
  have hp : (hitParams rs start direction near far).Perm
      (hitParams rs2 start direction near far) := (h.filter _).map _
  constructor
  · intro h1 h2; exact h1 (List.Perm.eq_nil (h2 ▸ hp))
  · intro h1 h2; exact h1 (List.Perm.eq_nil (h2 ▸ hp.symm))

theorem NavMesh.push_ofRecords (pre : List QRec) (r : QRec) :
    (NavMesh.ofRecords pre).push r = NavMesh.ofRecords (pre ++ [r]) := by
  simp [NavMesh.push, NavMesh.ofRecords]

theorem rsqrtValue_spec {rsqrt : FVal → FVal} (hr : RsqrtPositive rsqrt) {q : ℚ} (hq : 0 < q) :
    0 < rsqrtValue rsqrt q ∧ rsqrt (FVal.fin q) = FVal.fin (rsqrtValue rsqrt q) := by
  obtain ⟨k, hk, hkr⟩ := hr q hq
  simp [rsqrtValue, hkr, hk]

theorem NavMesh.foldl_addTriangle_finite (rsqrt : FVal → FVal) (hr : RsqrtPositive rsqrt) :
    ∀ (ts : List (QVec3 × QVec3 × QVec3)) (pre : List QRec),
      (∀ t ∈ ts, nonDegenerate t.1 t.2.1 t.2.2) →
      (ts.map embTri).foldl (fun m t => NavMesh.addTriangle rsqrt m t.1 t.2.1 t.2.2)
          (NavMesh.ofRecords pre) =
        NavMesh.ofRecords (pre ++ ts.map (recordOf rsqrt)) := by
  intro ts
  induction ts with
  | nil => intro pre _; simp
  | cons t ts ih =>
    intro pre hnd
    have ht := hnd t (List.mem_cons_self _ _)
    obtain ⟨hk, hkr⟩ := rsqrtValue_spec hr (QVec3.dot_self_pos ht)
    rw [List.map_cons, List.foldl_cons]
    simp only [embTri]
    rw [NavMesh.addTriangle_finite rsqrt _ t.1 t.2.1 t.2.2 _ (ne_of_gt hk) ht hkr,
      NavMesh.push_ofRecords]
    have := ih (pre ++ [recordOf rsqrt t]) (fun x hx => hnd x (List.mem_cons_of_mem _ hx))
    simp only [embTri] at this
    rw [recordOf] at this
    rw [this]
    simp [recordOf]

/-- Non-degenerate triangles with finite corners build the mesh of their exact records. -/
theorem NavMesh.build_finite (rsqrt : FVal → FVal) (hr : RsqrtPositive rsqrt)
    (ts : List (QVec3 × QVec3 × QVec3)) (hnd : ∀ t ∈ ts, nonDegenerate t.1 t.2.1 t.2.2) :
    NavMesh.build rsqrt (ts.map embTri) = NavMesh.ofRecords (ts.map (recordOf rsqrt)) := by
  have h := NavMesh.foldl_addTriangle_finite rsqrt hr ts [] hnd
  simpa [NavMesh.build, NavMesh.ofRecords, NavMesh.empty] using h

theorem recordOf_inPlane_iff (rsqrt : FVal → FVal) (hr : RsqrtPositive rsqrt)
    (t : QVec3 × QVec3 × QVec3) (hnd : nonDegenerate t.1 t.2.1 t.2.2) (start direction : QVec3) :
    (recordOf rsqrt t).inPlane start direction ↔ rayInPlane t start direction := by
  obtain ⟨hk, _⟩ := rsqrtValue_spec hr (QVec3.dot_self_pos hnd)
  simp only [QRec.inPlane, recordOf, triRecord_num, triRecord_den, rayInPlane, onPlane,
    neg_eq_zero, mul_eq_zero, ne_of_gt hk, false_or]

/-- Away from rays lying in a triangle's plane, `trace` and `anyhit` do not depend on the
order in which non-degenerate triangles with finite corners were added. -/
theorem trace_anyhit_perm_of_no_rayInPlane (rsqrt : FVal → FVal) (hr : RsqrtPositive rsqrt)
    (ts ts2 : List (QVec3 × QVec3 × QVec3)) (hperm : ts.Perm ts2)
    (hnd : ∀ t ∈ ts, nonDegenerate t.1 t.2.1 t.2.2) (start direction : QVec3) (near far : ℚ)
    (hp : ∀ t ∈ ts, ¬ rayInPlane t start direction) :
    NavMesh.trace (NavMesh.build rsqrt (ts.map embTri)) start.toVec3 direction.toVec3
        (FVal.fin near) (FVal.fin far) =
      NavMesh.trace (NavMesh.build rsqrt (ts2.map embTri)) start.toVec3 direction.toVec3
        (FVal.fin near) (FVal.fin far) ∧
    NavMesh.anyhit (NavMesh.build rsqrt (ts.map embTri)) start.toVec3 direction.toVec3
        (FVal.fin near) (FVal.fin far) =
      NavMesh.anyhit (NavMesh.build rsqrt (ts2.map embTri)) start.toVec3 direction.toVec3
        (FVal.fin near) (FVal.fin far) := by
  have hnd2 : ∀ t ∈ ts2, nonDegenerate t.1 t.2.1 t.2.2 :=
    fun t ht => hnd t (hperm.mem_iff.mpr ht)
  have hin : ∀ r ∈ ts.map (recordOf rsqrt), ¬ r.inPlane start direction := by
    intro r hrm
    obtain ⟨t, ht, rfl⟩ := List.mem_map.mp hrm
    rw [recordOf_inPlane_iff rsqrt hr t (hnd t ht)]
    exact hp t ht
  have hin2 : ∀ r ∈ ts2.map (recordOf rsqrt), ¬ r.inPlane start direction := by
    intro r hrm
    obtain ⟨t, ht, rfl⟩ := List.mem_map.mp hrm
    rw [recordOf_inPlane_iff rsqrt hr t (hnd2 t ht)]
    exact hp t (hperm.mem_iff.mpr ht)
  have hrec : (ts.map (recordOf rsqrt)).Perm (ts2.map (recordOf rsqrt)) := hperm.map _
  rw [NavMesh.build_finite rsqrt hr ts hnd, NavMesh.build_finite rsqrt hr ts2 hnd2,
    NavMesh.trace_ofRecords _ _ _ _ _ hin, NavMesh.trace_ofRecords _ _ _ _ _ hin2,
    NavMesh.anyhit_ofRecords _ _ _ _ _ hin, NavMesh.anyhit_ofRecords _ _ _ _ _ hin2,
    closestHit_perm hrec]
  refine ⟨rfl, ?_⟩
  congr 1
  exact decide_eq_decide.mpr (hitParams_perm_ne_nil hrec start direction near far)

theorem NavMesh.addTriangle_eq (rsqrt : FVal → FVal) (m : NavMesh) (v0 v1 v2 : Vec3) :
    NavMesh.addTriangle rsqrt m v0 v1 v2 =
      { plane := m.plane ++ [(NavMesh.triEntry rsqrt v0 v1 v2).1]
        alpha := m.alpha ++ [(NavMesh.triEntry rsqrt v0 v1 v2).2.1]
        beta := m.beta ++ [(NavMesh.triEntry rsqrt v0 v1 v2).2.2] } := rfl

theorem NavMesh.foldl_addTriangle_arrays (rsqrt : FVal → FVal) :
    ∀ (ts : List (Vec3 × Vec3 × Vec3)) (m : NavMesh),
      ts.foldl (fun m t => NavMesh.addTriangle rsqrt m t.1 t.2.1 t.2.2) m =
        { plane := m.plane ++ ts.map (fun t => (NavMesh.triEntry rsqrt t.1 t.2.1 t.2.2).1)
          alpha := m.alpha ++ ts.map (fun t => (NavMesh.triEntry rsqrt t.1 t.2.1 t.2.2).2.1)
          beta := m.beta ++ ts.map (fun t => (NavMesh.triEntry rsqrt t.1 t.2.1 t.2.2).2.2) } := by
  intro ts
  induction ts with
  | nil => intro m; simp
  | cons t ts ih =>
    intro m
    rw [List.foldl_cons, ih, NavMesh.addTriangle_eq]
    simp

theorem zip_map_triple {α : Type} (f g h : α → Vec4) (l : List α) :
    List.zip (l.map f) (List.zip (l.map g) (l.map h)) = l.map (fun t => (f t, g t, h t)) := by
  induction l with
  | nil => rfl
  | cons a l ih => simp [ih]

theorem NavMesh.build_records (rsqrt : FVal → FVal) (ts : List (Vec3 × Vec3 × Vec3)) :
    (NavMesh.build rsqrt ts).lockstep ∧
    (NavMesh.build rsqrt ts).records =
      ts.map (fun t => NavMesh.triEntry rsqrt t.1 t.2.1 t.2.2) := by
  rw [NavMesh.build, NavMesh.foldl_addTriangle_arrays]
  constructor
  · simp [NavMesh.lockstep, NavMesh.empty]
  · simp only [NavMesh.records, NavMesh.empty, List.nil_append]
    exact zip_map_triple _ _ _ ts

/-- For every ray and every list of triangles, `anyhit` does not depend on the order in
which the triangles were added. -/
theorem anyhit_perm (rsqrt : FVal → FVal) (ts ts2 : List (Vec3 × Vec3 × Vec3))
    (hperm : ts.Perm ts2) (start direction : Vec3) (near far : FVal) :
    NavMesh.anyhit (NavMesh.build rsqrt ts) start direction near far =
      NavMesh.anyhit (NavMesh.build rsqrt ts2) start direction near far := by
  rw [NavMesh.anyhit_eq_any _ (NavMesh.build_records rsqrt ts).1,
    NavMesh.anyhit_eq_any _ (NavMesh.build_records rsqrt ts2).1,
    (NavMesh.build_records rsqrt ts).2, (NavMesh.build_records rsqrt ts2).2]
  congr 1
  rw [Bool.eq_iff_iff, List.any_eq_true, List.any_eq_true]
  have hp : (ts.map (fun t => NavMesh.triEntry rsqrt t.1 t.2.1 t.2.2)).Perm
      (ts2.map (fun t => NavMesh.triEntry rsqrt t.1 t.2.1 t.2.2)) := hperm.map _
  constructor
  · rintro ⟨x, hx, h⟩; exact ⟨x, hp.mem_iff.mp hx, h⟩
  · rintro ⟨x, hx, h⟩; exact ⟨x, hp.mem_iff.mpr hx, h⟩

/-! ## ObjLoad: the token loop of a face line -/

theorem bind_eq_ok_iff {ε α β : Type} (x : Except ε α) (f : α → Except ε β) (b : β) :
    (x >>= f) = Except.ok b ↔ ∃ a, x = Except.ok a ∧ f a = Except.ok b := by
  cases x <;> simp [bind, Except.bind]

theorem newVertex_ok {v : List Vec3} {vt : List Vec2} {vn : List Vec3} {s s1 : FaceLoop}
    {tuple : String} (h : newVertex v vt vn s tuple = Except.ok s1) :
    s1.vertexMap = s.vertexMap ++ [(tuple, s.obj.vert.length)] ∧
    s1.obj.indices = s.obj.indices ∧ s1.navmesh = s.navmesh ∧
    s1.vertexTuple = s.vertexTuple ∧ ∃ p, s1.obj.vert = s.obj.vert ++ [p] := by
  unfold newVertex at h
  simp only [bind_eq_ok_iff, pure, Except.pure] at h
  obtain ⟨k1, _, p, _, o1, ho1, o2, ho2, hs⟩ := h
  have h1 : o1.vert = s.obj.vert ++ [p] ∧ o1.indices = s.obj.indices := by
    split at ho1
    · simp only [bind_eq_ok_iff] at ho1
      obtain ⟨k2, _, t, _, ho1⟩ := ho1
      cases ho1
      exact ⟨rfl, rfl⟩
    · cases ho1
      exact ⟨rfl, rfl⟩
  have h2 : o2.vert = o1.vert ∧ o2.indices = o1.indices := by
    split at ho2
    · simp only [bind_eq_ok_iff] at ho2
      obtain ⟨k3, _, n, _, ho2⟩ := ho2
      cases ho2
      exact ⟨rfl, rfl⟩
    · cases ho2
      exact ⟨rfl, rfl⟩
  cases hs
  exact ⟨rfl, by rw [h2.2, h1.2], rfl, rfl, p, by rw [h2.1, h1.1]⟩

theorem emitTriangle_ok {env : Env} {s s1 : FaceLoop} (h : emitTriangle env s = Except.ok s1) :
    s1.vertexMap = s.vertexMap ∧ s1.vertexTuple = s.vertexTuple ∧
    s1.obj.vert = s.obj.vert ∧
    s1.obj.indices = s.obj.indices ++
      [s.vertexTuple.1, s.vertexTuple.2.1, s.vertexTuple.2.2] := by
  unfold emitTriangle at h
  cases hn : s.navmesh with
  | none =>
    simp only [hn, pure, Except.pure] at h
    cases h
    exact ⟨rfl, rfl, rfl, rfl⟩
  | some nav =>
    simp only [hn, bind_eq_ok_iff, pure, Except.pure] at h
    obtain ⟨p0, _, p1, _, p2, _, h⟩ := h
    cases h
    exact ⟨rfl, rfl, rfl, rfl⟩

theorem slotOf_append_of_mem {vm : List (String × Nat)} {tok k : String} {n : Nat}
    (h : (vm.lookup tok).isSome) : slotOf (vm ++ [(k, n)]) tok = slotOf vm tok := by
  obtain ⟨x, hx⟩ := Option.isSome_iff_exists.mp h
  simp [slotOf, List.lookup_append, hx]

/-- A dedup map extends another: every entry of the first is an entry of the second. -/
theorem lookup_mono_append {vm : List (String × Nat)} {tok k : String} {n x : Nat}
    (h : vm.lookup tok = some x) : (vm ++ [(k, n)]).lookup tok = some x := by
  simp [List.lookup_append, h]

theorem tokenStep_ok {env : Env} {v : List Vec3} {vt : List Vec2} {vn : List Vec3}
    {s s1 : FaceLoop} {i : Nat} {tuple : String}
    (h : tokenStep env v vt vn s i tuple = Except.ok s1) :
    (∀ t x, s.vertexMap.lookup t = some x → s1.vertexMap.lookup t = some x) ∧
    (s1.vertexMap.lookup tuple).isSome ∧
    s1.vertexTuple = (if i ≠ 0 then (s.vertexTuple.1, s.vertexTuple.2.2, slotOf s1.vertexMap tuple)
      else (slotOf s1.vertexMap tuple, s.vertexTuple.2.2, s.vertexTuple.2.2)) ∧
    s1.obj.indices = s.obj.indices ++
      (if 1 < i then [s1.vertexTuple.1, s1.vertexTuple.2.1, s1.vertexTuple.2.2] else []) := by
  unfold tokenStep at h
  simp only [bind_eq_ok_iff, pure, Except.pure] at h
  obtain ⟨sa, hsa, h⟩ := h
  have hA : (∀ t x, s.vertexMap.lookup t = some x → sa.vertexMap.lookup t = some x) ∧
      (sa.vertexMap.lookup tuple).isSome ∧ sa.vertexTuple = s.vertexTuple ∧
      sa.obj.indices = s.obj.indices := by
    split at hsa
    · next hnone =>
      obtain ⟨hvm, hidx, _, hvt, _⟩ := newVertex_ok hsa
      refine ⟨?_, ?_, hvt, hidx⟩
      · intro t x ht
        rw [hvm]; exact lookup_mono_append ht
      · rw [hvm]
        simp only [Option.isNone_iff_eq_none] at hnone
        simp [List.lookup_append, hnone]
    · next hsome =>
      cases hsa
      refine ⟨fun t x ht => ht, ?_, rfl, rfl⟩
      simpa [Option.isSome_iff_ne_none] using hsome
  obtain ⟨hmono, hsome, hvt, hidx⟩ := hA
  have hadv : (advanceFan sa i tuple).vertexMap = sa.vertexMap ∧
      (advanceFan sa i tuple).obj = sa.obj ∧
      (advanceFan sa i tuple).vertexTuple =
        (if i ≠ 0 then (s.vertexTuple.1, s.vertexTuple.2.2, slotOf sa.vertexMap tuple)
          else (slotOf sa.vertexMap tuple, s.vertexTuple.2.2, s.vertexTuple.2.2)) := by
    unfold advanceFan
    by_cases hi : i ≠ 0
    · simp only [if_pos hi, hvt, slotOf, and_self]
    · simp only [if_neg hi, hvt, slotOf, and_self]
  obtain ⟨hvm2, hobj2, hvt2⟩ := hadv
  split at h
  · next hi =>
    obtain ⟨e1, e2, _, e4⟩ := emitTriangle_ok h
    refine ⟨?_, ?_, ?_, ?_⟩
    · intro t x ht; rw [e1, hvm2]; exact hmono t x ht
    · rw [e1, hvm2]; exact hsome
    · rw [e2, hvt2, e1, hvm2]
    · rw [e4, hobj2, hidx, if_pos hi, e2]
  · next hi =>
    cases h
    refine ⟨?_, ?_, ?_, ?_⟩
    · intro t x ht; rw [hvm2]; exact hmono t x ht
    · rw [hvm2]; exact hsome
    · rw [hvt2, hvm2]
    · rw [hobj2, hidx, if_neg hi, List.append_nil]

theorem flattenTriangles_append (a b : List (Nat × Nat × Nat)) :
    flattenTriangles (a ++ b) = flattenTriangles a ++ flattenTriangles b := by
  induction a with
  | nil => rfl
  | cons t a ih =>
    simp only [flattenTriangles, List.cons_append, List.foldr_cons] at ih ⊢
    rw [ih]

theorem tokenLoop_ok {env : Env} {v : List Vec3} {vt : List Vec2} {vn : List Vec3} :
    ∀ (rest : List String) (s : FaceLoop) (i : Nat) (sF : FaceLoop),
      tokenLoop env v vt vn s i rest = Except.ok sF →
      (∀ t x, s.vertexMap.lookup t = some x → sF.vertexMap.lookup t = some x) ∧
      (∀ t ∈ rest, (sF.vertexMap.lookup t).isSome) ∧
      sF.obj.indices = s.obj.indices ++
        flattenTriangles (fanFrom i s.vertexTuple (rest.map (slotOf sF.vertexMap))) := by
  intro rest
  induction rest with
  | nil =>
    intro s i sF h
    simp only [tokenLoop] at h
    cases h
    exact ⟨fun t x ht => ht, fun t ht => absurd ht (List.not_mem_nil t), by
      simp [fanFrom, flattenTriangles]⟩
  | cons tok rest ih =>
    intro s i sF h
    simp only [tokenLoop, bind_eq_ok_iff] at h
    obtain ⟨s1, hs1, hloop⟩ := h
    obtain ⟨hmono1, hsome1, hvt1, hidx1⟩ := tokenStep_ok hs1
    obtain ⟨hmono2, hsome2, hidx2⟩ := ih s1 (i + 1) sF hloop
    obtain ⟨x, hx⟩ := Option.isSome_iff_exists.mp hsome1
    have hslot : slotOf sF.vertexMap tok = slotOf s1.vertexMap tok := by
      simp [slotOf, hx, hmono2 tok x hx]
    refine ⟨fun t y ht => hmono2 t y (hmono1 t y ht), ?_, ?_⟩
    · intro t ht
      rcases List.mem_cons.mp ht with h1 | h1
      · subst h1
        rw [hmono2 t x hx]; rfl
      · exact hsome2 t h1
    · rw [hidx2, hidx1, List.map_cons, fanFrom, flattenTriangles_append, hslot, ← hvt1,
        List.append_assoc]
      congr 2
      by_cases hi : 1 < i
      · simp [hi, flattenTriangles]
      · simp [hi, flattenTriangles]

theorem fanFrom_ge_two : ∀ (xs : List Nat) (i : Nat) (x0 a prev : Nat), 2 ≤ i →
    fanFrom i (x0, a, prev) xs =
      (List.range xs.length).map (fun j => (x0, (prev :: xs).getD j 0, xs.getD j 0)) := by
  intro xs
  induction xs with
  | nil => intro i x0 a prev _; rfl
  | cons x xs ih =>
    intro i x0 a prev hi
    have hi0 : i ≠ 0 := by omega
    have hi1 : 1 < i := by omega
    rw [fanFrom]
    simp only [hi0, hi1, ne_eq, not_false_eq_true, if_true]
    rw [ih (i + 1) x0 prev x (by omega), List.length_cons, List.range_succ_eq_map,
      List.map_cons, List.map_map]
    rfl

theorem fanFrom_zero (slots : List Nat) (vT : Nat × Nat × Nat) :
    fanFrom 0 vT slots = fanTriangles slots := by
  cases slots with
  | nil => rfl
  | cons x0 xs =>
    cases xs with
    | nil => rfl
    | cons x1 xs =>
      rw [fanFrom, fanFrom]
      simp only [ne_eq, not_true_eq_false, if_false, lt_self_iff_false, List.nil_append,
        zero_add, one_ne_zero, not_false_eq_true, if_true]
      rw [fanFrom_ge_two xs 2 x0 _ x1 (le_refl 2)]
      simp only [fanTriangles, List.length_cons, Nat.add_sub_cancel]
      apply List.map_congr_left
      intro j _
      rfl

theorem fanTriangles_length (slots : List Nat) :
    (fanTriangles slots).length = slots.length - 2 := by
  simp [fanTriangles]

/-! ## ObjLoad: vertex slots inside a Surface Group -/

theorem lookup_of_range' : ∀ (vm : List (String × Nat)) (k : Nat) (t : String),
    vm.map Prod.snd = List.range' k vm.length → t ∈ vm.map Prod.fst →
    vm.lookup t = some (k + (vm.map Prod.fst).indexOf t) := by
  intro vm
  induction vm with
  | nil => intro k t _ ht; simp at ht
  | cons a vm ih =>
    intro k t hsnd ht
    obtain ⟨key, n⟩ := a
    simp only [List.map_cons, List.length_cons, List.range'_succ, List.cons.injEq] at hsnd
    obtain ⟨hn, hrest⟩ := hsnd
    by_cases hk : t = key
    · subst hk
      simp [List.lookup_cons, hn]
    · have ht2 : t ∈ vm.map Prod.fst := by
        simp only [List.map_cons, List.mem_cons] at ht
        rcases ht with h | h
        · exact absurd h hk
        · exact h
      have hbeq : (t == key) = false := by simpa using hk
      rw [List.lookup_cons, hbeq, ih (k + 1) t hrest ht2]
      simp only [List.map_cons]
      rw [List.indexOf_cons_ne _ (fun h => hk h.symm)]
      congr 1
      omega

theorem lookup_of_range (vm : List (String × Nat)) (t : String)
    (hsnd : vm.map Prod.snd = List.range vm.length) (ht : t ∈ vm.map Prod.fst) :
    vm.lookup t = some ((vm.map Prod.fst).indexOf t) := by
  have h := lookup_of_range' vm 0 t (by rw [hsnd, List.range_eq_range']) ht
  simpa using h

theorem lookup_isNone_iff_not_mem (vm : List (String × Nat)) (t : String) :
    (vm.lookup t).isNone = true ↔ t ∉ vm.map Prod.fst := by
  rw [Option.isNone_iff_eq_none, List.lookup_eq_none_iff]
  simp only [bne_iff_ne, ne_eq, List.mem_map, not_exists, not_and]
  constructor
  · intro h p hp heq; exact h p hp heq.symm
  · intro h p hp heq; exact h p hp heq.symm

theorem tokenStep_map {env : Env} {v : List Vec3} {vt : List Vec2} {vn : List Vec3}
    {s s1 : FaceLoop} {i : Nat} {tuple : String}
    (h : tokenStep env v vt vn s i tuple = Except.ok s1) :
    (s1.vertexMap = if (s.vertexMap.lookup tuple).isNone then
        s.vertexMap ++ [(tuple, s.obj.vert.length)] else s.vertexMap) ∧
    s1.obj.vert.length = if (s.vertexMap.lookup tuple).isNone then
        s.obj.vert.length + 1 else s.obj.vert.length := by
  unfold tokenStep at h
  simp only [bind_eq_ok_iff, pure, Except.pure] at h
  obtain ⟨sa, hsa, h⟩ := h
  have hadv : (advanceFan sa i tuple).vertexMap = sa.vertexMap ∧
      (advanceFan sa i tuple).obj = sa.obj := by
    unfold advanceFan
    by_cases hi : i ≠ 0
    · simp only [if_pos hi, and_self]
    · simp only [if_neg hi, and_self]
  have hB : s1.vertexMap = sa.vertexMap ∧ s1.obj.vert = sa.obj.vert := by
    split at h
    · obtain ⟨e1, _, e3, _⟩ := emitTriangle_ok h
      exact ⟨by rw [e1, hadv.1], by rw [e3, hadv.2]⟩
    · cases h
      exact ⟨hadv.1, by rw [hadv.2]⟩
  rw [hB.1, hB.2]
  split at hsa
  · next hnone =>
    obtain ⟨hvm, _, _, _, p, hp⟩ := newVertex_ok hsa
    simp only [hnone, if_true]
    exact ⟨hvm, by rw [hp]; simp⟩
  · next hsome =>
    cases hsa
    simp only [hsome, if_false]
    exact ⟨rfl, rfl⟩

theorem tokenLoop_map {env : Env} {v : List Vec3} {vt : List Vec2} {vn : List Vec3} :
    ∀ (rest : List String) (s : FaceLoop) (i : Nat) (sF : FaceLoop),
      tokenLoop env v vt vn s i rest = Except.ok sF →
      s.vertexMap.map Prod.snd = List.range s.vertexMap.length →
      s.obj.vert.length = s.vertexMap.length →
      sF.vertexMap.map Prod.fst = distinctFrom (s.vertexMap.map Prod.fst) rest ∧
      sF.vertexMap.map Prod.snd = List.range sF.vertexMap.length ∧
      sF.obj.vert.length = sF.vertexMap.length := by
  intro rest
  induction rest with
  | nil =>
    intro s i sF h hsnd hlen
    simp only [tokenLoop] at h
    cases h
    exact ⟨rfl, hsnd, hlen⟩
  | cons tok rest ih =>
    intro s i sF h hsnd hlen
    simp only [tokenLoop, bind_eq_ok_iff] at h
    obtain ⟨s1, hs1, hloop⟩ := h
    obtain ⟨hvm, hvl⟩ := tokenStep_map hs1
    by_cases hnone : (s.vertexMap.lookup tok).isNone = true
    · rw [if_pos hnone] at hvm hvl
      have hnot := (lookup_isNone_iff_not_mem _ _).mp hnone
      have h1 : s1.vertexMap.map Prod.snd = List.range s1.vertexMap.length := by
        rw [hvm, List.map_append, hsnd, List.length_append, List.length_singleton,
          List.range_succ, hlen]
        rfl
      have h2 : s1.obj.vert.length = s1.vertexMap.length := by
        rw [hvl, hvm, hlen]; simp
      obtain ⟨r1, r2, r3⟩ := ih s1 (i + 1) sF hloop h1 h2
      refine ⟨?_, r2, r3⟩
      rw [r1, hvm]
      simp [distinctFrom, hnot]
    · rw [if_neg hnone] at hvm hvl
      have hmem : tok ∈ s.vertexMap.map Prod.fst := by
        by_contra hc
        exact hnone ((lookup_isNone_iff_not_mem _ _).mpr hc)
      obtain ⟨r1, r2, r3⟩ := ih s1 (i + 1) sF hloop (by rw [hvm]; exact hsnd)
        (by rw [hvl, hvm]; exact hlen)
      refine ⟨?_, r2, r3⟩
      rw [r1, hvm]
      simp [distinctFrom, hmem]

theorem mem_distinctFrom : ∀ (toks acc : List String) (t : String),
    t ∈ distinctFrom acc toks ↔ t ∈ acc ∨ t ∈ toks := by
  intro toks
  induction toks with
  | nil => intro acc t; simp [distinctFrom]
  | cons a toks ih =>
    intro acc t
    have hstep : distinctFrom acc (a :: toks) =
        distinctFrom (if a ∈ acc then acc else acc ++ [a]) toks := rfl
    rw [hstep, ih]
    by_cases ha : a ∈ acc
    · simp only [ha, if_true, List.mem_cons]
      constructor
      · rintro (h | h)
        · exact Or.inl h
        · exact Or.inr (Or.inr h)
      · rintro (h | h | h)
        · exact Or.inl h
        · subst h; exact Or.inl ha
        · exact Or.inr h
    · simp only [ha, if_false, List.mem_append, List.mem_singleton, List.mem_cons]
      tauto

theorem nodup_distinctFrom : ∀ (toks acc : List String), acc.Nodup →
    (distinctFrom acc toks).Nodup := by
  intro toks
  induction toks with
  | nil => intro acc h; exact h
  | cons a toks ih =>
    intro acc h
    have hstep : distinctFrom acc (a :: toks) =
        distinctFrom (if a ∈ acc then acc else acc ++ [a]) toks := rfl
    rw [hstep]
    apply ih
    by_cases ha : a ∈ acc
    · simp only [ha, if_true]; exact h
    · simp only [ha, if_false]
      rw [List.nodup_append]
      refine ⟨h, List.nodup_singleton a, ?_⟩
      intro x hx hx2
      rw [List.mem_singleton] at hx2
      subst hx2
      exact ha hx

theorem distinctFrom_append (acc a b : List String) :
    distinctFrom acc (a ++ b) = distinctFrom (distinctFrom acc a) b := by
  simp [distinctFrom, List.foldl_append]

theorem faceIndices_append (slot : String → Nat) (fs : List (List String))
    (toks : List String) :
    faceIndices slot (fs ++ [toks]) =
      faceIndices slot fs ++ flattenTriangles (fanTriangles (toks.map slot)) := by
  induction fs with
  | nil => simp [faceIndices]
  | cons f fs ih =>
    simp only [faceIndices, List.cons_append, List.foldr_cons] at ih ⊢
    rw [ih, List.append_assoc]

theorem faceIndices_congr (slot1 slot2 : String → Nat) (fs : List (List String))
    (h : ∀ t ∈ fs.flatten, slot1 t = slot2 t) :
    faceIndices slot1 fs = faceIndices slot2 fs := by
  induction fs with
  | nil => rfl
  | cons f fs ih =>
    simp only [faceIndices, List.foldr_cons] at ih ⊢
    have hf : f.map slot1 = f.map slot2 := by
      apply List.map_congr_left
      intro t ht
      exact h t (by simp [ht])
    rw [hf, ih (fun t ht => h t (by
      simp only [List.flatten_cons, List.mem_append]
      exact Or.inr ht))]

theorem processLine_group {env : Env} {st st2 : LoadState} {fs : List (List String)}
    {l : Line} (hinv : GroupInv st fs) (hl : l.notUsemtl = true)
    (h : processLine env st l = Except.ok st2) :
    GroupInv st2 (fs ++ faceLines [l]) := by
  obtain ⟨hkeys, hsnd, hobj⟩ := hinv
  cases l with
  | usemtl name => simp [Line.notUsemtl] at hl
  | mtllib file =>
    simp only [processLine] at h
    split at h
    · cases h
    · cases h
      simpa [faceLines, GroupInv] using ⟨hkeys, hsnd, hobj⟩
  | v x y z =>
    simp only [processLine] at h
    cases h
    simpa [faceLines, GroupInv] using ⟨hkeys, hsnd, hobj⟩
  | vt x y =>
    simp only [processLine] at h
    cases h
    simpa [faceLines, GroupInv] using ⟨hkeys, hsnd, hobj⟩
  | vn x y z =>
    simp only [processLine] at h
    cases h
    simpa [faceLines, GroupInv] using ⟨hkeys, hsnd, hobj⟩
  | other =>
    simp only [processLine] at h
    cases h
    simpa [faceLines, GroupInv] using ⟨hkeys, hsnd, hobj⟩
  | f tokens =>
    simp only [processLine, bind_eq_ok_iff, pure, Except.pure] at h
    obtain ⟨obj, hobj0, s, hloop, hst⟩ := h
    have hstart : obj.vert.length = st.vertexMap.length ∧
        obj.indices = faceIndices (slotOf st.vertexMap) fs := by
      cases hn : st.newobj with
      | some o =>
        rw [hn] at hobj0 hobj
        cases hobj0
        exact hobj
      | none =>
        rw [hn] at hobj0 hobj
        simp only at hobj0 hobj
        subst hobj
        have hvm : st.vertexMap = [] := by
          have : st.vertexMap.map Prod.fst = [] := by rw [hkeys]; rfl
          simpa using this
        split at hobj0
        · cases hobj0
          simp [newObject, hvm, faceIndices]
        · cases hobj0
    obtain ⟨hmono, _, hidx⟩ := tokenLoop_ok tokens _ 0 s hloop
    obtain ⟨r1, r2, r3⟩ := tokenLoop_map tokens _ 0 s hloop hsnd hstart.1
    cases hst
    refine ⟨?_, r2, ?_⟩
    · simp only [faceLines]
      rw [r1]
      simp only at hkeys ⊢
      rw [hkeys, List.flatten_append]
      simp only [distinctTokens, distinctFrom_append, List.flatten_cons, List.flatten_nil,
        List.append_nil]
    · simp only [faceLines]
      refine ⟨r3, ?_⟩
      rw [hidx, fanFrom_zero, faceIndices_append, hstart.2]
      congr 1
      apply faceIndices_congr
      intro t ht
      have hmem : t ∈ st.vertexMap.map Prod.fst := by
        rw [hkeys, distinctTokens, mem_distinctFrom]
        exact Or.inr ht
      have hl := lookup_of_range st.vertexMap t hsnd hmem
      simp [slotOf, hl, hmono t _ hl]

theorem faceLines_cons (l : Line) (ls : List Line) :
    faceLines (l :: ls) = faceLines [l] ++ faceLines ls := by
  cases l <;> simp [faceLines]

theorem processLines_group {env : Env} :
    ∀ (ls : List Line) (st st2 : LoadState) (fs : List (List String)),
      GroupInv st fs → (∀ l ∈ ls, l.notUsemtl = true) →
      processLines env st ls = Except.ok st2 → GroupInv st2 (fs ++ faceLines ls) := by
  intro ls
  induction ls with
  | nil =>
    intro st st2 fs hinv _ h
    simp only [processLines] at h
    cases h
    simpa [faceLines] using hinv
  | cons l ls ih =>
    intro st st2 fs hinv hno h
    simp only [processLines, bind_eq_ok_iff] at h
    obtain ⟨st1, h1, h2⟩ := h
    have hinv1 := processLine_group hinv (hno l (List.mem_cons_self _ _)) h1
    have := ih st1 st2 _ hinv1 (fun x hx => hno x (List.mem_cons_of_mem _ hx)) h2
    rw [faceLines_cons, ← List.append_assoc]
    exact this

/-! ## ObjLoad: the bounding box -/

theorem processLine_box {env : Env} {st st2 : LoadState} {l : Line}
    (h : processLine env st l = Except.ok st2) :
    st2.BoxMin = (positionsOf [l]).foldl Vec3.min st.BoxMin ∧
    st2.BoxMax = (positionsOf [l]).foldl Vec3.max st.BoxMax := by
  cases l with
  | mtllib file =>
    simp only [processLine] at h
    split at h
    · cases h
    · cases h; exact ⟨rfl, rfl⟩
  | usemtl name => simp only [processLine] at h; cases h; exact ⟨rfl, rfl⟩
  | v x y z => simp only [processLine] at h; cases h; exact ⟨rfl, rfl⟩
  | vt x y => simp only [processLine] at h; cases h; exact ⟨rfl, rfl⟩
  | vn x y z => simp only [processLine] at h; cases h; exact ⟨rfl, rfl⟩
  | other => simp only [processLine] at h; cases h; exact ⟨rfl, rfl⟩
  | f tokens =>
    simp only [processLine, bind_eq_ok_iff, pure, Except.pure] at h
    obtain ⟨obj, _, s, _, hst⟩ := h
    cases hst
    exact ⟨rfl, rfl⟩

theorem positionsOf_cons (l : Line) (ls : List Line) :
    positionsOf (l :: ls) = positionsOf [l] ++ positionsOf ls := by
  cases l <;> simp [positionsOf]

theorem processLines_box {env : Env} :
    ∀ (ls : List Line) (st st2 : LoadState), processLines env st ls = Except.ok st2 →
      st2.BoxMin = (positionsOf ls).foldl Vec3.min st.BoxMin ∧
      st2.BoxMax = (positionsOf ls).foldl Vec3.max st.BoxMax := by
  intro ls
  induction ls with
  | nil =>
    intro st st2 h
    simp only [processLines] at h
    cases h
    exact ⟨rfl, rfl⟩
  | cons l ls ih =>
    intro st st2 h
    simp only [processLines, bind_eq_ok_iff] at h
    obtain ⟨st1, h1, h2⟩ := h
    obtain ⟨a1, a2⟩ := processLine_box h1
    obtain ⟨b1, b2⟩ := ih st1 st2 h2
    rw [positionsOf_cons, List.foldl_append, List.foldl_append, ← a1, ← a2]
    exact ⟨b1, b2⟩

theorem Vec3.min_toVec3 (a b : QVec3) :
    Vec3.min a.toVec3 b.toVec3 = (QVec3.min a b).toVec3 := by
  simp only [Vec3.min, QVec3.toVec3, QVec3.min, FVal.lt_fin, decide_eq_true_eq, Vec3.mk.injEq,
    FVal.fin.injEq]
  refine ⟨?_, ?_, ?_⟩ <;> split_ifs with h
  · exact congrArg FVal.fin (min_eq_right (le_of_lt h)).symm
  · exact congrArg FVal.fin (min_eq_left (not_lt.mp h)).symm
  · exact congrArg FVal.fin (min_eq_right (le_of_lt h)).symm
  · exact congrArg FVal.fin (min_eq_left (not_lt.mp h)).symm
  · exact congrArg FVal.fin (min_eq_right (le_of_lt h)).symm
  · exact congrArg FVal.fin (min_eq_left (not_lt.mp h)).symm

theorem Vec3.max_toVec3 (a b : QVec3) :
    Vec3.max a.toVec3 b.toVec3 = (QVec3.max a b).toVec3 := by
  simp only [Vec3.max, QVec3.toVec3, QVec3.max, FVal.lt_fin, decide_eq_true_eq, Vec3.mk.injEq,
    FVal.fin.injEq]
  refine ⟨?_, ?_, ?_⟩ <;> split_ifs with h
  · exact congrArg FVal.fin (max_eq_right (le_of_lt h)).symm
  · exact congrArg FVal.fin (max_eq_left (not_lt.mp h)).symm
  · exact congrArg FVal.fin (max_eq_right (le_of_lt h)).symm
  · exact congrArg FVal.fin (max_eq_left (not_lt.mp h)).symm
  · exact congrArg FVal.fin (max_eq_right (le_of_lt h)).symm
  · exact congrArg FVal.fin (max_eq_left (not_lt.mp h)).symm

theorem Vec3.min_pinf (q : QVec3) : Vec3.min (Vec3.splat FVal.pinf) q.toVec3 = q.toVec3 := by
  simp [Vec3.min, Vec3.splat, QVec3.toVec3, FVal.lt]

theorem Vec3.max_ninf (q : QVec3) : Vec3.max (Vec3.splat FVal.ninf) q.toVec3 = q.toVec3 := by
  simp [Vec3.max, Vec3.splat, QVec3.toVec3, FVal.lt]

theorem foldl_min_toVec3 : ∀ (qs : List QVec3) (q : QVec3),
    (qs.map QVec3.toVec3).foldl Vec3.min q.toVec3 = (qs.foldl QVec3.min q).toVec3 := by
  intro qs
  induction qs with
  | nil => intro q; rfl
  | cons a qs ih =>
    intro q
    rw [List.map_cons, List.foldl_cons, Vec3.min_toVec3, ih, List.foldl_cons]

theorem foldl_max_toVec3 : ∀ (qs : List QVec3) (q : QVec3),
    (qs.map QVec3.toVec3).foldl Vec3.max q.toVec3 = (qs.foldl QVec3.max q).toVec3 := by
  intro qs
  induction qs with
  | nil => intro q; rfl
  | cons a qs ih =>
    intro q
    rw [List.map_cons, List.foldl_cons, Vec3.max_toVec3, ih, List.foldl_cons]

theorem foldl_qmin_components : ∀ (qs : List QVec3) (q : QVec3),
    qs.foldl QVec3.min q =
      ⟨(qs.map (fun q => q.x)).foldl min q.x, (qs.map (fun q => q.y)).foldl min q.y,
       (qs.map (fun q => q.z)).foldl min q.z⟩ := by
  intro qs
  induction qs with
  | nil => intro q; rfl
  | cons a qs ih =>
    intro q
    rw [List.foldl_cons, ih]
    rfl

theorem foldl_qmax_components : ∀ (qs : List QVec3) (q : QVec3),
    qs.foldl QVec3.max q =
      ⟨(qs.map (fun q => q.x)).foldl max q.x, (qs.map (fun q => q.y)).foldl max q.y,
       (qs.map (fun q => q.z)).foldl max q.z⟩ := by
  intro qs
  induction qs with
  | nil => intro q; rfl
  | cons a qs ih =>
    intro q
    rw [List.foldl_cons, ih]
    rfl

theorem minOf_cons (a : ℚ) (l : List ℚ) : minOf (a :: l) = l.foldl min a := by
  simp [minOf]

theorem maxOf_cons (a : ℚ) (l : List ℚ) : maxOf (a :: l) = l.foldl max a := by
  simp [maxOf]

/-- The box after the position lines of finite positions `qs`, at least one. -/
theorem box_of_finite_positions (qs : List QVec3) (hne : qs ≠ []) :
    ((qs.map QVec3.toVec3).foldl Vec3.max (Vec3.splat FVal.ninf)).sub
        ((qs.map QVec3.toVec3).foldl Vec3.min (Vec3.splat FVal.pinf)) =
      (extentOf qs).toVec3 := by
  cases qs with
  | nil => exact absurd rfl hne
  | cons q qs =>
    rw [List.map_cons, List.foldl_cons, List.foldl_cons, Vec3.min_pinf, Vec3.max_ninf,
      foldl_min_toVec3, foldl_max_toVec3, Vec3.sub_toVec3, foldl_qmin_components,
      foldl_qmax_components]
    simp only [extentOf, List.map_cons, minOf_cons, maxOf_cons, QVec3.sub]

/-! ## ObjLoad: a description whose face tokens resolve is loaded to the end -/

theorem readAt_ofNat_ok {α : Type} (arr : List α) (n : Nat) (h : n < arr.length) :
    ∃ a, readAt arr (Int.ofNat n) = Except.ok a := by
  refine ⟨arr[n], ?_⟩
  have h0 : ¬ ((Int.ofNat n) < 0) := by simp
  have ht : (Int.ofNat n).toNat = n := rfl
  simp only [readAt, h0, if_false, ht, List.getElem?_eq_getElem h]

theorem readAt_pred_ok {α : Type} (arr : List α) (k : Int) (h1 : 1 ≤ k)
    (h2 : k ≤ (arr.length : Int)) : ∃ a, readAt arr (k - 1) = Except.ok a := by
  have hn : (k - 1).toNat < arr.length := by omega
  have h := readAt_ofNat_ok arr (k - 1).toNat hn
  have hk : Int.ofNat (k - 1).toNat = k - 1 := by
    simp only [Int.ofNat_eq_coe]; omega
  rw [hk] at h
  exact h

theorem idxOk_spec {g : List Char} {n : Nat} (h : idxOk g n = true) :
    ∃ k : Int, stoi g = Except.ok k ∧ 1 ≤ k ∧ k ≤ (n : Int) := by
  unfold idxOk at h
  split at h
  · next k hk =>
    simp only [decide_eq_true_eq] at h
    exact ⟨k, hk, h⟩
  · cases h

theorem newVertex_total {v : List Vec3} {vt : List Vec2} {vn : List Vec3} (s : FaceLoop)
    {tuple : String} (h : tokenOk v.length vt.length vn.length tuple = true) :
    ∃ s1, newVertex v vt vn s tuple = Except.ok s1 := by
  unfold tokenOk at h
  split at h
  · cases h
  · next g1 g2 g3 hre =>
    simp only [Bool.and_eq_true, Bool.or_eq_true, decide_eq_true_eq] at h
    obtain ⟨h1, h2, h3⟩ := h
    obtain ⟨k1, hk1, hk1a, hk1b⟩ := idxOk_spec h1
    obtain ⟨p, hp⟩ := readAt_pred_ok v k1 hk1a hk1b
    unfold newVertex
    simp only [hre, Option.getD_some, hk1, hp, bind, Except.bind, pure, Except.pure]
    by_cases hg2 : g2 = []
    · by_cases hg3 : g3 = []
      · simp only [hg2, hg3, ne_eq, not_true_eq_false, if_false]
        exact ⟨_, rfl⟩
      · obtain ⟨k3, hk3, hk3a, hk3b⟩ := idxOk_spec (h3.resolve_left hg3)
        obtain ⟨n, hn⟩ := readAt_pred_ok vn k3 hk3a hk3b
        simp only [hg2, hg3, ne_eq, not_true_eq_false, not_false_eq_true, if_false, if_true,
          hk3, hn]
        exact ⟨_, rfl⟩
    · obtain ⟨k2, hk2, hk2a, hk2b⟩ := idxOk_spec (h2.resolve_left hg2)
      obtain ⟨t, ht⟩ := readAt_pred_ok vt k2 hk2a hk2b
      by_cases hg3 : g3 = []
      · simp only [hg2, hg3, ne_eq, not_true_eq_false, not_false_eq_true, if_false, if_true,
          hk2, ht]
        exact ⟨_, rfl⟩
      · obtain ⟨k3, hk3, hk3a, hk3b⟩ := idxOk_spec (h3.resolve_left hg3)
        obtain ⟨n, hn⟩ := readAt_pred_ok vn k3 hk3a hk3b
        simp only [hg2, hg3, ne_eq, not_false_eq_true, if_true, hk2, ht, hk3, hn]
        exact ⟨_, rfl⟩

theorem emitTriangle_total (env : Env) (s : FaceLoop)
    (h0 : s.vertexTuple.1 < s.obj.vert.length) (h1 : s.vertexTuple.2.1 < s.obj.vert.length)
    (h2 : s.vertexTuple.2.2 < s.obj.vert.length) :
    ∃ s1, emitTriangle env s = Except.ok s1 := by
  unfold emitTriangle
  cases hn : s.navmesh with
  | none => exact ⟨_, rfl⟩
  | some nav =>
    obtain ⟨p0, hp0⟩ := readAt_ofNat_ok s.obj.vert _ h0
    obtain ⟨p1, hp1⟩ := readAt_ofNat_ok s.obj.vert _ h1
    obtain ⟨p2, hp2⟩ := readAt_ofNat_ok s.obj.vert _ h2
    simp only [hp0, hp1, hp2, bind, Except.bind, pure, Except.pure]
    exact ⟨_, rfl⟩

theorem resolve_total {v : List Vec3} {vt : List Vec2} {vn : List Vec3} (s : FaceLoop)
    {tuple : String} (hsnd : s.vertexMap.map Prod.snd = List.range s.vertexMap.length)
    (hlen : s.obj.vert.length = s.vertexMap.length)
    (hok : tokenOk v.length vt.length vn.length tuple = true) :
    ∃ sa, (if (s.vertexMap.lookup tuple).isNone then newVertex v vt vn s tuple
        else Except.ok s) = Except.ok sa ∧
      sa.vertexTuple = s.vertexTuple ∧ s.obj.vert.length ≤ sa.obj.vert.length ∧
      slotOf sa.vertexMap tuple < sa.obj.vert.length := by
  by_cases hnone : (s.vertexMap.lookup tuple).isNone = true
  · obtain ⟨sa, hsa⟩ := newVertex_total s hok
    obtain ⟨hvm, _, _, hvt, p, hp⟩ := newVertex_ok hsa
    refine ⟨sa, by rw [if_pos hnone]; exact hsa, hvt, by rw [hp]; simp, ?_⟩
    have hl : s.vertexMap.lookup tuple = none := Option.isNone_iff_eq_none.mp hnone
    rw [hp, hvm]
    simp [slotOf, List.lookup_append, hl]
  · refine ⟨s, by rw [if_neg hnone], rfl, le_refl _, ?_⟩
    have hmem : tuple ∈ s.vertexMap.map Prod.fst := by
      by_contra hc
      exact hnone ((lookup_isNone_iff_not_mem _ _).mpr hc)
    rw [slotOf, lookup_of_range s.vertexMap tuple hsnd hmem, Option.getD_some, hlen]
    have := List.indexOf_lt_length.mpr hmem
    simpa using this

theorem tokenStep_total {env : Env} {v : List Vec3} {vt : List Vec2} {vn : List Vec3}
    (s : FaceLoop) (i : Nat) {tuple : String}
    (hsnd : s.vertexMap.map Prod.snd = List.range s.vertexMap.length)
    (hlen : s.obj.vert.length = s.vertexMap.length)
    (hv0 : 1 ≤ i → s.vertexTuple.1 < s.obj.vert.length)
    (hv2 : 2 ≤ i → s.vertexTuple.2.2 < s.obj.vert.length)
    (hok : tokenOk v.length vt.length vn.length tuple = true) :
    ∃ s1, tokenStep env v vt vn s i tuple = Except.ok s1 ∧
      s1.vertexTuple.1 < s1.obj.vert.length ∧
      (1 ≤ i → s1.vertexTuple.2.2 < s1.obj.vert.length) := by
  obtain ⟨sa, hsa, hvt, hle, hslot⟩ := @resolve_total v vt vn s tuple hsnd hlen hok
  have hslot2 : (sa.vertexMap.lookup tuple).getD 0 < sa.obj.vert.length := hslot
  unfold tokenStep
  simp only [pure, Except.pure, hsa, bind, Except.bind]
  by_cases hi0 : i = 0
  · subst hi0
    have hadv : advanceFan sa 0 tuple =
        { sa with vertexTuple := ((sa.vertexMap.lookup tuple).getD 0, sa.vertexTuple.2.2,
          sa.vertexTuple.2.2) } := by
      simp [advanceFan]
    simp only [hadv, Nat.not_lt_zero, if_false]
    exact ⟨_, rfl, hslot2, fun h => absurd h (by omega)⟩
  · have hadv : advanceFan sa i tuple =
        { sa with vertexTuple := (sa.vertexTuple.1, sa.vertexTuple.2.2,
          (sa.vertexMap.lookup tuple).getD 0) } := by
      simp [advanceFan, hi0]
    have h1 : sa.vertexTuple.1 < sa.obj.vert.length := by
      rw [hvt]; exact lt_of_lt_of_le (hv0 (by omega)) hle
    by_cases hi : 1 < i
    · have h2 : sa.vertexTuple.2.2 < sa.obj.vert.length := by
        rw [hvt]; exact lt_of_lt_of_le (hv2 (by omega)) hle
      obtain ⟨s1, hs1⟩ := emitTriangle_total env (advanceFan sa i tuple)
        (by rw [hadv]; exact h1) (by rw [hadv]; exact h2) (by rw [hadv]; exact hslot2)
      obtain ⟨_, e2, e3, _⟩ := emitTriangle_ok hs1
      simp only [hi, if_true]
      refine ⟨s1, hs1, ?_, ?_⟩
      · rw [e2, e3, hadv]; exact h1
      · intro _
        rw [e2, e3, hadv]; exact hslot2
    · simp only [hi, if_false, hadv]
      exact ⟨_, rfl, h1, fun _ => hslot2⟩

theorem tokenLoop_total {env : Env} {v : List Vec3} {vt : List Vec2} {vn : List Vec3} :
    ∀ (rest : List String) (s : FaceLoop) (i : Nat),
      s.vertexMap.map Prod.snd = List.range s.vertexMap.length →
      s.obj.vert.length = s.vertexMap.length →
      (1 ≤ i → s.vertexTuple.1 < s.obj.vert.length) →
      (2 ≤ i → s.vertexTuple.2.2 < s.obj.vert.length) →
      rest.all (tokenOk v.length vt.length vn.length) = true →
      ∃ sF, tokenLoop env v vt vn s i rest = Except.ok sF := by
  intro rest
  induction rest with
  | nil => intro s i _ _ _ _ _; exact ⟨s, rfl⟩
  | cons tok rest ih =>
    intro s i hsnd hlen hv0 hv2 hall
    simp only [List.all_cons, Bool.and_eq_true] at hall
    obtain ⟨s1, hs1, b1, b2⟩ := @tokenStep_total env v vt vn s i tok hsnd hlen hv0 hv2 hall.1
    have hm := @tokenLoop_map env v vt vn [tok] s i s1 (by
      simp only [tokenLoop, hs1, bind, Except.bind]) hsnd hlen
    obtain ⟨sF, hsF⟩ := ih s1 (i + 1) hm.2.1 hm.2.2 (fun _ => b1) (fun h => b2 (by omega)) hall.2
    refine ⟨sF, ?_⟩
    simp only [tokenLoop, hs1, bind, Except.bind]
    exact hsF

theorem processLine_total {env : Env} (henv : EnvOk env) (st : LoadState) (l : Line)
    (hinv : SlotInv st.vertexMap st.newobj)
    (hok : facesResolve st.v.length st.vt.length st.vn.length [l] = true) :
    ∃ st2, processLine env st l = Except.ok st2 ∧ SlotInv st2.vertexMap st2.newobj ∧
      ∀ rest, facesResolve st.v.length st.vt.length st.vn.length (l :: rest) =
        (facesResolve st.v.length st.vt.length st.vn.length [l] &&
          facesResolve st2.v.length st2.vt.length st2.vn.length rest) := by
  cases l with
  | mtllib file =>
    obtain ⟨mm, hmm⟩ := Option.isSome_iff_exists.mp (henv.1 file st.materialMap)
    refine ⟨{ st with materialMap := mm }, by simp [processLine, hmm], hinv, ?_⟩
    intro rest; simp [facesResolve]
  | usemtl name =>
    refine ⟨_, rfl, ⟨rfl, rfl⟩, ?_⟩
    intro rest; simp [facesResolve]
  | v x y z =>
    refine ⟨_, rfl, hinv, ?_⟩
    intro rest; simp [facesResolve]
  | vt x y =>
    refine ⟨_, rfl, hinv, ?_⟩
    intro rest; simp [facesResolve]
  | vn x y z =>
    refine ⟨_, rfl, hinv, ?_⟩
    intro rest; simp [facesResolve]
  | other =>
    refine ⟨_, rfl, hinv, ?_⟩
    intro rest; simp [facesResolve]
  | f tokens =>
    simp only [facesResolve, Bool.and_true] at hok
    obtain ⟨hsnd, hobj⟩ := hinv
    have hstart : ∃ obj, (match st.newobj with
        | some o => (Except.ok o : Except ObjError Object)
        | none =>
          if env.texturesOk (materialEntry st.materialMap st.currentMaterial).2.maps
              (materialEntry st.materialMap st.currentMaterial).2.channels = true
          then Except.ok (newObject (materialEntry st.materialMap st.currentMaterial).2)
          else Except.error ObjError.abort) = Except.ok obj ∧
        obj.vert.length = st.vertexMap.length := by
      cases hn : st.newobj with
      | some o =>
        rw [hn] at hobj
        exact ⟨o, rfl, hobj⟩
      | none =>
        rw [hn] at hobj
        simp only at hobj
        refine ⟨newObject (materialEntry st.materialMap st.currentMaterial).2, ?_, ?_⟩
        · simp only [henv.2, if_true]
        · rw [hobj]; rfl
    obtain ⟨obj, hobj0, hlen⟩ := hstart
    obtain ⟨sF, hsF⟩ := @tokenLoop_total env st.v st.vt st.vn tokens
      { vertexMap := st.vertexMap, obj := obj, navmesh := st.navmesh, vertexTuple := (0, 0, 0) }
      0 hsnd hlen (fun h => absurd h (by omega)) (fun h => absurd h (by omega)) hok
    obtain ⟨_, r2, r3⟩ := tokenLoop_map tokens _ 0 sF hsF hsnd hlen
    refine ⟨{ st with vertexMap := sF.vertexMap, newobj := some sF.obj, navmesh := sF.navmesh },
      ?_, ⟨r2, r3⟩, ?_⟩
    · simp only [processLine, bind_eq_ok_iff, pure, Except.pure]
      exact ⟨obj, hobj0, sF, hsF, rfl⟩
    · intro rest; simp [facesResolve]

theorem processLines_total {env : Env} (henv : EnvOk env) :
    ∀ (ls : List Line) (st : LoadState), SlotInv st.vertexMap st.newobj →
      facesResolve st.v.length st.vt.length st.vn.length ls = true →
      ∃ st2, processLines env st ls = Except.ok st2 := by
  intro ls
  induction ls with
  | nil => intro st _ _; exact ⟨st, rfl⟩
  | cons l ls ih =>
    intro st hinv hok
    have hl : facesResolve st.v.length st.vt.length st.vn.length [l] = true := by
      cases l <;> simp_all [facesResolve]
    obtain ⟨st1, h1, hinv1, hsplit⟩ := processLine_total henv st l hinv hl
    rw [hsplit ls, hl, Bool.true_and] at hok
    obtain ⟨st2, h2⟩ := ih st1 hinv1 hok
    exact ⟨st2, by simp only [processLines, h1, bind, Except.bind]; exact h2⟩

theorem foldl_max_ge_init (l : List ℚ) (c : ℚ) : c ≤ l.foldl max c := by
  induction l generalizing c with
  | nil => exact le_rfl
  | cons x xs ih => exact le_trans (le_max_left c x) (ih (max c x))

theorem foldl_max_ge_mem (l : List ℚ) (c : ℚ) : ∀ x ∈ l, x ≤ l.foldl max c := by
  induction l generalizing c with
  | nil => intro x hx; cases hx
  | cons y ys ih =>
    intro x hx
    rcases List.mem_cons.mp hx with h | h
    · subst h
      exact le_trans (le_max_right c x) (foldl_max_ge_init ys (max c x))
    · exact ih (max c y) x h

theorem foldl_max_eq_or_mem (l : List ℚ) (c : ℚ) : l.foldl max c = c ∨ l.foldl max c ∈ l := by
  induction l generalizing c with
  | nil => exact Or.inl rfl
  | cons y ys ih =>
    rcases ih (max c y) with h | h
    · rcases max_choice c y with hc | hy
      · exact Or.inl (by rw [List.foldl_cons, h, hc])
      · exact Or.inr (by rw [List.foldl_cons, h, hy]; exact List.mem_cons_self _ _)
    · exact Or.inr (List.mem_cons_of_mem _ h)

/-- On a non-empty list `minOf` and `maxOf` are the least and the greatest element. -/
theorem minOf_maxOf_spec (l : List ℚ) (hne : l ≠ []) :
    (minOf l ∈ l ∧ ∀ a ∈ l, minOf l ≤ a) ∧ (maxOf l ∈ l ∧ ∀ a ∈ l, a ≤ maxOf l) := by
  cases l with
  | nil => exact absurd rfl hne
  | cons x xs =>
    rw [minOf_cons, maxOf_cons]
    refine ⟨⟨?_, ?_⟩, ⟨?_, ?_⟩⟩
    · rcases foldl_min_eq_or_mem xs x with h | h
      · rw [h]; exact List.mem_cons_self _ _
      · exact List.mem_cons_of_mem _ h
    · intro a ha
      rcases List.mem_cons.mp ha with h | h
      · rw [h]; exact foldl_min_le_init xs x
      · exact foldl_min_le_mem xs x a h
    · rcases foldl_max_eq_or_mem xs x with h | h
      · rw [h]; exact List.mem_cons_self _ _
      · exact List.mem_cons_of_mem _ h
    · intro a ha
      rcases List.mem_cons.mp ha with h | h
      · rw [h]; exact foldl_max_ge_init xs x
      · exact foldl_max_ge_mem xs x a h

/-- C10: for a mesh description whose `v` lines hold the finite positions `qs`, at least one,
whatever the other lines are: whenever ObjLoad returns, it returns the component-wise
`max - min` over `qs`; it does return when every referenced file loads and every face token
resolves; and `minOf`, `maxOf` are the least and greatest element of a non-empty list. -/
theorem ObjLoad_returns_extent (env : Env) (objects : List Object) (navmesh : Option NavMesh)
    (lines : List Line) (qs : List QVec3)
    (hpos : positionsOf lines = qs.map QVec3.toVec3) (hne : qs ≠ []) :
    (∀ res, ObjLoad env objects navmesh (some lines) = Except.ok res →
      res.1 = (extentOf qs).toVec3) ∧
    (EnvOk env → facesResolve 0 0 0 lines = true →
      ∃ res, ObjLoad env objects navmesh (some lines) = Except.ok res ∧
        res.1 = (extentOf qs).toVec3) ∧
    (∀ l : List ℚ, l ≠ [] →
      (minOf l ∈ l ∧ ∀ a ∈ l, minOf l ≤ a) ∧ (maxOf l ∈ l ∧ ∀ a ∈ l, a ≤ maxOf l)) := by
  have hres : ∀ res, ObjLoad env objects navmesh (some lines) = Except.ok res →
      res.1 = (extentOf qs).toVec3 := by
    intro res h
    simp only [ObjLoad, bind_eq_ok_iff, pure, Except.pure] at h
    obtain ⟨st, hst, hr⟩ := h
    cases hr
    obtain ⟨hmin, hmax⟩ := processLines_box lines _ st hst
    simp only
    rw [hmin, hmax, hpos]
    exact box_of_finite_positions qs hne
  refine ⟨hres, ?_, minOf_maxOf_spec⟩
  intro henv hok
  obtain ⟨st, hst⟩ := processLines_total henv lines (initialState objects navmesh)
    ⟨rfl, rfl⟩ hok
  have hload : ObjLoad env objects navmesh (some lines) = Except.ok (st.BoxMax.sub st.BoxMin,
      st.objects ++ (st.newobj.map (Object.initGPUData env.rsqrt)).toList, st.navmesh) := by
    simp only [ObjLoad, hst, bind, Except.bind, pure, Except.pure]
  exact ⟨_, hload, hres _ hload⟩

/-- The positions `(-1,0,0)`, `(1,0,0)`, `(0,1,0)` give the extent `(2,1,0)`. -/
theorem extent_example :
    (ObjLoad sampleEnv [] (some NavMesh.empty) (some extentLines)).map (fun res => res.1) =
      Except.ok (QVec3.toVec3 ⟨2, 1, 0⟩) ∧
    extentOf extentPositions = ⟨2, 1, 0⟩ := by
  constructor <;> decide!

/-- Witness for C10: the description `extentLines`. -/
theorem ObjLoad_returns_extent_witness :
    positionsOf extentLines = extentPositions.map QVec3.toVec3 ∧ extentPositions ≠ [] ∧
    (∀ res, ObjLoad sampleEnv [] (some NavMesh.empty) (some extentLines) = Except.ok res →
      res.1 = (extentOf extentPositions).toVec3) :=
  ⟨by decide, by decide,
    (ObjLoad_returns_extent sampleEnv [] (some NavMesh.empty) extentLines extentPositions
      (by decide) (by decide)).1⟩

/-! ## ObjLoad: the claims on face lines and Surface Groups -/

/-- C8: a face line that is processed appends to the index array of the current Surface
Group exactly the triangles `(s0, s(i-1), s(i))`, `i = 2, ..., n-1`, in that order, where
`s0, ..., s(n-1)` are the vertex slots of its `n` tokens: `n - 2` triangles when `n ≥ 3`, none
when `n < 3`; and it is processed whenever the textures load and every token resolves,
in a state whose dedup map and current object are in step. -/
theorem face_line_fan (env : Env) (st : LoadState) (tokens : List String) :
    (∀ st2, processLine env st (Line.f tokens) = Except.ok st2 →
      ∃ obj2 : Object, st2.newobj = some obj2 ∧
        (∀ t ∈ tokens, st2.vertexMap.lookup t = some (slotOf st2.vertexMap t)) ∧
        obj2.indices = (match st.newobj with | some o => o.indices | none => []) ++
          flattenTriangles (fanTriangles (tokens.map (slotOf st2.vertexMap))) ∧
        (fanTriangles (tokens.map (slotOf st2.vertexMap))).length = tokens.length - 2 ∧
        fanTriangles (tokens.map (slotOf st2.vertexMap)) =
          (List.range (tokens.length - 2)).map (fun j =>
            (slotOf st2.vertexMap (tokens.getD 0 ""),
              slotOf st2.vertexMap (tokens.getD (j + 1) ""),
              slotOf st2.vertexMap (tokens.getD (j + 2) "")))) ∧
    (EnvOk env → SlotInv st.vertexMap st.newobj →
      tokens.all (tokenOk st.v.length st.vt.length st.vn.length) = true →
      ∃ st2, processLine env st (Line.f tokens) = Except.ok st2 ∧
        SlotInv st2.vertexMap st2.newobj) := by
  constructor
  · intro st2 h
    simp only [processLine, bind_eq_ok_iff, pure, Except.pure] at h
    obtain ⟨obj, hobj, s, hloop, hst⟩ := h
    obtain ⟨_, hsome, hidx⟩ := tokenLoop_ok tokens _ 0 s hloop
    cases hst
    refine ⟨s.obj, rfl, ?_, ?_, ?_, ?_⟩
    · intro t ht
      obtain ⟨x, hx⟩ := Option.isSome_iff_exists.mp (hsome t ht)
      simp [slotOf, hx]
    · rw [hidx, fanFrom_zero]
      congr 1
      cases hn : st.newobj with
      | some o => rw [hn] at hobj; cases hobj; rfl
      | none =>
        rw [hn] at hobj
        simp only at hobj
        split at hobj
        · cases hobj; rfl
        · cases hobj
    · simp [fanTriangles_length]
    · simp only [fanTriangles, List.length_map]
      apply List.map_congr_left
      intro j hj
      have hj2 : j < tokens.length - 2 := List.mem_range.mp hj
      simp only [List.getD_eq_getElem?_getD, List.getElem?_map]
      have h0 : 0 < tokens.length := by omega
      have h1 : j + 1 < tokens.length := by omega
      have h2 : j + 2 < tokens.length := by omega
      simp [List.getElem?_eq_getElem, h0, h1, h2]
  · intro henv hinv hok
    obtain ⟨st2, h2, hinv2, _⟩ := processLine_total henv st (Line.f tokens) hinv
      (by simp only [facesResolve, hok, Bool.and_true])
    exact ⟨st2, h2, hinv2⟩

/-- The face line `f 1 2 3 4` after four position lines: the slots of the tokens are
`0, 1, 2, 3` and the indices emitted are those of the triangles of tokens `(1,2,3)` and
`(1,3,4)`, in that order. -/
theorem quad_face_line :
    processLine sampleEnv quadState (Line.f ["1", "2", "3", "4"]) = Except.ok quadFaceState := by
  decide!

theorem sampleEnv_ok : EnvOk sampleEnv := ⟨fun _ _ => rfl, fun _ _ => rfl⟩

/-- Witness for C8: the face line `f 1 2 3 4` is processed, and its index entries are
`0,1,2` then `0,2,3`. -/
theorem face_line_fan_witness :
    EnvOk sampleEnv ∧ SlotInv quadState.vertexMap quadState.newobj ∧
    ["1", "2", "3", "4"].all
      (tokenOk quadState.v.length quadState.vt.length quadState.vn.length) = true ∧
    (∃ st2, processLine sampleEnv quadState (Line.f ["1", "2", "3", "4"]) = Except.ok st2 ∧
      SlotInv st2.vertexMap st2.newobj) ∧
    processLine sampleEnv quadState (Line.f ["1", "2", "3", "4"]) = Except.ok quadFaceState ∧
    ∃ obj2 : Object, quadFaceState.newobj = some obj2 ∧
      (∀ t ∈ ["1", "2", "3", "4"],
        quadFaceState.vertexMap.lookup t = some (slotOf quadFaceState.vertexMap t)) ∧
      obj2.indices = (match quadState.newobj with | some o => o.indices | none => []) ++
        flattenTriangles (fanTriangles (["1", "2", "3", "4"].map (slotOf quadFaceState.vertexMap))) ∧
      (fanTriangles (["1", "2", "3", "4"].map (slotOf quadFaceState.vertexMap))).length =
        ["1", "2", "3", "4"].length - 2 ∧
      fanTriangles (["1", "2", "3", "4"].map (slotOf quadFaceState.vertexMap)) =
        (List.range (["1", "2", "3", "4"].length - 2)).map (fun j =>
          (slotOf quadFaceState.vertexMap (["1", "2", "3", "4"].getD 0 ""),
            slotOf quadFaceState.vertexMap (["1", "2", "3", "4"].getD (j + 1) ""),
            slotOf quadFaceState.vertexMap (["1", "2", "3", "4"].getD (j + 2) ""))) :=
  ⟨sampleEnv_ok, ⟨rfl, rfl⟩, by decide,
    (face_line_fan sampleEnv quadState ["1", "2", "3", "4"]).2 sampleEnv_ok ⟨rfl, rfl⟩
      (by decide),
    by decide!,
    (face_line_fan sampleEnv quadState ["1", "2", "3", "4"]).1 quadFaceState (by decide!)⟩

theorem initGPUData_vert_indices (rsqrt : FVal → FVal) (o : Object) :
    (Object.initGPUData rsqrt o).vert = o.vert ∧
    (Object.initGPUData rsqrt o).indices = o.indices := ⟨rfl, rfl⟩

/-- C9: in a Surface Group (lines without `usemtl`, processed from a state with an empty dedup
map and no current object, as at the start of a load and after every `usemtl`), the dedup
map lists the distinct face tokens once each in order of first occurrence, the slot of a
token is the rank of its first occurrence, the position array has one entry per distinct
token, and every index entry of a token is that slot; the group is processed whenever the
referenced files load and every face token resolves; `usemtl` always succeeds, empties the
map and closes the object, whose positions and indices are kept. -/
theorem group_vertex_slots (env : Env) (st : LoadState) (ls : List Line)
    (hfresh : st.vertexMap = [] ∧ st.newobj = none) (hno : ∀ l ∈ ls, l.notUsemtl = true) :
    (∀ st2, processLines env st ls = Except.ok st2 →
      (st2.vertexMap.map Prod.fst = distinctTokens (faceLines ls).flatten ∧
        (distinctTokens (faceLines ls).flatten).Nodup) ∧
      (∀ t ∈ (faceLines ls).flatten,
        st2.vertexMap.lookup t = some (tokenRank (faceLines ls).flatten t)) ∧
      (∀ o, st2.newobj = some o →
        o.vert.length = (distinctTokens (faceLines ls).flatten).length ∧
        o.indices = faceIndices (tokenRank (faceLines ls).flatten) (faceLines ls)) ∧
      (faceLines ls ≠ [] → st2.newobj ≠ none)) ∧
    (EnvOk env → facesResolve st.v.length st.vt.length st.vn.length ls = true →
      ∃ st2, processLines env st ls = Except.ok st2) ∧
    (∀ (stx : LoadState) (name : String), ∃ sty,
      processLine env stx (Line.usemtl name) = Except.ok sty ∧
      sty.vertexMap = [] ∧ sty.newobj = none ∧
      sty.objects = stx.objects ++ (stx.newobj.map (Object.initGPUData env.rsqrt)).toList ∧
      ∀ o, stx.newobj = some o →
        (Object.initGPUData env.rsqrt o).vert = o.vert ∧
        (Object.initGPUData env.rsqrt o).indices = o.indices) ∧
    (∀ objects navmesh, (initialState objects navmesh).vertexMap = [] ∧
      (initialState objects navmesh).newobj = none) := by
  have hinv0 : GroupInv st [] := by
    refine ⟨by rw [hfresh.1]; rfl, by rw [hfresh.1]; rfl, ?_⟩
    rw [hfresh.2]
  have hslot0 : SlotInv st.vertexMap st.newobj := by
    rw [hfresh.1, hfresh.2]
    exact ⟨rfl, rfl⟩
  refine ⟨?_, fun henv hok => processLines_total henv ls st hslot0 hok, ?_, ?_⟩
  · intro st2 h
    have hinv := processLines_group ls st st2 [] hinv0 hno h
    rw [List.nil_append] at hinv
    obtain ⟨hkeys, hsnd, hobj⟩ := hinv
    have hlook : ∀ t ∈ (faceLines ls).flatten,
        st2.vertexMap.lookup t = some (tokenRank (faceLines ls).flatten t) := by
      intro t ht
      have hmem : t ∈ st2.vertexMap.map Prod.fst := by
        rw [hkeys, distinctTokens, mem_distinctFrom]
        exact Or.inr ht
      rw [lookup_of_range st2.vertexMap t hsnd hmem, hkeys]
      rfl
    have hlen : st2.vertexMap.length = (distinctTokens (faceLines ls).flatten).length := by
      rw [← hkeys, List.length_map]
    refine ⟨⟨hkeys, nodup_distinctFrom _ [] List.nodup_nil⟩, hlook, ?_, ?_⟩
    · intro o ho
      rw [ho] at hobj
      refine ⟨by rw [hobj.1, hlen], ?_⟩
      rw [hobj.2]
      apply faceIndices_congr
      intro t ht
      simp [slotOf, hlook t ht]
    · intro hne hnone
      rw [hnone] at hobj
      exact hne hobj
  · intro stx name
    exact ⟨_, rfl, rfl, rfl, rfl, fun o _ => initGPUData_vert_indices env.rsqrt o⟩
  · intro objects navmesh
    exact ⟨rfl, rfl⟩

/-- The lines `f 1 2 3`, an ignored line, `f 1 3 4`: four slots, the repeated tokens `1`
and `3` reuse theirs. -/
theorem two_face_lines :
    processLines sampleEnv quadState twoFaceLines = Except.ok twoFaceState := by decide!

/-- After `usemtl m`, the tokens of `f 3 4 1` get the slots `0, 1, 2` of a new group. -/
theorem second_group_lines :
    processLines sampleEnv twoFaceState [Line.usemtl "m", Line.f ["3", "4", "1"]] =
      Except.ok secondGroupState := by decide!

/-- Witness for C9: the group `f 1 2 3`, `f 1 3 4` is processed; its dedup map is
`1 ↦ 0, 2 ↦ 1, 3 ↦ 2, 4 ↦ 3`. -/
theorem group_vertex_slots_witness :
    (quadState.vertexMap = [] ∧ quadState.newobj = none) ∧
    (∀ l ∈ twoFaceLines, l.notUsemtl = true) ∧
    (∃ st2, processLines sampleEnv quadState twoFaceLines = Except.ok st2) ∧
    processLines sampleEnv quadState twoFaceLines = Except.ok twoFaceState ∧
    twoFaceState.vertexMap = [("1", 0), ("2", 1), ("3", 2), ("4", 3)] ∧
    (twoFaceState.vertexMap.map Prod.fst = distinctTokens (faceLines twoFaceLines).flatten ∧
      (distinctTokens (faceLines twoFaceLines).flatten).Nodup) ∧
    (∀ t ∈ (faceLines twoFaceLines).flatten,
      twoFaceState.vertexMap.lookup t = some (tokenRank (faceLines twoFaceLines).flatten t)) :=
  ⟨by decide, by decide,
    (group_vertex_slots sampleEnv quadState twoFaceLines (by decide) (by decide)).2.1
      sampleEnv_ok (by decide),
    by decide!, rfl,
    ((group_vertex_slots sampleEnv quadState twoFaceLines (by decide) (by decide)).1
      twoFaceState (by decide!)).1,
    ((group_vertex_slots sampleEnv quadState twoFaceLines (by decide) (by decide)).1
      twoFaceState (by decide!)).2.1⟩

/-! ## sceneUpdate -/

theorem NavMesh.trace_isSome (m : NavMesh) (h : m.lockstep) (start direction : Vec3)
    (near far : FVal) : ∃ r, m.trace start direction near far = some r :=
  ⟨_, NavMesh.trace_eq_foldl m h start direction near far⟩

theorem NavMesh.anyhit_isSome (m : NavMesh) (h : m.lockstep) (start direction : Vec3)
    (near far : FVal) : ∃ r, m.anyhit start direction near far = some r :=
  ⟨_, NavMesh.anyhit_eq_any m h start direction near far⟩

theorem GLapp.candidate_isSome (lib : Trig) (app : GLapp) (dTime : FVal)
    (h : app.navmesh.lockstep) : ∃ p, GLapp.candidate lib app dTime = some p := by
  unfold GLapp.candidate
  split
  · obtain ⟨r, hr⟩ := NavMesh.anyhit_isSome app.navmesh h app.position
      (Vec3.normalize lib.rsqrt (GLapp.motion lib app dTime)) (FVal.fin 0) (FVal.fin 250)
    rw [hr]
    exact ⟨_, rfl⟩
  · exact ⟨_, rfl⟩

/-- With the three arrays of the navigation mesh in step, `sceneUpdate` runs to its end. -/
theorem GLapp.sceneUpdate_isSome (lib : Trig) (app : GLapp) (dTime : FVal)
    (h : app.navmesh.lockstep) : ∃ app2, GLapp.sceneUpdate lib app dTime = some app2 := by
  obtain ⟨p, hp⟩ := GLapp.candidate_isSome lib app dTime h
  obtain ⟨r, hr⟩ := NavMesh.trace_isSome app.navmesh h p ⟨FVal.fin 0, FVal.fin 0, FVal.fin (-1)⟩
    (FVal.fin 0) (FVal.fin 750)
  unfold GLapp.sceneUpdate
  rw [hp]
  simp only [hr]
  split
  · exact ⟨_, rfl⟩
  · exact ⟨_, rfl⟩

/-- C12: whenever the trace straight down from the candidate position over `[0, 750]`
returns a floor distance `h` with `250 < h < 750`, `sceneUpdate` sets the position to
`(candidate.x, candidate.y, candidate.z - h + 500)`; with finite values the new height is
the height of the floor hit point plus `500`. -/
theorem sceneUpdate_floor_snap (lib : Trig) (app : GLapp) (dTime : FVal) (nextpos : Vec3)
    (h : FVal) (hc : GLapp.candidate lib app dTime = some nextpos)
    (ht : app.navmesh.trace nextpos ⟨FVal.fin 0, FVal.fin 0, FVal.fin (-1)⟩ (FVal.fin 0)
      (FVal.fin 750) = some h)
    (hlo : h.gt (FVal.fin 250) = true) (hhi : h.lt (FVal.fin 750) = true) :
    GLapp.sceneUpdate lib app dTime =
      some { app with position := ⟨nextpos.x, nextpos.y, (nextpos.z.sub h).add (FVal.fin 500)⟩ } ∧
    (∀ (z d : ℚ), nextpos.z = FVal.fin z → h = FVal.fin d →
      (nextpos.z.sub h).add (FVal.fin 500) = FVal.fin ((z - d) + 500)) := by
  constructor
  · unfold GLapp.sceneUpdate
    rw [hc]
    simp only [ht, hlo, hhi, Bool.and_self, if_true]
  · intro z d hz hd
    rw [hz, hd]
    simp

/-- Witness for C12: a floor at `z = 0` and an agent at rest at `z = 600`; the trace returns
`600` and the new height is `500`. -/
theorem sceneUpdate_floor_snap_witness :
    GLapp.candidate sampleTrig restingApp (FVal.fin (1/60)) =
      some (QVec3.toVec3 ⟨1/4, 1/4, 600⟩) ∧
    restingApp.navmesh.trace (QVec3.toVec3 ⟨1/4, 1/4, 600⟩)
      ⟨FVal.fin 0, FVal.fin 0, FVal.fin (-1)⟩ (FVal.fin 0) (FVal.fin 750) =
        some (FVal.fin 600) ∧
    GLapp.sceneUpdate sampleTrig restingApp (FVal.fin (1/60)) =
      some { restingApp with position := QVec3.toVec3 ⟨1/4, 1/4, 500⟩ } := by
  have h := (sceneUpdate_floor_snap sampleTrig restingApp (FVal.fin (1/60))
    (QVec3.toVec3 ⟨1/4, 1/4, 600⟩) (FVal.fin 600) (by decide!) (by decide!) (by decide!)
    (by decide!)).1
  refine ⟨by decide!, by decide!, ?_⟩
  rw [h]
  decide!

/-- C14: when a rate is nonzero and `anyhit` from the current position along the normalized
motion over `[0, 250]` returns true, the candidate position is the current position, every
result of `sceneUpdate` has the same `x` and `y` (and navigation mesh, angle and rates), and
`sceneUpdate` does return when the arrays of the mesh are in step. -/
theorem sceneUpdate_blocked (lib : Trig) (app : GLapp) (dTime : FVal)
    (hrate : (app.moveRate.ne (FVal.fin 0) || app.strafeRate.ne (FVal.fin 0)) = true)
    (hhit : app.navmesh.anyhit app.position
      (Vec3.normalize lib.rsqrt (GLapp.motion lib app dTime)) (FVal.fin 0) (FVal.fin 250) =
        some true) :
    GLapp.candidate lib app dTime = some app.position ∧
    (∀ app2, GLapp.sceneUpdate lib app dTime = some app2 →
      app2.position.x = app.position.x ∧ app2.position.y = app.position.y ∧
      app2.navmesh = app.navmesh ∧ app2.pan = app.pan ∧ app2.moveRate = app.moveRate ∧
      app2.strafeRate = app.strafeRate) ∧
    (app.navmesh.lockstep → ∃ app2, GLapp.sceneUpdate lib app dTime = some app2) := by
  have hc : GLapp.candidate lib app dTime = some app.position := by
    unfold GLapp.candidate
    rw [if_pos hrate, hhit]
    rfl
  refine ⟨hc, ?_, GLapp.sceneUpdate_isSome lib app dTime⟩
  intro app2 h2
  unfold GLapp.sceneUpdate at h2
  rw [hc] at h2
  simp only at h2
  split at h2
  · cases h2
  · split at h2
    · cases h2
      exact ⟨rfl, rfl, rfl, rfl, rfl, rfl⟩
    · cases h2
      exact ⟨rfl, rfl, rfl, rfl, rfl, rfl⟩

/-- Witness for C14: an agent strafing into the wall `x = 10` from `(5, 1/4, 0)`. -/
theorem sceneUpdate_blocked_witness :
    (blockedApp.moveRate.ne (FVal.fin 0) || blockedApp.strafeRate.ne (FVal.fin 0)) = true ∧
    blockedApp.navmesh.anyhit blockedApp.position
      (Vec3.normalize sampleTrig.rsqrt (GLapp.motion sampleTrig blockedApp (FVal.fin 1)))
      (FVal.fin 0) (FVal.fin 250) = some true ∧
    GLapp.motion sampleTrig blockedApp (FVal.fin 1) = QVec3.toVec3 ⟨1, 0, 0⟩ ∧
    GLapp.candidate sampleTrig blockedApp (FVal.fin 1) = some blockedApp.position ∧
    GLapp.sceneUpdate sampleTrig blockedApp (FVal.fin 1) = some blockedApp :=
  ⟨by decide!, by decide!, by decide!,
    (sceneUpdate_blocked sampleTrig blockedApp (FVal.fin 1) (by decide!) (by decide!)).1,
    by decide!⟩

/-- C13, counterexample: with an empty navigation mesh nothing is hit along the motion
`(0, 100, 0)`, but the trace straight down returns `far = 750`, which is not below `750`, so
the position is not assigned: the agent stays at `(0, 0, 500)`. -/
theorem sceneUpdate_full_displacement_counterexample :
    (movingApp.moveRate.ne (FVal.fin 0) || movingApp.strafeRate.ne (FVal.fin 0)) = true ∧
    movingApp.navmesh.anyhit movingApp.position
      (Vec3.normalize sampleTrig.rsqrt (GLapp.motion sampleTrig movingApp (FVal.fin (1/10))))
      (FVal.fin 0) (FVal.fin 250) = some false ∧
    GLapp.motion sampleTrig movingApp (FVal.fin (1/10)) = QVec3.toVec3 ⟨0, 100, 0⟩ ∧
    GLapp.sceneUpdate sampleTrig movingApp (FVal.fin (1/10)) = some movingApp ∧
    movingApp.position.y ≠
      (movingApp.position.add (GLapp.motion sampleTrig movingApp (FVal.fin (1/10)))).y := by
  refine ⟨by decide!, by decide!, by decide!, by decide!, by decide!⟩

/-- C13, amended: when a rate is nonzero and `anyhit` along the normalized motion over
`[0, 250]` returns false, the candidate position is the position plus the motion; if the
trace straight down from it returns a floor distance `h` with `250 < h < 750` the new
position is the candidate with height `z - h + 500`, so its `x` and `y` are the old ones plus
`(forward*moveRate + right*strafeRate)*dt`; otherwise the position is unchanged. -/
theorem sceneUpdate_full_displacement_on_floor (lib : Trig) (app : GLapp) (dTime h : FVal)
    (hrate : (app.moveRate.ne (FVal.fin 0) || app.strafeRate.ne (FVal.fin 0)) = true)
    (hclear : app.navmesh.anyhit app.position
      (Vec3.normalize lib.rsqrt (GLapp.motion lib app dTime)) (FVal.fin 0) (FVal.fin 250) =
        some false)
    (ht : app.navmesh.trace (app.position.add (GLapp.motion lib app dTime))
      ⟨FVal.fin 0, FVal.fin 0, FVal.fin (-1)⟩ (FVal.fin 0) (FVal.fin 750) = some h) :
    GLapp.candidate lib app dTime = some (app.position.add (GLapp.motion lib app dTime)) ∧
    (h.gt (FVal.fin 250) = true → h.lt (FVal.fin 750) = true →
      GLapp.sceneUpdate lib app dTime = some { app with position :=
        ⟨(app.position.add (GLapp.motion lib app dTime)).x,
         (app.position.add (GLapp.motion lib app dTime)).y,
         ((app.position.add (GLapp.motion lib app dTime)).z.sub h).add (FVal.fin 500)⟩ }) ∧
    ((h.gt (FVal.fin 250) && h.lt (FVal.fin 750)) = false →
      GLapp.sceneUpdate lib app dTime = some app) ∧
    (∀ (p : QVec3) (s c mr sr dt : ℚ), app.position = p.toVec3 →
      lib.sin app.pan = FVal.fin s → lib.cos app.pan = FVal.fin c →
      app.moveRate = FVal.fin mr → app.strafeRate = FVal.fin sr → dTime = FVal.fin dt →
      (app.position.add (GLapp.motion lib app dTime)).x =
        FVal.fin (p.x + (s * mr + c * sr) * dt) ∧
      (app.position.add (GLapp.motion lib app dTime)).y =
        FVal.fin (p.y + (c * mr + (-s) * sr) * dt)) := by
  have hc : GLapp.candidate lib app dTime =
      some (app.position.add (GLapp.motion lib app dTime)) := by
    unfold GLapp.candidate
    rw [if_pos hrate, hclear]
    rfl
  refine ⟨hc, ?_, ?_, ?_⟩
  · intro hlo hhi
    unfold GLapp.sceneUpdate
    rw [hc]
    simp only [ht, hlo, hhi, Bool.and_self, if_true]
  · intro hband
    unfold GLapp.sceneUpdate
    rw [hc]
    simp only [ht, hband]
    rfl
  · intro p s c mr sr dt hp hs hcos hmr hsr hdt
    simp only [GLapp.motion, hp, hs, hcos, hmr, hsr, hdt, Vec3.add, Vec3.smul, QVec3.toVec3,
      FVal.mul_fin, FVal.add_fin, FVal.neg_fin, FVal.fin.injEq]
    constructor <;> ring

/-- Witness for C13 (amended): an agent above the floor triangle walks `1/8` forward and is
set `500` above the floor. -/
theorem sceneUpdate_full_displacement_on_floor_witness :
    (walkingApp.moveRate.ne (FVal.fin 0) || walkingApp.strafeRate.ne (FVal.fin 0)) = true ∧
    walkingApp.navmesh.anyhit walkingApp.position
      (Vec3.normalize sampleTrig.rsqrt (GLapp.motion sampleTrig walkingApp (FVal.fin (1/8))))
      (FVal.fin 0) (FVal.fin 250) = some false ∧
    walkingApp.navmesh.trace
      (walkingApp.position.add (GLapp.motion sampleTrig walkingApp (FVal.fin (1/8))))
      ⟨FVal.fin 0, FVal.fin 0, FVal.fin (-1)⟩ (FVal.fin 0) (FVal.fin 750) =
        some (FVal.fin 600) ∧
    GLapp.candidate sampleTrig walkingApp (FVal.fin (1/8)) =
      some (walkingApp.position.add (GLapp.motion sampleTrig walkingApp (FVal.fin (1/8)))) ∧
    GLapp.sceneUpdate sampleTrig walkingApp (FVal.fin (1/8)) =
      some { walkingApp with position := QVec3.toVec3 ⟨1/8, 1/4, 500⟩ } :=
  ⟨by decide!, by decide!, by decide!,
    (sceneUpdate_full_displacement_on_floor sampleTrig walkingApp (FVal.fin (1/8))
      (FVal.fin 600) (by decide!) (by decide!) (by decide!)).1,
    by decide!⟩

/-! ## The arrays of the navigation mesh -/

/-- C17: a mesh built from the empty one by `addTriangle` calls has its three arrays of the
same length, one entry per call; a further `addTriangle` appends exactly one entry to each
array in front of which the old entries stand unchanged; and on such a mesh `trace` and
`anyhit`, which only return a value, find `alpha[i]` and `beta[i]` in range. -/
theorem navmesh_arrays_in_step (rsqrt : FVal → FVal) (tris : List (Vec3 × Vec3 × Vec3)) :
    (NavMesh.build rsqrt tris).alpha.length = (NavMesh.build rsqrt tris).plane.length ∧
    (NavMesh.build rsqrt tris).beta.length = (NavMesh.build rsqrt tris).plane.length ∧
    (NavMesh.build rsqrt tris).plane.length = tris.length ∧
    NavMesh.build rsqrt [] = NavMesh.empty ∧
    (∀ t : Vec3 × Vec3 × Vec3, NavMesh.build rsqrt (tris ++ [t]) =
      NavMesh.addTriangle rsqrt (NavMesh.build rsqrt tris) t.1 t.2.1 t.2.2) ∧
    (∀ (m : NavMesh) (v0 v1 v2 : Vec3), ∃ e : Vec4 × Vec4 × Vec4,
      (NavMesh.addTriangle rsqrt m v0 v1 v2).plane = m.plane ++ [e.1] ∧
      (NavMesh.addTriangle rsqrt m v0 v1 v2).alpha = m.alpha ++ [e.2.1] ∧
      (NavMesh.addTriangle rsqrt m v0 v1 v2).beta = m.beta ++ [e.2.2]) ∧
    (∀ (start direction : Vec3) (near far : FVal),
      (∃ r, (NavMesh.build rsqrt tris).trace start direction near far = some r) ∧
      (∃ b, (NavMesh.build rsqrt tris).anyhit start direction near far = some b)) := by
  have hl := (NavMesh.build_records rsqrt tris).1
  refine ⟨hl.1, hl.2, ?_, rfl, ?_, ?_, ?_⟩
  · rw [NavMesh.build, NavMesh.foldl_addTriangle_arrays]
    simp [NavMesh.empty]
  · intro t
    simp [NavMesh.build, List.foldl_append]
  · intro m v0 v1 v2
    exact ⟨NavMesh.triEntry rsqrt v0 v1 v2, rfl, rfl, rfl⟩
  · intro start direction near far
    exact ⟨NavMesh.trace_isSome _ hl start direction near far,
      NavMesh.anyhit_isSome _ hl start direction near far⟩

/-! ## Degenerate triangles and rays in a triangle's plane -/

@[simp] theorem FVal.nan_mul (x : FVal) : FVal.nan.mul x = FVal.nan := by
  cases x <;> rfl

@[simp] theorem FVal.mul_nan (x : FVal) : x.mul FVal.nan = FVal.nan := by
  cases x <;> rfl

@[simp] theorem FVal.nan_add (x : FVal) : FVal.nan.add x = FVal.nan := by
  cases x <;> rfl

@[simp] theorem FVal.add_nan (x : FVal) : x.add FVal.nan = FVal.nan := by
  cases x <;> rfl

@[simp] theorem FVal.nan_sub (x : FVal) : FVal.nan.sub x = FVal.nan := by
  cases x <;> rfl

@[simp] theorem FVal.sub_nan (x : FVal) : x.sub FVal.nan = FVal.nan := by
  cases x <;> rfl

@[simp] theorem FVal.nan_div (x : FVal) : FVal.nan.div x = FVal.nan := by
  cases x <;> rfl

@[simp] theorem FVal.div_nan (x : FVal) : x.div FVal.nan = FVal.nan := by
  cases x <;> rfl

@[simp] theorem FVal.neg_nan : FVal.nan.neg = FVal.nan := rfl

@[simp] theorem FVal.nan_lt (x : FVal) : FVal.nan.lt x = false := by
  cases x <;> rfl

@[simp] theorem FVal.lt_nan (x : FVal) : x.lt FVal.nan = false := by
  cases x <;> rfl

@[simp] theorem FVal.nan_gt (x : FVal) : FVal.nan.gt x = false := by
  cases x <;> rfl

@[simp] theorem FVal.gt_nan (x : FVal) : x.gt FVal.nan = false := by
  cases x <;> rfl

/-- A NaN parameter passes the per-triangle test, whatever the ray and the range. -/
theorem NavMesh.accepts_of_param_nan (pl al be : Vec4) (start direction : Vec3)
    (near far : FVal) (h : NavMesh.param pl start direction = FVal.nan) :
    NavMesh.accepts pl al be start direction near far = true := by
  simp [NavMesh.accepts, h, Vec3.smul, Vec3.add, Vec4.ofVec3, Vec4.dot]

/-- A ray lying in the plane of a finite record has a NaN parameter, so the record passes
the per-triangle test whatever `near` and `far` are. -/
theorem NavMesh.accepts_inPlane (r : QRec) (start direction : QVec3) (near far : FVal)
    (h : r.inPlane start direction) :
    NavMesh.param r.plane.toVec4 start.toVec3 direction.toVec3 = FVal.nan ∧
    NavMesh.accepts r.plane.toVec4 r.alpha.toVec4 r.beta.toVec4 start.toVec3 direction.toVec3
      near far = true := by
  have hp : NavMesh.param r.plane.toVec4 start.toVec3 direction.toVec3 = FVal.nan := by
    have hn : -QVec4.dot r.plane (QVec4.ofVec3 start 1) = 0 := h.1
    have hd : QVec4.dot r.plane (QVec4.ofVec3 direction 0) = 0 := h.2
    simp only [NavMesh.param, Vec4.ofVec3_toVec3, Vec4.dot_toVec4, FVal.neg_fin, hn, hd]
    simp [FVal.div_fin, FVal.infOfSign]
  exact ⟨hp, NavMesh.accepts_of_param_nan _ _ _ _ _ _ _ hp⟩

/-- A ray parallel to the plane of a finite record and not lying in it has an infinite
parameter, which the range test rejects for finite `near` and `far`. -/
theorem NavMesh.rejects_parallel (r : QRec) (start direction : QVec3) (near far : ℚ)
    (hd : r.den direction = 0) (hn : r.num start ≠ 0) :
    NavMesh.accepts r.plane.toVec4 r.alpha.toVec4 r.beta.toVec4 start.toVec3 direction.toVec3
      (FVal.fin near) (FVal.fin far) = false := by
  rw [NavMesh.accepts_finite r start direction near far (fun h => hn h.1)]
  simp [hd]

/-- A zero-area triangle with finite corners gets three all-NaN entries when `inversesqrt`
returns infinity at `0`, and such a record passes the per-triangle test for every ray. -/
theorem NavMesh.triEntry_degenerate (rsqrt : FVal → FVal) (hr : rsqrt (FVal.fin 0) = FVal.pinf)
    (v0 v1 v2 : QVec3) (hdeg : ¬ nonDegenerate v0 v1 v2) :
    NavMesh.triEntry rsqrt v0.toVec3 v1.toVec3 v2.toVec3 = (Vec4.nan, Vec4.nan, Vec4.nan) ∧
    ∀ (start direction : Vec3) (near far : FVal),
      NavMesh.accepts Vec4.nan Vec4.nan Vec4.nan start direction near far = true := by
  have hc : triNormal v0 v1 v2 = ⟨0, 0, 0⟩ := by
    unfold nonDegenerate at hdeg
    exact not_not.mp hdeg
  constructor
  · simp only [NavMesh.triEntry, Vec3.normalize, Vec3.sub_toVec3, Vec3.cross_toVec3,
      Vec3.dot_toVec3, edge_cross_eq_triNormal, hc]
    have h0 : QVec3.dot (⟨0, 0, 0⟩ : QVec3) ⟨0, 0, 0⟩ = 0 := by simp [QVec3.dot]
    rw [h0, hr]
    simp [Vec3.muls, QVec3.toVec3, FVal.mul, FVal.infOfSign, Vec3.cross, Vec3.divs, Vec3.dot,
      Vec4.ofVec3, Vec4.nan]
  · intro start direction near far
    apply NavMesh.accepts_of_param_nan
    simp [NavMesh.param, Vec4.nan, Vec4.dot]

/-- C18, the defect evaluated: queries do return, and a ray parallel to a plane but outside
it is rejected; but the floor triangle is reported hit by the ray from `(5, 1/4, 0)` along
`(1, 0, 0)`, which lies in its plane and passes it by, and with the zero-area triangle
`(0,0,0)`, `(1,0,0)`, `(2,0,0)` in the mesh a ray straight down from `(7, 7, 600)` is
reported hit and `trace` returns NaN. -/
theorem degenerate_inputs_accepted :
    NavMesh.anyhit (NavMesh.build sampleRsqrt [floorTri]) (QVec3.toVec3 ⟨5, 1/4, 1⟩)
        (QVec3.toVec3 ⟨1, 0, 0⟩) (FVal.fin 0) (FVal.fin 250) = some false ∧
    NavMesh.anyhit (NavMesh.build sampleRsqrt []) (QVec3.toVec3 ⟨5, 1/4, 0⟩)
        (QVec3.toVec3 ⟨1, 0, 0⟩) (FVal.fin 0) (FVal.fin 250) = some false ∧
    NavMesh.anyhit (NavMesh.build sampleRsqrt [floorTri]) (QVec3.toVec3 ⟨5, 1/4, 0⟩)
        (QVec3.toVec3 ⟨1, 0, 0⟩) (FVal.fin 0) (FVal.fin 250) = some true ∧
    NavMesh.trace (NavMesh.build sampleRsqrt [floorTri]) (QVec3.toVec3 ⟨5, 1/4, 0⟩)
        (QVec3.toVec3 ⟨1, 0, 0⟩) (FVal.fin 0) (FVal.fin 250) = some FVal.nan ∧
    NavMesh.triEntry sampleRsqrt flatTri.1 flatTri.2.1 flatTri.2.2 =
      (Vec4.nan, Vec4.nan, Vec4.nan) ∧
    NavMesh.anyhit (NavMesh.build sampleRsqrt [flatTri]) (QVec3.toVec3 ⟨7, 7, 600⟩)
        (QVec3.toVec3 ⟨0, 0, -1⟩) (FVal.fin 0) (FVal.fin 750) = some true ∧
    NavMesh.trace (NavMesh.build sampleRsqrt [flatTri]) (QVec3.toVec3 ⟨7, 7, 600⟩)
        (QVec3.toVec3 ⟨0, 0, -1⟩) (FVal.fin 0) (FVal.fin 750) = some FVal.nan ∧
    NavMesh.trace (NavMesh.build sampleRsqrt []) (QVec3.toVec3 ⟨7, 7, 600⟩)
        (QVec3.toVec3 ⟨0, 0, -1⟩) (FVal.fin 0) (FVal.fin 750) = some (FVal.fin 750) := by
  refine ⟨by decide!, by decide!, by decide!, by decide!, by decide!, by decide!, by decide!,
    by decide!⟩

/-! ## ObjLoad: which lines are ignored -/

theorem classify_samples :
    classify sampleScanFloat "v -1 0.5 2" = Line.v (FVal.fin (-1)) (FVal.fin (1/2)) (FVal.fin 2) ∧
    classify sampleScanFloat "vt 0.25 1" = Line.vt (FVal.fin (1/4)) (FVal.fin 1) ∧
    classify sampleScanFloat "vn 0 0 1" = Line.vn (FVal.fin 0) (FVal.fin 0) (FVal.fin 1) ∧
    classify sampleScanFloat "  f 1/2/3  4//5 6 " = Line.f ["1/2/3", "4//5", "6"] ∧
    classify sampleScanFloat "usemtl stone" = Line.usemtl "stone" ∧
    classify sampleScanFloat "mtllib castle.mtl" = Line.mtllib "castle.mtl" ∧
    classify sampleScanFloat "# a comment" = Line.other ∧
    classify sampleScanFloat "g group1" = Line.other ∧
    classify sampleScanFloat "vp 1 2 3" = Line.other ∧
    classify sampleScanFloat "usemtl" = Line.other ∧
    classify sampleScanFloat "" = Line.other := by
  refine ⟨by decide!, by decide!, by decide!, by decide!, by decide!, by decide!, by decide!,
    by decide!, by decide!, by decide!, by decide!⟩

theorem matchLit_cons_ne (k c : Char) (ks cs : List Char) (h : k ≠ c) :
    matchLit (k :: ks) (c :: cs) = none := by
  simp [matchLit, h]

/-- A line whose first character after the leading white space is none of `m`, `u`, `v`,
`f`, or which is blank, takes no branch of the chain, and processing it changes nothing. -/
theorem classify_other (scanFloat : List Char → Option (FVal × List Char)) (line : String)
    (h : skipSpace line.toList = [] ∨ ∃ c rest, skipSpace line.toList = c :: rest ∧
      c ≠ 'm' ∧ c ≠ 'u' ∧ c ≠ 'v' ∧ c ≠ 'f') (env : Env) (st : LoadState) :
    classify scanFloat line = Line.other ∧
    processLine env st (classify scanFloat line) = Except.ok st := by
  have hc : classify scanFloat line = Line.other := by
    rcases h with h | ⟨c, rest, h, hm, hu, hv, hf⟩
    · simp only [classify, scanKeyword, h]
      rfl
    · have e1 : matchLit "mtllib".toList (c :: rest) = none :=
        matchLit_cons_ne _ _ _ _ (fun e => hm e.symm)
      have e2 : matchLit "usemtl".toList (c :: rest) = none :=
        matchLit_cons_ne _ _ _ _ (fun e => hu e.symm)
      have e3 : matchLit "v".toList (c :: rest) = none :=
        matchLit_cons_ne _ _ _ _ (fun e => hv e.symm)
      have e4 : matchLit "vt".toList (c :: rest) = none :=
        matchLit_cons_ne _ _ _ _ (fun e => hv e.symm)
      have e5 : matchLit "vn".toList (c :: rest) = none :=
        matchLit_cons_ne _ _ _ _ (fun e => hv e.symm)
      have e6 : matchLit "f".toList (c :: rest) = none :=
        matchLit_cons_ne _ _ _ _ (fun e => hf e.symm)
      simp only [classify, scanKeyword, h, e1, e2, e3, e4, e5, e6]
  exact ⟨hc, by rw [hc]; rfl⟩

/-- The line `foo` takes the face branch for every `%f` conversion: the format `" f%n"`
matches its first letter. -/
theorem classify_foo (scanFloat : List Char → Option (FVal × List Char)) :
    classify scanFloat "foo" = Line.f ["oo"] := by
  rfl

/-- C15, the defect evaluated: the first words of the lines `foo`, `v1 2 3` and `usemtlx y`
are none of the six directive words, yet `foo` takes the face branch and the load aborts on
its token `oo`, `v1 2 3` is read as the position `(1, 2, 3)` and changes the pool and the box,
and `usemtlx y` is read as `usemtl x`. -/
theorem unsupported_line_not_ignored :
    firstWord "foo" = "foo" ∧
    classify sampleScanFloat "foo" = Line.f ["oo"] ∧
    processLine sampleEnv quadState (classify sampleScanFloat "foo") =
      Except.error ObjError.abort ∧
    firstWord "v1 2 3" = "v1" ∧
    classify sampleScanFloat "v1 2 3" = Line.v (FVal.fin 1) (FVal.fin 2) (FVal.fin 3) ∧
    processLine sampleEnv quadState (classify sampleScanFloat "v1 2 3") =
      Except.ok { quadState with
        v := quadState.v ++ [QVec3.toVec3 ⟨1, 2, 3⟩]
        BoxMax := QVec3.toVec3 ⟨1, 2, 3⟩ } ∧
    firstWord "usemtlx y" = "usemtlx" ∧
    classify sampleScanFloat "usemtlx y" = Line.usemtl "x" := by
  refine ⟨by decide, by decide!, by decide!, by decide, by decide!, by decide!, by decide,
    by decide!⟩

/-! ## ObjLoad: references outside the pools -/

/-- A first-seen token whose position index is `0` or beyond the pool is read without a
check: the outcome is the unchecked read, not an abort. -/
theorem newVertex_out_of_range (v : List Vec3) (vt : List Vec2) (vn : List Vec3)
    (s : FaceLoop) (tuple : String) (g1 g2 g3 : List Char) (k : Int)
    (hre : reFarg tuple = some (g1, g2, g3)) (hk : stoi g1 = Except.ok k)
    (hout : k < 1 ∨ (v.length : Int) < k) :
    newVertex v vt vn s tuple = Except.error ObjError.undefined := by
  have hread : readAt v (k - 1) = Except.error ObjError.undefined := by
    unfold readAt
    by_cases hneg : k - 1 < 0
    · simp [hneg]
    · have hlen : v.length ≤ (k - 1).toNat := by omega
      simp only [hneg, if_false, List.getElem?_eq_none hlen]
  unfold newVertex
  simp only [hre, Option.getD_some, hk, hread, bind, Except.bind]

/-- A first-seen token that does not match the reference pattern makes `stoi` throw: the
load aborts. -/
theorem newVertex_malformed (v : List Vec3) (vt : List Vec2) (vn : List Vec3)
    (s : FaceLoop) (tuple : String) (hre : reFarg tuple = none) :
    newVertex v vt vn s tuple = Except.error ObjError.abort := by
  unfold newVertex
  simp only [hre, Option.getD_none, stoi, if_true, bind, Except.bind]

/-- C16, the defect evaluated: after one position line, the face lines `f 1 2 3`, `f 0 1 1`,
`f 1/1 1 1` and `f 1//1 1 1` each read outside a pool without any check (undefined
behaviour, no abort is raised); a malformed token aborts; the face line `f 1 1 1`, all in
range, is processed. -/
theorem out_of_range_reference_unchecked :
    processLines sampleEnv (initialState [] none)
      [Line.v (FVal.fin 0) (FVal.fin 0) (FVal.fin 0), Line.f ["1", "2", "3"]] =
        Except.error ObjError.undefined ∧
    processLines sampleEnv (initialState [] none)
      [Line.v (FVal.fin 0) (FVal.fin 0) (FVal.fin 0), Line.f ["0", "1", "1"]] =
        Except.error ObjError.undefined ∧
    processLines sampleEnv (initialState [] none)
      [Line.v (FVal.fin 0) (FVal.fin 0) (FVal.fin 0), Line.f ["1/1", "1", "1"]] =
        Except.error ObjError.undefined ∧
    processLines sampleEnv (initialState [] none)
      [Line.v (FVal.fin 0) (FVal.fin 0) (FVal.fin 0), Line.f ["1//1", "1", "1"]] =
        Except.error ObjError.undefined ∧
    processLines sampleEnv (initialState [] none)
      [Line.v (FVal.fin 0) (FVal.fin 0) (FVal.fin 0), Line.f ["x", "1", "1"]] =
        Except.error ObjError.abort ∧
    (∃ st, processLines sampleEnv (initialState [] none)
      [Line.v (FVal.fin 0) (FVal.fin 0) (FVal.fin 0), Line.f ["1", "1", "1"]] =
        Except.ok st) := by
  refine ⟨by decide!, by decide!, by decide!, by decide!, by decide!, ?_⟩
  exact processLines_total sampleEnv_ok _ _ ⟨rfl, rfl⟩ (by decide)


/-! ## ObjLoad: the triangles handed to the navigation mesh -/

theorem readAt_ofNat_iff {α : Type} (arr : List α) (n : Nat) (a : α) :
    readAt arr (Int.ofNat n) = Except.ok a ↔ arr[n]? = some a := by
  unfold readAt
  have h0 : ¬ (Int.ofNat n < 0) := by simp
  have h1 : (Int.ofNat n).toNat = n := rfl
  simp only [h0, if_false, h1]
  cases hb : arr[n]? with
  | none => simp
  | some b => simp

theorem readAt_append {α : Type} {arr : List α} {k : Int} {a : α} (ext : List α)
    (h : readAt arr k = Except.ok a) : readAt (arr ++ ext) k = Except.ok a := by
  unfold readAt at h ⊢
  by_cases hk : k < 0
  · simp [hk] at h
  · simp only [hk, if_false] at h ⊢
    cases hg : arr[k.toNat]? with
    | none => simp [hg] at h
    | some b =>
      simp only [hg] at h
      have hlt : k.toNat < arr.length := by
        by_contra hcon
        rw [List.getElem?_eq_none (by omega)] at hg
        cases hg
      rw [List.getElem?_append_left hlt, hg]
      exact h

theorem tokenPosition_append {v : List Vec3} {tok : String} {p : Vec3} (ext : List Vec3)
    (h : tokenPosition v tok = some p) : tokenPosition (v ++ ext) tok = some p := by
  unfold tokenPosition at h ⊢
  cases hk : stoi ((reFarg tok).getD ([], [], [])).1 with
  | error e => simp [hk] at h
  | ok k1 =>
    simp only [hk] at h ⊢
    cases hr : readAt v (k1 - 1) with
    | error e => simp [hr] at h
    | ok q =>
      simp only [hr] at h
      simp only [readAt_append ext hr]
      exact h

theorem newVertex_position {v : List Vec3} {vt : List Vec2} {vn : List Vec3} {s s1 : FaceLoop}
    {tuple : String} (h : newVertex v vt vn s tuple = Except.ok s1) :
    ∃ p, s1.obj.vert = s.obj.vert ++ [p] ∧ tokenPosition v tuple = some p := by
  unfold newVertex at h
  simp only [bind_eq_ok_iff, pure, Except.pure] at h
  obtain ⟨k1, hk1, p, hp, o1, ho1, o2, ho2, hs⟩ := h
  have h1 : o1.vert = s.obj.vert ++ [p] := by
    split at ho1
    · simp only [bind_eq_ok_iff] at ho1
      obtain ⟨k2, _, t, _, ho1⟩ := ho1
      cases ho1
      rfl
    · cases ho1
      rfl
  have h2 : o2.vert = o1.vert := by
    split at ho2
    · simp only [bind_eq_ok_iff] at ho2
      obtain ⟨k3, _, n, _, ho2⟩ := ho2
      cases ho2
      rfl
    · cases ho2
      rfl
  cases hs
  refine ⟨p, by rw [h2, h1], ?_⟩
  unfold tokenPosition
  simp only [hk1, hp]

theorem emitTriangle_nav {env : Env} {s s1 : FaceLoop} (h : emitTriangle env s = Except.ok s1) :
    (s.navmesh = none → s1.navmesh = none) ∧
    (∀ nav, s.navmesh = some nav → ∃ p0 p1 p2,
      s.obj.vert[s.vertexTuple.1]? = some p0 ∧ s.obj.vert[s.vertexTuple.2.1]? = some p1 ∧
      s.obj.vert[s.vertexTuple.2.2]? = some p2 ∧
      s1.navmesh = some (NavMesh.addTriangle env.rsqrt nav p0 p1 p2)) := by
  unfold emitTriangle at h
  cases hn : s.navmesh with
  | none =>
    simp only [hn, pure, Except.pure] at h
    cases h
    exact ⟨fun _ => rfl, fun nav hnav => by cases hnav⟩
  | some nav =>
    simp only [hn, bind_eq_ok_iff, pure, Except.pure, readAt_ofNat_iff] at h
    obtain ⟨p0, h0, p1, h1, p2, h2, h⟩ := h
    cases h
    refine ⟨fun hcon => Option.noConfusion hcon, ?_⟩
    intro nav2 hnav
    cases hnav
    exact ⟨p0, p1, p2, h0, h1, h2, rfl⟩

/-- The two halves of the body of the token loop. -/
theorem tokenStep_split {env : Env} {v : List Vec3} {vt : List Vec2} {vn : List Vec3}
    {s s1 : FaceLoop} {i : Nat} {tuple : String}
    (h : tokenStep env v vt vn s i tuple = Except.ok s1) :
    ∃ sa, (((s.vertexMap.lookup tuple).isNone = true ∧ newVertex v vt vn s tuple = Except.ok sa) ∨
        ((s.vertexMap.lookup tuple).isNone = false ∧ sa = s)) ∧
      (advanceFan sa i tuple).vertexMap = sa.vertexMap ∧
      (advanceFan sa i tuple).obj = sa.obj ∧
      (advanceFan sa i tuple).navmesh = sa.navmesh ∧
      ((1 < i ∧ emitTriangle env (advanceFan sa i tuple) = Except.ok s1) ∨
        (¬ 1 < i ∧ s1 = advanceFan sa i tuple)) := by
  unfold tokenStep at h
  simp only [bind_eq_ok_iff, pure, Except.pure] at h
  obtain ⟨sa, hsa, h⟩ := h
  refine ⟨sa, ?_, ?_, ?_, ?_, ?_⟩
  · split at hsa
    · next hnone => exact Or.inl ⟨hnone, hsa⟩
    · next hsome =>
      cases hsa
      exact Or.inr ⟨by simpa using hsome, rfl⟩
  · unfold advanceFan; split <;> rfl
  · unfold advanceFan; split <;> rfl
  · unfold advanceFan; split <;> rfl
  · split at h
    · next hi => exact Or.inl ⟨hi, h⟩
    · next hi =>
      cases h
      exact Or.inr ⟨hi, rfl⟩

theorem tokenStep_nav {env : Env} {v : List Vec3} {vt : List Vec2} {vn : List Vec3}
    {s s1 : FaceLoop} {i : Nat} {tuple : String}
    (h : tokenStep env v vt vn s i tuple = Except.ok s1) :
    (∃ ext, s1.obj.vert = s.obj.vert ++ ext) ∧
    (s.navmesh = none → s1.navmesh = none) ∧
    (∀ nav, s.navmesh = some nav →
      (1 < i → ∃ p0 p1 p2,
        s1.obj.vert[s1.vertexTuple.1]? = some p0 ∧ s1.obj.vert[s1.vertexTuple.2.1]? = some p1 ∧
        s1.obj.vert[s1.vertexTuple.2.2]? = some p2 ∧
        s1.navmesh = some (NavMesh.addTriangle env.rsqrt nav p0 p1 p2)) ∧
      (¬ 1 < i → s1.navmesh = some nav)) := by
  obtain ⟨sa, hsa, _, hobj, hnav, hem⟩ := tokenStep_split h
  have hA : (∃ ext, sa.obj.vert = s.obj.vert ++ ext) ∧ sa.navmesh = s.navmesh := by
    rcases hsa with ⟨_, hnew⟩ | ⟨_, hsame⟩
    · obtain ⟨_, _, hn, _, p, hp⟩ := newVertex_ok hnew
      exact ⟨⟨[p], hp⟩, hn⟩
    · subst hsame
      exact ⟨⟨[], by simp⟩, rfl⟩
  obtain ⟨hext, hnavA⟩ := hA
  rcases hem with ⟨hi, hemit⟩ | ⟨hi, hs1⟩
  · obtain ⟨_, e2, e3, _⟩ := emitTriangle_ok hemit
    obtain ⟨hnone, hsome⟩ := emitTriangle_nav hemit
    refine ⟨by rw [e3, hobj]; exact hext, ?_, ?_⟩
    · intro hn
      exact hnone (by rw [hnav, hnavA, hn])
    · intro nav hn
      refine ⟨fun _ => ?_, fun hcon => absurd hi hcon⟩
      obtain ⟨p0, p1, p2, h0, h1, h2, hres⟩ := hsome nav (by rw [hnav, hnavA, hn])
      exact ⟨p0, p1, p2, by rw [e3, e2]; exact h0, by rw [e3, e2]; exact h1,
        by rw [e3, e2]; exact h2, hres⟩
  · subst hs1
    refine ⟨by rw [hobj]; exact hext, ?_, ?_⟩
    · intro hn
      rw [hnav, hnavA, hn]
    · intro nav hn
      refine ⟨fun hcon => absurd hcon hi, fun _ => ?_⟩
      rw [hnav, hnavA, hn]

theorem getD_of_append {vert ext : List Vec3} {k : Nat} {p : Vec3} (h : vert[k]? = some p) :
    (vert ++ ext).getD k Vec3.nan = p := by
  have hlt : k < vert.length := by
    by_contra hcon
    rw [List.getElem?_eq_none (by omega)] at h
    cases h
  rw [List.getD_eq_getElem?_getD, List.getElem?_append_left hlt, h]
  rfl

theorem tokenLoop_nav {env : Env} {v : List Vec3} {vt : List Vec2} {vn : List Vec3} :
    ∀ (rest : List String) (s : FaceLoop) (i : Nat) (sF : FaceLoop),
      tokenLoop env v vt vn s i rest = Except.ok sF →
      (∃ ext, sF.obj.vert = s.obj.vert ++ ext) ∧
      (s.navmesh = none → sF.navmesh = none) ∧
      (∀ nav, s.navmesh = some nav →
        sF.navmesh = some ((fanFrom i s.vertexTuple (rest.map (slotOf sF.vertexMap))).foldl
          (fun m t => NavMesh.addTriangle env.rsqrt m (sF.obj.vert.getD t.1 Vec3.nan)
            (sF.obj.vert.getD t.2.1 Vec3.nan) (sF.obj.vert.getD t.2.2 Vec3.nan)) nav)) := by
  intro rest
  induction rest with
  | nil =>
    intro s i sF h
    simp only [tokenLoop] at h
    cases h
    exact ⟨⟨[], by simp⟩, fun hn => hn, fun nav hn => by simp [fanFrom, hn]⟩
  | cons tok rest ih =>
    intro s i sF h
    simp only [tokenLoop, bind_eq_ok_iff] at h
    obtain ⟨s1, hs1, hloop⟩ := h
    obtain ⟨_, hsome1, hvt1, _⟩ := tokenStep_ok hs1
    obtain ⟨hmono2, _, _⟩ := tokenLoop_ok rest s1 (i + 1) sF hloop
    obtain ⟨⟨ext1, hext1⟩, hnone1, hnav1⟩ := tokenStep_nav hs1
    obtain ⟨⟨ext2, hext2⟩, hnone2, hnav2⟩ := ih s1 (i + 1) sF hloop
    obtain ⟨x, hx⟩ := Option.isSome_iff_exists.mp hsome1
    have hslot : slotOf sF.vertexMap tok = slotOf s1.vertexMap tok := by
      simp [slotOf, hx, hmono2 tok x hx]
    refine ⟨⟨ext1 ++ ext2, by rw [hext2, hext1, List.append_assoc]⟩,
      fun hn => hnone2 (hnone1 hn), ?_⟩
    intro nav hn
    rw [List.map_cons, fanFrom, hslot, ← hvt1, List.foldl_append]
    obtain ⟨hemit, hskip⟩ := hnav1 nav hn
    by_cases hi : 1 < i
    · obtain ⟨p0, p1, p2, h0, h1, h2, hres⟩ := hemit hi
      rw [hnav2 _ hres, if_pos hi]
      simp only [List.foldl_cons, List.foldl_nil]
      rw [hext2, getD_of_append h0, getD_of_append h1, getD_of_append h2]
    · rw [hnav2 _ (hskip hi), if_neg hi]
      simp only [List.foldl_nil]

theorem tokenStep_posInv {env : Env} {v : List Vec3} {vt : List Vec2} {vn : List Vec3}
    {s s1 : FaceLoop} {i : Nat} {tuple : String}
    (h : tokenStep env v vt vn s i tuple = Except.ok s1)
    (hinv : PosInv v s.vertexMap s.obj.vert) : PosInv v s1.vertexMap s1.obj.vert := by
  obtain ⟨sa, hsa, hvm, hobj, _, hem⟩ := tokenStep_split h
  have hA : PosInv v sa.vertexMap sa.obj.vert := by
    rcases hsa with ⟨hnone, hnew⟩ | ⟨_, hsame⟩
    · obtain ⟨hvmA, _, _, _, _⟩ := newVertex_ok hnew
      obtain ⟨p, hp, hpos⟩ := newVertex_position hnew
      intro tok slot hl
      rw [hvmA, List.lookup_append] at hl
      rw [hp]
      cases hold : s.vertexMap.lookup tok with
      | some y =>
        rw [hold] at hl
        simp at hl
        subst hl
        obtain ⟨q, hq, hqpos⟩ := hinv tok y hold
        have hlt : y < s.obj.vert.length := by
          by_contra hcon
          rw [List.getElem?_eq_none (by omega)] at hq
          cases hq
        exact ⟨q, by rw [List.getElem?_append_left hlt]; exact hq, hqpos⟩
      | none =>
        rw [hold] at hl
        simp only [Option.none_or, List.lookup_cons, List.lookup_nil] at hl
        by_cases hk : tok = tuple
        · subst hk
          simp only [beq_self_eq_true] at hl
          cases hl
          exact ⟨p, by simp, hpos⟩
        · have hbeq : (tok == tuple) = false := by simpa using hk
          simp [hbeq] at hl
    · subst hsame
      exact hinv
  rcases hem with ⟨_, hemit⟩ | ⟨_, hs1⟩
  · obtain ⟨e1, _, e3, _⟩ := emitTriangle_ok hemit
    rw [e1, e3, hvm, hobj]
    exact hA
  · subst hs1
    rw [hvm, hobj]
    exact hA

theorem tokenLoop_posInv {env : Env} {v : List Vec3} {vt : List Vec2} {vn : List Vec3} :
    ∀ (rest : List String) (s : FaceLoop) (i : Nat) (sF : FaceLoop),
      tokenLoop env v vt vn s i rest = Except.ok sF →
      PosInv v s.vertexMap s.obj.vert → PosInv v sF.vertexMap sF.obj.vert := by
  intro rest
  induction rest with
  | nil =>
    intro s i sF h hinv
    simp only [tokenLoop] at h
    cases h
    exact hinv
  | cons tok rest ih =>
    intro s i sF h hinv
    simp only [tokenLoop, bind_eq_ok_iff] at h
    obtain ⟨s1, hs1, hloop⟩ := h
    exact ih s1 (i + 1) sF hloop (tokenStep_posInv hs1 hinv)

theorem fanTriangles_map_tokens (f : String → Nat) (tokens : List String) :
    fanTriangles (tokens.map f) = (List.range (tokens.length - 2)).map (fun j =>
      (f (tokens.getD 0 ""), f (tokens.getD (j + 1) ""), f (tokens.getD (j + 2) ""))) := by
  simp only [fanTriangles, List.length_map]
  apply List.map_congr_left
  intro j hj
  have hj2 : j < tokens.length - 2 := List.mem_range.mp hj
  simp only [List.getD_eq_getElem?_getD, List.getElem?_map]
  have h0 : 0 < tokens.length := by omega
  have h1 : j + 1 < tokens.length := by omega
  have h2 : j + 2 < tokens.length := by omega
  simp [List.getElem?_eq_getElem, h0, h1, h2]

theorem getD_mem_of_lt {tokens : List String} {k : Nat} (h : k < tokens.length) :
    tokens.getD k "" ∈ tokens := by
  rw [List.getD_eq_getElem?_getD, List.getElem?_eq_getElem h]
  exact List.getElem_mem h

/-- A face line hands the navigation mesh the triangles of its fan, as source positions. -/
theorem processLine_nav {env : Env} {st st2 : LoadState} {tokens : List String}
    (h : processLine env st (Line.f tokens) = Except.ok st2)
    (hinv : PosInv st.v st.vertexMap (vertsOf st.newobj)) :
    PosInv st2.v st2.vertexMap (vertsOf st2.newobj) ∧ st2.v = st.v ∧
    tokens.all (fun t => (tokenPosition st.v t).isSome) = true ∧
    st2.navmesh = st.navmesh.map (fun nav => (faceTriangles st.v tokens).foldl
      (fun m t => NavMesh.addTriangle env.rsqrt m t.1 t.2.1 t.2.2) nav) := by
  simp only [processLine, bind_eq_ok_iff, pure, Except.pure] at h
  obtain ⟨obj, hobj, s, hloop, hst⟩ := h
  have hv : vertsOf st.newobj = obj.vert := by
    cases hn : st.newobj with
    | some o => rw [hn] at hobj; cases hobj; rfl
    | none =>
      rw [hn] at hobj
      simp only at hobj
      split at hobj
      · cases hobj; rfl
      · cases hobj
  rw [hv] at hinv
  have hinvS : PosInv st.v s.vertexMap s.obj.vert := tokenLoop_posInv tokens _ 0 s hloop hinv
  obtain ⟨_, hsome, _⟩ := tokenLoop_ok tokens _ 0 s hloop
  obtain ⟨_, hnone, hnav⟩ := tokenLoop_nav tokens _ 0 s hloop
  have hcorner : ∀ t ∈ tokens, (tokenPosition st.v t).isSome = true ∧
      s.obj.vert.getD (slotOf s.vertexMap t) Vec3.nan = cornerOf st.v t := by
    intro t ht
    obtain ⟨x, hx⟩ := Option.isSome_iff_exists.mp (hsome t ht)
    obtain ⟨p, hp, hpos⟩ := hinvS t x hx
    refine ⟨by rw [hpos]; rfl, ?_⟩
    simp [slotOf, cornerOf, hx, hp, hpos]
  cases hst
  refine ⟨hinvS, rfl, ?_, ?_⟩
  · rw [List.all_eq_true]
    intro t ht
    exact (hcorner t ht).1
  · cases hn : st.navmesh with
    | none => exact hnone hn
    | some nav =>
      show s.navmesh = some _
      rw [hnav nav hn, fanFrom_zero, fanTriangles_map_tokens, List.foldl_map]
      simp only [Option.map_some', faceTriangles, List.foldl_map]
      congr 1
      apply List.foldl_ext
      intro m j hj
      have hj2 : j < tokens.length - 2 := List.mem_range.mp hj
      rw [(hcorner _ (getD_mem_of_lt (show 0 < tokens.length by omega))).2,
        (hcorner _ (getD_mem_of_lt (show j + 1 < tokens.length by omega))).2,
        (hcorner _ (getD_mem_of_lt (show j + 2 < tokens.length by omega))).2]

/-- The lines of a mesh description hand the navigation mesh the triangles of the face
lines, in order, and every face token names a position parsed before its line. -/
theorem processLines_nav {env : Env} :
    ∀ (ls : List Line) (st st2 : LoadState), processLines env st ls = Except.ok st2 →
      PosInv st.v st.vertexMap (vertsOf st.newobj) →
      tokensResolve st.v ls = true ∧
      st2.navmesh = st.navmesh.map (fun nav => (navTriangles st.v ls).foldl
        (fun m t => NavMesh.addTriangle env.rsqrt m t.1 t.2.1 t.2.2) nav) := by
  intro ls
  induction ls with
  | nil =>
    intro st st2 h _
    simp only [processLines] at h
    cases h
    refine ⟨rfl, ?_⟩
    cases st.navmesh <;> rfl
  | cons l ls ih =>
    intro st st2 h hinv
    simp only [processLines, bind_eq_ok_iff] at h
    obtain ⟨st1, h1, h2⟩ := h
    cases l with
    | f tokens =>
      obtain ⟨hinv1, hv1, hall, hnav1⟩ := processLine_nav h1 hinv
      obtain ⟨hres, hnav2⟩ := ih st1 st2 h2 hinv1
      rw [hv1] at hres hnav2
      refine ⟨by simp only [tokensResolve, hall, hres, Bool.and_self], ?_⟩
      rw [hnav2, hnav1]
      simp only [navTriangles, List.foldl_append]
      cases st.navmesh <;> rfl
    | v x y z =>
      simp only [processLine] at h1
      cases h1
      have hinv1 : PosInv (st.v ++ [⟨x, y, z⟩]) st.vertexMap (vertsOf st.newobj) := by
        intro tok slot hl
        obtain ⟨p, hp, hpos⟩ := hinv tok slot hl
        exact ⟨p, hp, tokenPosition_append _ hpos⟩
      obtain ⟨hres, hnav2⟩ := ih _ st2 h2 hinv1
      exact ⟨by simp only [tokensResolve]; exact hres, by simp only [navTriangles]; exact hnav2⟩
    | vt x y =>
      simp only [processLine] at h1
      cases h1
      obtain ⟨hres, hnav2⟩ := ih _ st2 h2 hinv
      exact ⟨by simp only [tokensResolve]; exact hres, by simp only [navTriangles]; exact hnav2⟩
    | vn x y z =>
      simp only [processLine] at h1
      cases h1
      obtain ⟨hres, hnav2⟩ := ih _ st2 h2 hinv
      exact ⟨by simp only [tokensResolve]; exact hres, by simp only [navTriangles]; exact hnav2⟩
    | other =>
      simp only [processLine] at h1
      cases h1
      obtain ⟨hres, hnav2⟩ := ih _ st2 h2 hinv
      exact ⟨by simp only [tokensResolve]; exact hres, by simp only [navTriangles]; exact hnav2⟩
    | usemtl name =>
      simp only [processLine] at h1
      cases h1
      have hinv1 : PosInv st.v [] (vertsOf none) := by
        intro tok slot hl
        simp at hl
      obtain ⟨hres, hnav2⟩ := ih _ st2 h2 hinv1
      exact ⟨by simp only [tokensResolve]; exact hres, by simp only [navTriangles]; exact hnav2⟩
    | mtllib file =>
      simp only [processLine] at h1
      split at h1
      · cases h1
      · cases h1
        obtain ⟨hres, hnav2⟩ := ih _ st2 h2 hinv
        exact ⟨by simp only [tokensResolve]; exact hres,
          by simp only [navTriangles]; exact hnav2⟩

theorem navTriangles_length : ∀ (ls : List Line) (v : List Vec3),
    (navTriangles v ls).length = fanCount ls := by
  intro ls
  induction ls with
  | nil => intro v; rfl
  | cons l ls ih =>
    intro v
    cases l <;> simp [navTriangles, fanCount, faceLines, faceTriangles, ih]

/-- C11: when ObjLoad returns, every token of every face line names a position parsed
before its line, and the navigation mesh it was given has received one `addTriangle` call
per triangle of the fan expansion of the face lines, in emission order, each with the three
source positions `v[pos-1]` named by the triangle's tokens `(0, i-1, i)`: the three arrays
have grown by exactly `fanCount lines`, the sum over the face lines of `n - 2` (`0` when
`n < 3`), records.  Without a navigation mesh none is created.  ObjLoad does return when
every referenced file loads and every face token resolves. -/
theorem navmesh_receives_fan_triangles (env : Env) (objects : List Object)
    (navmesh : Option NavMesh) (lines : List Line) :
    (∀ res, ObjLoad env objects navmesh (some lines) = Except.ok res →
      tokensResolve [] lines = true ∧
      res.2.2 = navmesh.map (fun nav => (navTriangles [] lines).foldl
        (fun m t => NavMesh.addTriangle env.rsqrt m t.1 t.2.1 t.2.2) nav) ∧
      (navTriangles [] lines).length = fanCount lines ∧
      (∀ nav, navmesh = some nav → ∃ nav2, res.2.2 = some nav2 ∧
        nav2.plane = nav.plane ++ (navTriangles [] lines).map
          (fun t => (NavMesh.triEntry env.rsqrt t.1 t.2.1 t.2.2).1) ∧
        nav2.alpha = nav.alpha ++ (navTriangles [] lines).map
          (fun t => (NavMesh.triEntry env.rsqrt t.1 t.2.1 t.2.2).2.1) ∧
        nav2.beta = nav.beta ++ (navTriangles [] lines).map
          (fun t => (NavMesh.triEntry env.rsqrt t.1 t.2.1 t.2.2).2.2) ∧
        nav2.plane.length = nav.plane.length + fanCount lines ∧
        nav2.alpha.length = nav.alpha.length + fanCount lines ∧
        nav2.beta.length = nav.beta.length + fanCount lines) ∧
      (navmesh = none → res.2.2 = none)) ∧
    (EnvOk env → facesResolve 0 0 0 lines = true →
      ∃ res, ObjLoad env objects navmesh (some lines) = Except.ok res) := by
  constructor
  · intro res h
    simp only [ObjLoad, bind_eq_ok_iff, pure, Except.pure] at h
    obtain ⟨st, hst, hr⟩ := h
    cases hr
    have hinv : PosInv (initialState objects navmesh).v (initialState objects navmesh).vertexMap
        (vertsOf (initialState objects navmesh).newobj) := by
      intro tok slot hl
      simp [initialState] at hl
    obtain ⟨hres, hnav⟩ := processLines_nav lines _ st hst hinv
    have hlen := navTriangles_length lines []
    refine ⟨hres, hnav, hlen, ?_, ?_⟩
    · intro nav hn
      subst hn
      refine ⟨(navTriangles [] lines).foldl
        (fun (m : NavMesh) (t : Vec3 × Vec3 × Vec3) =>
          NavMesh.addTriangle env.rsqrt m t.1 t.2.1 t.2.2) nav, hnav, ?_⟩
      rw [NavMesh.foldl_addTriangle_arrays]
      simp only [List.length_append, List.length_map, hlen, and_self]
    · intro hn
      subst hn
      exact hnav
  · intro henv hok
    obtain ⟨st, hst⟩ := processLines_total henv lines (initialState objects navmesh)
      ⟨rfl, rfl⟩ hok
    exact ⟨(st.BoxMax.sub st.BoxMin,
      st.objects ++ (st.newobj.map (Object.initGPUData env.rsqrt)).toList, st.navmesh),
      by simp only [ObjLoad, hst, bind, Except.bind, pure, Except.pure]⟩

/-- The lines `quadLines` give the navigation mesh the triangles of tokens `(1,2,3)` and
`(1,3,4)`, in that order. -/
theorem quadLines_navmesh :
    (ObjLoad sampleEnv [] (some NavMesh.empty) (some quadLines)).map (fun res => res.2.2) =
      Except.ok quadFaceState.navmesh ∧
    navTriangles [] quadLines =
      [(QVec3.toVec3 ⟨0, 0, 0⟩, QVec3.toVec3 ⟨1, 0, 0⟩, QVec3.toVec3 ⟨1, 1, 0⟩),
       (QVec3.toVec3 ⟨0, 0, 0⟩, QVec3.toVec3 ⟨1, 1, 0⟩, QVec3.toVec3 ⟨0, 1, 0⟩)] ∧
    fanCount quadLines = 2 := by
  refine ⟨?_, ?_, ?_⟩ <;> decide!

/-- Witness for C11: the description `quadLines` with an empty navigation mesh. -/
theorem navmesh_receives_fan_triangles_witness :
    EnvOk sampleEnv ∧ facesResolve 0 0 0 quadLines = true ∧
    (∃ res, ObjLoad sampleEnv [] (some NavMesh.empty) (some quadLines) = Except.ok res) ∧
    (∀ res, ObjLoad sampleEnv [] (some NavMesh.empty) (some quadLines) = Except.ok res →
      res.2.2 = (some NavMesh.empty).map (fun nav => (navTriangles [] quadLines).foldl
        (fun m t => NavMesh.addTriangle sampleEnv.rsqrt m t.1 t.2.1 t.2.2) nav)) :=
  ⟨sampleEnv_ok, by decide,
    (navmesh_receives_fan_triangles sampleEnv [] (some NavMesh.empty) quadLines).2
      sampleEnv_ok (by decide),
    fun res h =>
      ((navmesh_receives_fan_triangles sampleEnv [] (some NavMesh.empty) quadLines).1 res h).2.1⟩


/-! ## GLapp: floor snapping of an agent at rest -/

theorem den_downward (r : QRec) : r.den downward = -r.plane.z := by
  simp [QRec.den, QVec4.dot, QVec4.ofVec3, downward]

theorem not_inPlane_downward {rs : List QRec} (hvert : ∀ r ∈ rs, r.plane.z ≠ 0) (p : QVec3) :
    ∀ r ∈ rs, ¬ r.inPlane p downward := by
  intro r hr hin
  have h := hin.2
  rw [den_downward] at h
  exact hvert r hr (by linarith)

theorem tParam_lower (r : QRec) (p : QVec3) (δ : ℚ) (h : r.plane.z ≠ 0) :
    r.tParam ⟨p.x, p.y, p.z - δ⟩ downward = r.tParam p downward - δ := by
  have hz : -r.plane.z ≠ 0 := neg_ne_zero.mpr h
  simp only [QRec.tParam, den_downward]
  rw [div_eq_iff hz, sub_mul, div_mul_cancel₀ _ hz]
  simp only [QRec.num, QVec4.dot, QVec4.ofVec3]
  ring

theorem hitPoint_lower (r : QRec) (p : QVec3) (δ : ℚ) (h : r.plane.z ≠ 0) :
    r.hitPoint ⟨p.x, p.y, p.z - δ⟩ downward = r.hitPoint p downward := by
  simp only [QRec.hitPoint, tParam_lower r p δ h]
  simp only [QVec3.add, QVec3.smul, downward]
  congr 1 <;> ring

theorem qualifies_lower (r : QRec) (p : QVec3) (δ near far : ℚ) (h : r.plane.z ≠ 0) :
    r.qualifies ⟨p.x, p.y, p.z - δ⟩ downward near far ↔
      near ≤ r.tParam p downward - δ ∧ r.tParam p downward - δ ≤ far ∧ r.baryOk p downward := by
  simp only [QRec.qualifies, QRec.baryOk, QRec.coordA, QRec.coordB, tParam_lower r p δ h,
    hitPoint_lower r p δ h]

/-- After a snap the floor below is at distance exactly `500`, unless a triangle that was
above the agent is now within `250` below it. -/
theorem floorDistance_after_snap (rs : List QRec) (p : QVec3)
    (hvert : ∀ r ∈ rs, r.plane.z ≠ 0)
    (hlo : 250 < floorDistance rs p) (hhi : floorDistance rs p < 750) :
    floorDistance rs ⟨p.x, p.y, p.z - floorDistance rs p + 500⟩ = 500 ∨
      floorDistance rs ⟨p.x, p.y, p.z - floorDistance rs p + 500⟩ < 250 := by
  have hpos : (⟨p.x, p.y, p.z - floorDistance rs p + 500⟩ : QVec3) =
      ⟨p.x, p.y, p.z - (floorDistance rs p - 500)⟩ := by
    congr 1
    ring
  rw [hpos]
  generalize hδ : floorDistance rs p - 500 = δ
  have hmem1 : floorDistance rs p ∈ hitParams rs p downward 0 750 := by
    rcases foldl_min_eq_or_mem (hitParams rs p downward 0 750) 750 with h | h
    · exact absurd h (ne_of_lt hhi)
    · exact h
  obtain ⟨r, hr, ⟨hden, hq⟩, ht⟩ := mem_hitParams.mp hmem1
  have hz := hvert r hr
  have h500 : (500 : ℚ) ∈ hitParams rs ⟨p.x, p.y, p.z - δ⟩ downward 0 750 := by
    refine mem_hitParams.mpr ⟨r, hr, ⟨hden, ?_⟩, ?_⟩
    · rw [qualifies_lower r p δ 0 750 hz, ht]
      exact ⟨by linarith, by linarith, hq.2.2⟩
    · rw [tParam_lower r p δ hz, ht]
      linarith
  have hle : floorDistance rs ⟨p.x, p.y, p.z - δ⟩ ≤ 500 := foldl_min_le_mem _ _ _ h500
  rcases foldl_min_eq_or_mem (hitParams rs ⟨p.x, p.y, p.z - δ⟩ downward 0 750) 750 with h | h
  · have h2 : floorDistance rs ⟨p.x, p.y, p.z - δ⟩ = 750 := h
    linarith
  · obtain ⟨r2, hr2, ⟨hden2, hq2⟩, ht2⟩ := mem_hitParams.mp h
    have hz2 := hvert r2 hr2
    have hq3 := (qualifies_lower r2 p δ 0 750 hz2).mp hq2
    rw [tParam_lower r2 p δ hz2] at ht2
    have ht3 : r2.tParam p downward - δ = floorDistance rs ⟨p.x, p.y, p.z - δ⟩ := ht2
    by_cases hneg : r2.tParam p downward < 0
    · right
      linarith
    · left
      by_cases hbig : 750 < r2.tParam p downward
      · linarith
      · have hmem2 : r2.tParam p downward ∈ hitParams rs p downward 0 750 :=
          mem_hitParams.mpr ⟨r2, hr2, ⟨hden2, ⟨by linarith, by linarith, hq3.2.2⟩⟩, rfl⟩
        have hge : floorDistance rs p ≤ r2.tParam p downward := foldl_min_le_mem _ _ _ hmem2
        linarith

/-- One call of `sceneUpdate` on an agent at rest over non-vertical finite records. -/
theorem sceneUpdate_restingAt (lib : Trig) (rs : List QRec) (p : QVec3) (pan dTime : FVal)
    (hvert : ∀ r ∈ rs, r.plane.z ≠ 0) :
    GLapp.sceneUpdate lib (restingAt rs p pan) dTime = some (restingAt rs (snapped rs p) pan) := by
  have hc : GLapp.candidate lib (restingAt rs p pan) dTime = some p.toVec3 := by
    simp [GLapp.candidate, restingAt, FVal.ne]
  have htr : (restingAt rs p pan).navmesh.trace p.toVec3
      ⟨FVal.fin 0, FVal.fin 0, FVal.fin (-1)⟩ (FVal.fin 0) (FVal.fin 750) =
      some (FVal.fin (floorDistance rs p)) :=
    NavMesh.trace_ofRecords rs p downward 0 750 (not_inPlane_downward hvert p)
  unfold GLapp.sceneUpdate
  rw [hc]
  simp only [htr, FVal.gt, FVal.lt, snapped, Bool.and_eq_true, decide_eq_true_eq]
  by_cases hband : 250 < floorDistance rs p ∧ floorDistance rs p < 750
  · rw [if_pos hband, if_pos hband]
    simp [restingAt, QVec3.toVec3, FVal.sub, FVal.add, FVal.neg, sub_eq_add_neg]
  · rw [if_neg hband, if_neg hband]

theorem snapped_snapped (rs : List QRec) (p : QVec3) (hvert : ∀ r ∈ rs, r.plane.z ≠ 0) :
    snapped rs (snapped rs p) = snapped rs p := by
  by_cases hband : 250 < floorDistance rs p ∧ floorDistance rs p < 750
  · have h1 : snapped rs p = ⟨p.x, p.y, p.z - floorDistance rs p + 500⟩ := by
      simp only [snapped, if_pos hband]
    rw [h1]
    rcases floorDistance_after_snap rs p hvert hband.1 hband.2 with h | h
    · have hband2 : 250 < floorDistance rs ⟨p.x, p.y, p.z - floorDistance rs p + 500⟩ ∧
          floorDistance rs ⟨p.x, p.y, p.z - floorDistance rs p + 500⟩ < 750 := by
        rw [h]; constructor <;> norm_num
      unfold snapped
      rw [if_pos hband2, h]
      congr 1
      ring
    · have hband2 : ¬ (250 < floorDistance rs ⟨p.x, p.y, p.z - floorDistance rs p + 500⟩ ∧
          floorDistance rs ⟨p.x, p.y, p.z - floorDistance rs p + 500⟩ < 750) := by
        intro hcon
        linarith [hcon.1]
      simp only [snapped, if_neg hband2]
  · have h1 : snapped rs p = p := by simp only [snapped, if_neg hband]
    rw [h1, h1]

/-- C20: for an agent at rest (`moveRate = strafeRate = 0`) at a finite position over a
navigation mesh of finite records none of whose planes is vertical, one call of
`sceneUpdate` gives the snapped position and a second call leaves it there, whatever the
two time steps are; and after a snap (`250 < floorhit < 750`) the next downward trace
returns exactly `500` or a value below `250`. -/
theorem sceneUpdate_rest_idempotent (lib : Trig) (rs : List QRec) (p : QVec3)
    (pan dTime dTime2 : FVal) (hvert : ∀ r ∈ rs, r.plane.z ≠ 0) :
    GLapp.sceneUpdate lib (restingAt rs p pan) dTime = some (restingAt rs (snapped rs p) pan) ∧
    GLapp.sceneUpdate lib (restingAt rs (snapped rs p) pan) dTime2 =
      some (restingAt rs (snapped rs p) pan) ∧
    (250 < floorDistance rs p ∧ floorDistance rs p < 750 →
      snapped rs p = ⟨p.x, p.y, p.z - floorDistance rs p + 500⟩ ∧
      (restingAt rs (snapped rs p) pan).navmesh.trace (snapped rs p).toVec3
          ⟨FVal.fin 0, FVal.fin 0, FVal.fin (-1)⟩ (FVal.fin 0) (FVal.fin 750) =
        some (FVal.fin (floorDistance rs (snapped rs p))) ∧
      (floorDistance rs (snapped rs p) = 500 ∨ floorDistance rs (snapped rs p) < 250)) ∧
    (¬ (250 < floorDistance rs p ∧ floorDistance rs p < 750) → snapped rs p = p) := by
  refine ⟨sceneUpdate_restingAt lib rs p pan dTime hvert, ?_, ?_, ?_⟩
  · have h := sceneUpdate_restingAt lib rs (snapped rs p) pan dTime2 hvert
    rw [snapped_snapped rs p hvert] at h
    exact h
  · intro hband
    have h1 : snapped rs p = ⟨p.x, p.y, p.z - floorDistance rs p + 500⟩ := by
      simp only [snapped, if_pos hband]
    refine ⟨h1, ?_, ?_⟩
    · exact NavMesh.trace_ofRecords rs (snapped rs p) downward 0 750
        (not_inPlane_downward hvert _)
    · rw [h1]
      exact floorDistance_after_snap rs p hvert hband.1 hband.2
  · intro hband
    simp only [snapped, if_neg hband]

/-- The agent at `(1/4, 1/4, 600)` at rest above the floor record: the first call snaps it
to height `500`, the second leaves it there. -/
theorem resting_example :
    floorDistance [sampleFloor] ⟨1/4, 1/4, 600⟩ = 600 ∧
    snapped [sampleFloor] ⟨1/4, 1/4, 600⟩ = ⟨1/4, 1/4, 500⟩ ∧
    floorDistance [sampleFloor] ⟨1/4, 1/4, 500⟩ = 500 := by
  refine ⟨?_, ?_, ?_⟩ <;> decide!

/-- Witness for C20: the agent at `(1/4, 1/4, 600)` over the floor record. -/
theorem sceneUpdate_rest_idempotent_witness :
    (∀ r ∈ [sampleFloor], r.plane.z ≠ 0) ∧
    GLapp.sceneUpdate sampleTrig (restingAt [sampleFloor] ⟨1/4, 1/4, 600⟩ (FVal.fin 0))
        (FVal.fin 1) =
      some (restingAt [sampleFloor] (snapped [sampleFloor] ⟨1/4, 1/4, 600⟩) (FVal.fin 0)) ∧
    GLapp.sceneUpdate sampleTrig
        (restingAt [sampleFloor] (snapped [sampleFloor] ⟨1/4, 1/4, 600⟩) (FVal.fin 0))
        (FVal.fin 2) =
      some (restingAt [sampleFloor] (snapped [sampleFloor] ⟨1/4, 1/4, 600⟩) (FVal.fin 0)) :=
  ⟨by decide!,
    (sceneUpdate_rest_idempotent sampleTrig [sampleFloor] ⟨1/4, 1/4, 600⟩ (FVal.fin 0)
      (FVal.fin 1) (FVal.fin 2) (by decide!)).1,
    (sceneUpdate_rest_idempotent sampleTrig [sampleFloor] ⟨1/4, 1/4, 600⟩ (FVal.fin 0)
      (FVal.fin 1) (FVal.fin 2) (by decide!)).2.1⟩


/-! ## GLapp: no tunnelling for short steps -/

theorem inTriangle_onPlane {v0 v1 v2 p : QVec3} (h : inTriangle v0 v1 v2 p) :
    onPlane v0 v1 v2 p := by
  obtain ⟨w0, w1, w2, _, _, _, hsum, hp⟩ := h
  have hw : w0 = 1 - w1 - w2 := by linarith
  subst hp
  subst hw
  simp only [onPlane, triNormal, QVec3.dot, QVec3.cross, QVec3.sub, QVec3.comb]
  ring

/-- The entries `addTriangle` computes for a non-degenerate triangle with finite corners
are those of its exact record. -/
theorem NavMesh.triEntry_embTri (rsqrt : FVal → FVal) (hr : RsqrtPositive rsqrt)
    (t : QVec3 × QVec3 × QVec3) (hnd : nonDegenerate t.1 t.2.1 t.2.2) :
    NavMesh.triEntry rsqrt (embTri t).1 (embTri t).2.1 (embTri t).2.2 =
      ((recordOf rsqrt t).plane.toVec4, (recordOf rsqrt t).alpha.toVec4,
        (recordOf rsqrt t).beta.toVec4) := by
  obtain ⟨hk, hkr⟩ := rsqrtValue_spec hr (QVec3.dot_self_pos hnd)
  have h := NavMesh.addTriangle_finite rsqrt NavMesh.empty t.1 t.2.1 t.2.2 _ (ne_of_gt hk)
    hnd hkr
  rw [NavMesh.addTriangle_eq] at h
  simp only [NavMesh.push, NavMesh.empty, List.nil_append, NavMesh.mk.injEq,
    List.cons.injEq, and_true] at h
  obtain ⟨h1, h2, h3⟩ := h
  exact Prod.ext h1 (Prod.ext h2 h3)

theorem GLapp.candidate_moved {lib : Trig} {app : GLapp} {dTime : FVal} {nextpos : Vec3}
    (hc : GLapp.candidate lib app dTime = some nextpos) (hne : nextpos ≠ app.position) :
    app.navmesh.anyhit app.position
      (Vec3.normalize lib.rsqrt (GLapp.motion lib app dTime)) (FVal.fin 0) (FVal.fin 250) =
        some false := by
  unfold GLapp.candidate at hc
  split at hc
  · cases hany : app.navmesh.anyhit app.position
        (Vec3.normalize lib.rsqrt (GLapp.motion lib app dTime)) (FVal.fin 0) (FVal.fin 250) with
    | none => rw [hany] at hc; cases hc
    | some hit =>
      rw [hany] at hc
      cases hit with
      | false => rfl
      | true =>
        simp only [Bool.not_true, Bool.false_eq_true, if_false, Option.some.injEq] at hc
        exact absurd hc.symm hne
  · simp only [Option.some.injEq] at hc
    exact absurd hc.symm hne

theorem GLapp.sceneUpdate_moved {lib : Trig} {app app2 : GLapp} {dTime : FVal}
    (h : GLapp.sceneUpdate lib app dTime = some app2)
    (hmoved : app2.position.x ≠ app.position.x ∨ app2.position.y ≠ app.position.y) :
    app.navmesh.anyhit app.position
      (Vec3.normalize lib.rsqrt (GLapp.motion lib app dTime)) (FVal.fin 0) (FVal.fin 250) =
        some false := by
  unfold GLapp.sceneUpdate at h
  cases hc : GLapp.candidate lib app dTime with
  | none => rw [hc] at h; cases h
  | some nextpos =>
    rw [hc] at h
    simp only at h
    apply GLapp.candidate_moved hc
    intro hsame
    split at h
    · cases h
    · split at h
      · cases h
        rw [hsame] at hmoved
        rcases hmoved with hx | hy
        · exact hx rfl
        · exact hy rfl
      · cases h
        rcases hmoved with hx | hy
        · exact hx rfl
        · exact hy rfl

theorem Vec3.normalize_toVec3 (rsqrt : FVal → FVal) (m : QVec3) (c : ℚ)
    (hc : rsqrt (FVal.fin (QVec3.dot m m)) = FVal.fin c) :
    Vec3.normalize rsqrt m.toVec3 = (m.muls c).toVec3 := by
  have hdot : Vec3.dot m.toVec3 m.toVec3 = FVal.fin (QVec3.dot m m) := by
    simp [Vec3.dot, QVec3.toVec3, FVal.mul, FVal.add, QVec3.dot]
  unfold Vec3.normalize
  rw [hdot, hc]
  simp [Vec3.muls, QVec3.muls, QVec3.toVec3, FVal.mul]

/-- C19: take an agent at a finite position `p` whose proposed displacement is the finite
vector `m`, of length at most `250`, normalized with an `inversesqrt` that does not
underestimate `1 / |m|` (as when it is exact), over the navigation mesh built by
`addTriangle` from any triangles.  `sceneUpdate` returns, and whenever its result has another
`x` or `y` than the position, the segment from `p` to `p + m` meets no non-degenerate
triangle of the mesh with finite corners whose plane is not parallel to `m`. -/
theorem sceneUpdate_no_tunnelling (lib : Trig) (hr : RsqrtPositive lib.rsqrt) (app : GLapp)
    (dTime : FVal) (p m : QVec3) (tris : List (Vec3 × Vec3 × Vec3))
    (t : QVec3 × QVec3 × QVec3) (c : ℚ)
    (hpos : app.position = p.toVec3)
    (hmot : GLapp.motion lib app dTime = m.toVec3)
    (hmesh : app.navmesh = NavMesh.build lib.rsqrt tris)
    (ht : embTri t ∈ tris) (hnd : nonDegenerate t.1 t.2.1 t.2.2)
    (hnp : QVec3.dot (triNormal t.1 t.2.1 t.2.2) m ≠ 0)
    (hc : lib.rsqrt (FVal.fin (QVec3.dot m m)) = FVal.fin c)
    (hexact : 1 ≤ c * c * QVec3.dot m m)
    (hshort : QVec3.dot m m ≤ 250 * 250) :
    (∃ app2, GLapp.sceneUpdate lib app dTime = some app2) ∧
    ∀ app2, GLapp.sceneUpdate lib app dTime = some app2 →
      (app2.position.x ≠ app.position.x ∨ app2.position.y ≠ app.position.y) →
      ∀ s : ℚ, 0 ≤ s → s ≤ 1 →
        ¬ inTriangle t.1 t.2.1 t.2.2 (p.add (QVec3.smul s m)) := by
  have hlock : app.navmesh.lockstep := by
    rw [hmesh]; exact (NavMesh.build_records lib.rsqrt tris).1
  refine ⟨GLapp.sceneUpdate_isSome lib app dTime hlock, ?_⟩
  intro app2 hupd hmoved s hs0 hs1 hin
  have hany := GLapp.sceneUpdate_moved hupd hmoved
  rw [NavMesh.anyhit_eq_any _ hlock, hmot, Vec3.normalize_toVec3 lib.rsqrt m c hc, hpos,
    hmesh, (NavMesh.build_records lib.rsqrt tris).2] at hany
  simp only [Option.some.injEq] at hany
  have hrej := (List.any_eq_false.mp hany) _ (List.mem_map.mpr ⟨embTri t, ht, rfl⟩)
  rw [NavMesh.triEntry_embTri lib.rsqrt hr t hnd] at hrej
  -- the normalization factor is positive and at least 1/250
  have hmm : 0 < QVec3.dot m m := by
    apply QVec3.dot_self_pos
    intro h0
    apply hnp
    rw [h0]
    simp [QVec3.dot]
  obtain ⟨k, hk, hkr⟩ := hr _ hmm
  have hck : c = k := by
    rw [hc] at hkr
    exact FVal.fin.inj hkr
  have hcpos : 0 < c := by rw [hck]; exact hk
  have hc250 : 1 ≤ 250 * c := by
    by_contra hcon
    have h1 : 250 * c < 1 := lt_of_not_ge hcon
    have h2 : (250 * c) * (250 * c) < 1 := by nlinarith
    have h3 : c * c * QVec3.dot m m ≤ c * c * (250 * 250) :=
      mul_le_mul_of_nonneg_left hshort (by positivity)
    linarith
  -- the record of the triangle
  obtain ⟨hkv, _⟩ := rsqrtValue_spec hr (QVec3.dot_self_pos hnd)
  have hnpd : QVec3.dot (triNormal t.1 t.2.1 t.2.2) (m.muls c) ≠ 0 := by
    have : QVec3.dot (triNormal t.1 t.2.1 t.2.2) (m.muls c) =
        c * QVec3.dot (triNormal t.1 t.2.1 t.2.2) m := by
      simp only [QVec3.dot, QVec3.muls]; ring
    rw [this]
    exact mul_ne_zero (ne_of_gt hcpos) hnp
  have hiff := triRecord_accepts_iff _ t.1 t.2.1 t.2.2 p (m.muls c) 0 250 (ne_of_gt hkv) hnd hnpd
  have hpt : p.add (QVec3.smul (s / c) (m.muls c)) = p.add (QVec3.smul s m) := by
    simp only [QVec3.add, QVec3.smul, QVec3.muls]
    have hc0 : c ≠ 0 := ne_of_gt hcpos
    have hmul : ∀ x : ℚ, s / c * (x * c) = s * x := by
      intro x
      field_simp
      ring
    rw [hmul, hmul, hmul]
  have hon : onPlane t.1 t.2.1 t.2.2 (p.add (QVec3.smul (s / c) (m.muls c))) := by
    rw [hpt]; exact inTriangle_onPlane hin
  have hτ := (onPlane_ray_iff _ t.1 t.2.1 t.2.2 p (m.muls c) (s / c) (ne_of_gt hkv) hnpd).mp hon
  apply hrej
  apply hiff.mpr
  rw [QRec.hitPoint, ← hτ, hpt]
  refine ⟨div_nonneg hs0 (le_of_lt hcpos), ?_, hin⟩
  rw [div_le_iff₀ hcpos]
  linarith

/-- The agent `corridorApp` takes the step `(0, 1, 0)` and is snapped to the floor. -/
theorem corridor_example :
    GLapp.motion sampleTrig corridorApp (FVal.fin 1) = QVec3.toVec3 ⟨0, 1, 0⟩ ∧
    GLapp.sceneUpdate sampleTrig corridorApp (FVal.fin 1) =
      some { corridorApp with position := QVec3.toVec3 ⟨1/8, 9/8, 500⟩ } := by
  constructor <;> decide!

/-- Witness for C19: the step of `corridorApp` does not cross the wall `farWall`. -/
theorem sceneUpdate_no_tunnelling_witness :
    RsqrtPositive sampleTrig.rsqrt ∧
    GLapp.sceneUpdate sampleTrig corridorApp (FVal.fin 1) =
      some { corridorApp with position := QVec3.toVec3 ⟨1/8, 9/8, 500⟩ } ∧
    ∀ s : ℚ, 0 ≤ s → s ≤ 1 →
      ¬ inTriangle farWall.1 farWall.2.1 farWall.2.2
        (QVec3.add ⟨1/8, 1/8, 600⟩ (QVec3.smul s ⟨0, 1, 0⟩)) :=
  ⟨sampleRsqrt_positive, by decide!,
    (sceneUpdate_no_tunnelling sampleTrig sampleRsqrt_positive corridorApp (FVal.fin 1)
      ⟨1/8, 1/8, 600⟩ ⟨0, 1, 0⟩ [embTri wideFloor, embTri farWall] farWall 1
      (by decide!) (by decide!) rfl (by decide!) (by decide!) (by decide!) (by decide!)
      (by decide!) (by decide!)).2
      { corridorApp with position := QVec3.toVec3 ⟨1/8, 9/8, 500⟩ } (by decide!)
      (Or.inr (by decide!))⟩


/-! ## Vertex order and winding -/

theorem inTriangle_swap12 {v0 v1 v2 p : QVec3} (h : inTriangle v0 v1 v2 p) :
    inTriangle v0 v2 v1 p := by
  obtain ⟨w0, w1, w2, h0, h1, h2, hs, hp⟩ := h
  refine ⟨w0, w2, w1, h0, h2, h1, by linarith, ?_⟩
  rw [hp]
  simp only [QVec3.comb]
  congr 1 <;> ring

theorem inTriangle_swap01 {v0 v1 v2 p : QVec3} (h : inTriangle v0 v1 v2 p) :
    inTriangle v1 v0 v2 p := by
  obtain ⟨w0, w1, w2, h0, h1, h2, hs, hp⟩ := h
  refine ⟨w1, w0, w2, h1, h0, h2, by linarith, ?_⟩
  rw [hp]
  simp only [QVec3.comb]
  congr 1 <;> ring

/-- The closed triangle does not depend on the order of its corners. -/
theorem inTriangle_orderings {t t2 : QVec3 × QVec3 × QVec3} (ho : t2 ∈ orderings t)
    (p : QVec3) :
    inTriangle t2.1 t2.2.1 t2.2.2 p ↔ inTriangle t.1 t.2.1 t.2.2 p := by
  simp only [orderings, List.mem_cons, List.mem_singleton, List.not_mem_nil, or_false] at ho
  rcases ho with rfl | rfl | rfl | rfl | rfl | rfl
  · exact Iff.rfl
  · exact ⟨inTriangle_swap12, inTriangle_swap12⟩
  · exact ⟨inTriangle_swap01, inTriangle_swap01⟩
  · exact ⟨fun h => inTriangle_swap01 (inTriangle_swap12 h),
      fun h => inTriangle_swap12 (inTriangle_swap01 h)⟩
  · exact ⟨fun h => inTriangle_swap12 (inTriangle_swap01 h),
      fun h => inTriangle_swap01 (inTriangle_swap12 h)⟩
  · exact ⟨fun h => inTriangle_swap01 (inTriangle_swap12 (inTriangle_swap01 h)),
      fun h => inTriangle_swap01 (inTriangle_swap12 (inTriangle_swap01 h))⟩

/-- Reordering the corners keeps the normal or reverses it, and the signed distance to the
plane with it. -/
theorem triNormal_orderings {t t2 : QVec3 × QVec3 × QVec3} (ho : t2 ∈ orderings t) :
    ∃ ε : ℚ, (ε = 1 ∨ ε = -1) ∧
      (∀ d : QVec3, QVec3.dot (triNormal t2.1 t2.2.1 t2.2.2) d =
        ε * QVec3.dot (triNormal t.1 t.2.1 t.2.2) d) ∧
      (∀ p : QVec3, QVec3.dot (triNormal t2.1 t2.2.1 t2.2.2) (p.sub t2.1) =
        ε * QVec3.dot (triNormal t.1 t.2.1 t.2.2) (p.sub t.1)) ∧
      QVec3.dot (triNormal t2.1 t2.2.1 t2.2.2) (triNormal t2.1 t2.2.1 t2.2.2) =
        QVec3.dot (triNormal t.1 t.2.1 t.2.2) (triNormal t.1 t.2.1 t.2.2) := by
  simp only [orderings, List.mem_cons, List.mem_singleton, List.not_mem_nil, or_false] at ho
  rcases ho with rfl | rfl | rfl | rfl | rfl | rfl
  · refine ⟨1, Or.inl rfl, ?_, ?_, ?_⟩
    · intro d; simp only [triNormal, QVec3.dot, QVec3.cross, QVec3.sub]; ring
    · intro p; simp only [triNormal, QVec3.dot, QVec3.cross, QVec3.sub]; ring
    · simp only [triNormal, QVec3.dot, QVec3.cross, QVec3.sub]
  · refine ⟨-1, Or.inr rfl, ?_, ?_, ?_⟩
    · intro d; simp only [triNormal, QVec3.dot, QVec3.cross, QVec3.sub]; ring
    · intro p; simp only [triNormal, QVec3.dot, QVec3.cross, QVec3.sub]; ring
    · simp only [triNormal, QVec3.dot, QVec3.cross, QVec3.sub]; ring
  · refine ⟨-1, Or.inr rfl, ?_, ?_, ?_⟩
    · intro d; simp only [triNormal, QVec3.dot, QVec3.cross, QVec3.sub]; ring
    · intro p; simp only [triNormal, QVec3.dot, QVec3.cross, QVec3.sub]; ring
    · simp only [triNormal, QVec3.dot, QVec3.cross, QVec3.sub]; ring
  · refine ⟨1, Or.inl rfl, ?_, ?_, ?_⟩
    · intro d; simp only [triNormal, QVec3.dot, QVec3.cross, QVec3.sub]; ring
    · intro p; simp only [triNormal, QVec3.dot, QVec3.cross, QVec3.sub]; ring
    · simp only [triNormal, QVec3.dot, QVec3.cross, QVec3.sub]; ring
  · refine ⟨1, Or.inl rfl, ?_, ?_, ?_⟩
    · intro d; simp only [triNormal, QVec3.dot, QVec3.cross, QVec3.sub]; ring
    · intro p; simp only [triNormal, QVec3.dot, QVec3.cross, QVec3.sub]; ring
    · simp only [triNormal, QVec3.dot, QVec3.cross, QVec3.sub]; ring
  · refine ⟨-1, Or.inr rfl, ?_, ?_, ?_⟩
    · intro d; simp only [triNormal, QVec3.dot, QVec3.cross, QVec3.sub]; ring
    · intro p; simp only [triNormal, QVec3.dot, QVec3.cross, QVec3.sub]; ring
    · simp only [triNormal, QVec3.dot, QVec3.cross, QVec3.sub]; ring

theorem nonDegenerate_orderings {t t2 : QVec3 × QVec3 × QVec3} (ho : t2 ∈ orderings t)
    (hnd : nonDegenerate t.1 t.2.1 t.2.2) : nonDegenerate t2.1 t2.2.1 t2.2.2 := by
  obtain ⟨_, _, _, _, hsq⟩ := triNormal_orderings ho
  have hpos := QVec3.dot_self_pos hnd
  intro h0
  rw [h0] at hsq
  simp only [QVec3.dot, mul_zero, add_zero] at hsq hpos
  linarith

theorem onPlane_orderings {t t2 : QVec3 × QVec3 × QVec3} (ho : t2 ∈ orderings t)
    (p : QVec3) : onPlane t2.1 t2.2.1 t2.2.2 p ↔ onPlane t.1 t.2.1 t.2.2 p := by
  obtain ⟨ε, hε, _, hdist, _⟩ := triNormal_orderings ho
  unfold onPlane
  rw [hdist p]
  rcases hε with h | h <;> rw [h] <;> constructor <;> intro hh <;> linarith

theorem parallel_orderings {t t2 : QVec3 × QVec3 × QVec3} (ho : t2 ∈ orderings t)
    (d : QVec3) : QVec3.dot (triNormal t2.1 t2.2.1 t2.2.2) d = 0 ↔
      QVec3.dot (triNormal t.1 t.2.1 t.2.2) d = 0 := by
  obtain ⟨ε, hε, hdir, _, _⟩ := triNormal_orderings ho
  rw [hdir d]
  rcases hε with h | h <;> rw [h] <;> constructor <;> intro hh <;> linarith

theorem rayInPlane_orderings {t t2 : QVec3 × QVec3 × QVec3} (ho : t2 ∈ orderings t)
    (start direction : QVec3) : rayInPlane t2 start direction ↔ rayInPlane t start direction := by
  unfold rayInPlane
  rw [onPlane_orderings ho, parallel_orderings ho]

/-- The exact record of a reordered triangle uses the same value of `inversesqrt`. -/
theorem recordOf_orderings (rsqrt : FVal → FVal) {t t2 : QVec3 × QVec3 × QVec3}
    (ho : t2 ∈ orderings t) :
    recordOf rsqrt t2 =
      triRecord (rsqrtValue rsqrt (QVec3.dot (triNormal t.1 t.2.1 t.2.2)
        (triNormal t.1 t.2.1 t.2.2))) t2.1 t2.2.1 t2.2.2 := by
  obtain ⟨_, _, _, _, hsq⟩ := triNormal_orderings ho
  unfold recordOf
  rw [hsq]

/-- The parameter of a finite record is the exact quotient when the ray is not parallel to
the plane. -/
theorem NavMesh.param_finite (r : QRec) (start direction : QVec3) (h : r.den direction ≠ 0) :
    NavMesh.param r.plane.toVec4 start.toVec3 direction.toVec3 =
      FVal.fin (r.tParam start direction) := by
  have hd : QVec4.dot r.plane (QVec4.ofVec3 direction 0) ≠ 0 := h
  simp only [NavMesh.param, Vec4.ofVec3_toVec3, Vec4.dot_toVec4, FVal.neg_fin]
  rw [FVal.div_fin_of_ne hd]
  rfl

/-- For a ray not parallel to the plane, the parameter does not depend on the order of the
corners. -/
theorem tParam_orderings (rsqrt : FVal → FVal) (hr : RsqrtPositive rsqrt)
    {t t2 : QVec3 × QVec3 × QVec3} (hnd : nonDegenerate t.1 t.2.1 t.2.2)
    (ho : t2 ∈ orderings t) (start direction : QVec3)
    (hnp : QVec3.dot (triNormal t.1 t.2.1 t.2.2) direction ≠ 0) :
    (recordOf rsqrt t2).tParam start direction = (recordOf rsqrt t).tParam start direction := by
  obtain ⟨hk, _⟩ := rsqrtValue_spec hr (QVec3.dot_self_pos hnd)
  have hnp2 : QVec3.dot (triNormal t2.1 t2.2.1 t2.2.2) direction ≠ 0 :=
    fun h => hnp ((parallel_orderings ho direction).mp h)
  rw [recordOf_orderings rsqrt ho]
  have h2 := (onPlane_ray_iff _ t2.1 t2.2.1 t2.2.2 start direction _ (ne_of_gt hk) hnp2).mpr rfl
  rw [onPlane_orderings ho] at h2
  exact (onPlane_ray_iff _ t.1 t.2.1 t.2.2 start direction _ (ne_of_gt hk) hnp).mp h2

/-- The per-triangle test on the exact record does not depend on the order of the corners,
for finite rays and finite `near`, `far`. -/
theorem accepts_orderings (rsqrt : FVal → FVal) (hr : RsqrtPositive rsqrt)
    {t t2 : QVec3 × QVec3 × QVec3} (hnd : nonDegenerate t.1 t.2.1 t.2.2)
    (ho : t2 ∈ orderings t) (start direction : QVec3) (near far : ℚ) :
    NavMesh.accepts (recordOf rsqrt t2).plane.toVec4 (recordOf rsqrt t2).alpha.toVec4
        (recordOf rsqrt t2).beta.toVec4 start.toVec3 direction.toVec3 (FVal.fin near)
        (FVal.fin far) =
      NavMesh.accepts (recordOf rsqrt t).plane.toVec4 (recordOf rsqrt t).alpha.toVec4
        (recordOf rsqrt t).beta.toVec4 start.toVec3 direction.toVec3 (FVal.fin near)
        (FVal.fin far) := by
  obtain ⟨hk, _⟩ := rsqrtValue_spec hr (QVec3.dot_self_pos hnd)
  have hnd2 := nonDegenerate_orderings ho hnd
  by_cases hnp : QVec3.dot (triNormal t.1 t.2.1 t.2.2) direction = 0
  · -- parallel: accepted in the plane, rejected outside it, in both orderings
    have hnp2 := (parallel_orderings ho direction).mpr hnp
    have hden : (recordOf rsqrt t).den direction = 0 := by
      rw [recordOf, triRecord_den, hnp, mul_zero]
    have hden2 : (recordOf rsqrt t2).den direction = 0 := by
      rw [recordOf_orderings rsqrt ho, triRecord_den, hnp2, mul_zero]
    by_cases hin : rayInPlane t start direction
    · have h1 := (recordOf_inPlane_iff rsqrt hr t hnd start direction).mpr hin
      have h2 := (recordOf_inPlane_iff rsqrt hr t2 hnd2 start direction).mpr
        ((rayInPlane_orderings ho start direction).mpr hin)
      rw [(NavMesh.accepts_inPlane _ start direction _ _ h1).2,
        (NavMesh.accepts_inPlane _ start direction _ _ h2).2]
    · have h1 : (recordOf rsqrt t).num start ≠ 0 := fun h =>
        hin ((recordOf_inPlane_iff rsqrt hr t hnd start direction).mp ⟨h, hden⟩)
      have h2 : (recordOf rsqrt t2).num start ≠ 0 := fun h =>
        hin ((rayInPlane_orderings ho start direction).mp
          ((recordOf_inPlane_iff rsqrt hr t2 hnd2 start direction).mp ⟨h, hden2⟩))
      rw [NavMesh.rejects_parallel _ start direction near far hden h1,
        NavMesh.rejects_parallel _ start direction near far hden2 h2]
  · have hnp2 : QVec3.dot (triNormal t2.1 t2.2.1 t2.2.2) direction ≠ 0 :=
      fun h => hnp ((parallel_orderings ho direction).mp h)
    have hτ := tParam_orderings rsqrt hr hnd ho start direction hnp
    have hA := triRecord_accepts_iff _ t.1 t.2.1 t.2.2 start direction near far
      (ne_of_gt hk) hnd hnp
    have hB := triRecord_accepts_iff (rsqrtValue rsqrt (QVec3.dot (triNormal t.1 t.2.1 t.2.2)
      (triNormal t.1 t.2.1 t.2.2))) t2.1 t2.2.1 t2.2.2 start direction near far
      (ne_of_gt hk) hnd2 hnp2
    rw [recordOf_orderings rsqrt ho] at hτ ⊢
    rw [Bool.eq_iff_iff, hB]
    have hA2 : NavMesh.accepts (recordOf rsqrt t).plane.toVec4 (recordOf rsqrt t).alpha.toVec4
        (recordOf rsqrt t).beta.toVec4 start.toVec3 direction.toVec3 (FVal.fin near)
        (FVal.fin far) = true ↔ _ := hA
    rw [hA2, QRec.hitPoint, QRec.hitPoint, hτ, inTriangle_orderings ho]
    rfl

/-- The condition under which a record contributes to the closest hit does not depend on
the order of the corners. -/
theorem counts_orderings (rsqrt : FVal → FVal) (hr : RsqrtPositive rsqrt)
    {t t2 : QVec3 × QVec3 × QVec3} (hnd : nonDegenerate t.1 t.2.1 t.2.2)
    (ho : t2 ∈ orderings t) (start direction : QVec3) (near far : ℚ)
    (hin : ¬ rayInPlane t start direction) :
    ((recordOf rsqrt t2).den direction ≠ 0 ∧
        (recordOf rsqrt t2).qualifies start direction near far) ↔
      ((recordOf rsqrt t).den direction ≠ 0 ∧
        (recordOf rsqrt t).qualifies start direction near far) := by
  have hnd2 := nonDegenerate_orderings ho hnd
  have h1 : ¬ (recordOf rsqrt t).inPlane start direction := fun h =>
    hin ((recordOf_inPlane_iff rsqrt hr t hnd start direction).mp h)
  have h2 : ¬ (recordOf rsqrt t2).inPlane start direction := fun h =>
    hin ((rayInPlane_orderings ho start direction).mp
      ((recordOf_inPlane_iff rsqrt hr t2 hnd2 start direction).mp h))
  have hacc := accepts_orderings rsqrt hr hnd ho start direction near far
  rw [NavMesh.accepts_finite _ start direction near far h1,
    NavMesh.accepts_finite _ start direction near far h2] at hacc
  exact decide_eq_decide.mp hacc

theorem hitParams_orderings (rsqrt : FVal → FVal) (hr : RsqrtPositive rsqrt)
    (start direction : QVec3) (near far : ℚ) :
    ∀ (ts ts2 : List (QVec3 × QVec3 × QVec3)),
      List.Forall₂ (fun a b => b ∈ orderings a) ts ts2 →
      (∀ a ∈ ts, nonDegenerate a.1 a.2.1 a.2.2) →
      (∀ a ∈ ts, ¬ rayInPlane a start direction) →
      hitParams (ts2.map (recordOf rsqrt)) start direction near far =
        hitParams (ts.map (recordOf rsqrt)) start direction near far := by
  intro ts ts2 h
  induction h with
  | nil => intro _ _; rfl
  | @cons a b as bs hab _ ih =>
    intro hnd hin
    have hnda := hnd a (List.mem_cons_self _ _)
    have hina := hin a (List.mem_cons_self _ _)
    have hrest := ih (fun x hx => hnd x (List.mem_cons_of_mem _ hx))
      (fun x hx => hin x (List.mem_cons_of_mem _ hx))
    have hc := counts_orderings rsqrt hr hnda hab start direction near far hina
    rw [List.map_cons, List.map_cons, hitParams_cons, hitParams_cons, hrest]
    by_cases hq : (recordOf rsqrt a).den direction ≠ 0 ∧
        (recordOf rsqrt a).qualifies start direction near far
    · rw [if_pos hq, if_pos (hc.mpr hq)]
      have hnp : QVec3.dot (triNormal a.1 a.2.1 a.2.2) direction ≠ 0 := by
        intro h0
        apply hq.1
        rw [recordOf, triRecord_den, h0, mul_zero]
      rw [tParam_orderings rsqrt hr hnda hab start direction hnp]
    · rw [if_neg hq, if_neg (fun h => hq (hc.mp h))]

theorem any_accepts_orderings (rsqrt : FVal → FVal) (hr : RsqrtPositive rsqrt)
    (start direction : QVec3) (near far : ℚ) :
    ∀ (ts ts2 : List (QVec3 × QVec3 × QVec3)),
      List.Forall₂ (fun a b => b ∈ orderings a) ts ts2 →
      (∀ a ∈ ts, nonDegenerate a.1 a.2.1 a.2.2) →
      ((ts2.map embTri).map (fun t => NavMesh.triEntry rsqrt t.1 t.2.1 t.2.2)).any
          (fun rec => NavMesh.accepts rec.1 rec.2.1 rec.2.2 start.toVec3 direction.toVec3
            (FVal.fin near) (FVal.fin far)) =
        ((ts.map embTri).map (fun t => NavMesh.triEntry rsqrt t.1 t.2.1 t.2.2)).any
          (fun rec => NavMesh.accepts rec.1 rec.2.1 rec.2.2 start.toVec3 direction.toVec3
            (FVal.fin near) (FVal.fin far)) := by
  intro ts ts2 h
  induction h with
  | nil => intro _; rfl
  | @cons a b as bs hab _ ih =>
    intro hnd
    have hnda := hnd a (List.mem_cons_self _ _)
    have hrest := ih (fun x hx => hnd x (List.mem_cons_of_mem _ hx))
    simp only [List.map_cons, List.any_cons]
    rw [hrest, NavMesh.triEntry_embTri rsqrt hr a hnda,
      NavMesh.triEntry_embTri rsqrt hr b (nonDegenerate_orderings hab hnda)]
    simp only
    rw [accepts_orderings rsqrt hr hnda hab start direction near far]

theorem forall₂_orderings_right {P Q : QVec3 × QVec3 × QVec3 → Prop}
    (hPQ : ∀ a b, b ∈ orderings a → P a → Q b) :
    ∀ (ts ts2 : List (QVec3 × QVec3 × QVec3)),
      List.Forall₂ (fun a b => b ∈ orderings a) ts ts2 → (∀ a ∈ ts, P a) → ∀ b ∈ ts2, Q b := by
  intro ts ts2 h
  induction h with
  | nil => intro _ b hb; cases hb
  | @cons a b as bs hab _ ih =>
    intro hP x hx
    rcases List.mem_cons.mp hx with h | h
    · rw [h]; exact hPQ a b hab (hP a (List.mem_cons_self _ _))
    · exact ih (fun y hy => hP y (List.mem_cons_of_mem _ hy)) x h

/-- C21, counterexample: the floor triangle `(0,0,0)`, `(1,0,0)`, `(0,1,0)` and the same
triangle with its last two corners exchanged give the ray from `(5, 1/4, 1)` along
`(1, 0, 0)`, which is parallel to the plane and above it, the parameters `-inf` and `+inf`;
both orderings reject the ray over `[0, 250]`.  After the triangle in the plane `z = 1`, in
which the ray lies, `far` is NaN, and `trace` then returns NaN with one ordering and `+inf`
with the other. -/
theorem corner_order_changes_parameter_counterexample :
    nonDegenerate floorCorners.1 floorCorners.2.1 floorCorners.2.2 ∧
    floorFlipped ∈ orderings floorCorners ∧
    NavMesh.param (NavMesh.triEntry sampleRsqrt (embTri floorCorners).1 (embTri floorCorners).2.1
        (embTri floorCorners).2.2).1 (QVec3.toVec3 ⟨5, 1/4, 1⟩) (QVec3.toVec3 ⟨1, 0, 0⟩) =
      FVal.ninf ∧
    NavMesh.param (NavMesh.triEntry sampleRsqrt (embTri floorFlipped).1 (embTri floorFlipped).2.1
        (embTri floorFlipped).2.2).1 (QVec3.toVec3 ⟨5, 1/4, 1⟩) (QVec3.toVec3 ⟨1, 0, 0⟩) =
      FVal.pinf ∧
    NavMesh.trace (NavMesh.build sampleRsqrt [embTri floorCorners])
        (QVec3.toVec3 ⟨5, 1/4, 1⟩) (QVec3.toVec3 ⟨1, 0, 0⟩) (FVal.fin 0) (FVal.fin 250) =
      some (FVal.fin 250) ∧
    NavMesh.trace (NavMesh.build sampleRsqrt [embTri floorFlipped])
        (QVec3.toVec3 ⟨5, 1/4, 1⟩) (QVec3.toVec3 ⟨1, 0, 0⟩) (FVal.fin 0) (FVal.fin 250) =
      some (FVal.fin 250) ∧
    NavMesh.trace (NavMesh.build sampleRsqrt [embTri shelfCorners, embTri floorCorners])
        (QVec3.toVec3 ⟨5, 1/4, 1⟩) (QVec3.toVec3 ⟨1, 0, 0⟩) (FVal.fin 0) (FVal.fin 250) =
      some FVal.nan ∧
    NavMesh.trace (NavMesh.build sampleRsqrt [embTri shelfCorners, embTri floorFlipped])
        (QVec3.toVec3 ⟨5, 1/4, 1⟩) (QVec3.toVec3 ⟨1, 0, 0⟩) (FVal.fin 0) (FVal.fin 250) =
      some FVal.pinf := by
  refine ⟨?_, ?_, ?_, ?_, ?_, ?_, ?_, ?_⟩ <;> decide!

/-- C21, amended: for a non-degenerate triangle with finite corners and each of the six
orderings of its corners handed to `addTriangle`, the reordered triangle is non-degenerate;
for every finite ray not parallel to the plane both records give the same finite parameter
`t`, the one at which the ray meets the plane; for every finite ray and finite `near`, `far`
the per-triangle test gives the same decision; and for meshes built from non-degenerate
triangles that differ only in the order of the corners of each triangle, `anyhit` returns
the same result for every finite ray, and `trace` does for every finite ray that lies in the
plane of no triangle. -/
theorem corner_order_independent (rsqrt : FVal → FVal) (hr : RsqrtPositive rsqrt)
    (t t2 : QVec3 × QVec3 × QVec3) (hnd : nonDegenerate t.1 t.2.1 t.2.2)
    (ho : t2 ∈ orderings t) :
    nonDegenerate t2.1 t2.2.1 t2.2.2 ∧
    (∀ start direction : QVec3, QVec3.dot (triNormal t.1 t.2.1 t.2.2) direction ≠ 0 →
      ∃ τ : ℚ,
        NavMesh.param (NavMesh.triEntry rsqrt (embTri t).1 (embTri t).2.1 (embTri t).2.2).1
          start.toVec3 direction.toVec3 = FVal.fin τ ∧
        NavMesh.param (NavMesh.triEntry rsqrt (embTri t2).1 (embTri t2).2.1 (embTri t2).2.2).1
          start.toVec3 direction.toVec3 = FVal.fin τ ∧
        onPlane t.1 t.2.1 t.2.2 (start.add (QVec3.smul τ direction))) ∧
    (∀ (start direction : QVec3) (near far : ℚ),
      NavMesh.accepts
          (NavMesh.triEntry rsqrt (embTri t2).1 (embTri t2).2.1 (embTri t2).2.2).1
          (NavMesh.triEntry rsqrt (embTri t2).1 (embTri t2).2.1 (embTri t2).2.2).2.1
          (NavMesh.triEntry rsqrt (embTri t2).1 (embTri t2).2.1 (embTri t2).2.2).2.2
          start.toVec3 direction.toVec3 (FVal.fin near) (FVal.fin far) =
        NavMesh.accepts
          (NavMesh.triEntry rsqrt (embTri t).1 (embTri t).2.1 (embTri t).2.2).1
          (NavMesh.triEntry rsqrt (embTri t).1 (embTri t).2.1 (embTri t).2.2).2.1
          (NavMesh.triEntry rsqrt (embTri t).1 (embTri t).2.1 (embTri t).2.2).2.2
          start.toVec3 direction.toVec3 (FVal.fin near) (FVal.fin far)) ∧
    (∀ (ts ts2 : List (QVec3 × QVec3 × QVec3)),
      List.Forall₂ (fun a b => b ∈ orderings a) ts ts2 →
      (∀ a ∈ ts, nonDegenerate a.1 a.2.1 a.2.2) →
      ∀ (start direction : QVec3) (near far : ℚ),
        NavMesh.anyhit (NavMesh.build rsqrt (ts2.map embTri)) start.toVec3 direction.toVec3
            (FVal.fin near) (FVal.fin far) =
          NavMesh.anyhit (NavMesh.build rsqrt (ts.map embTri)) start.toVec3 direction.toVec3
            (FVal.fin near) (FVal.fin far) ∧
        ((∀ a ∈ ts, ¬ rayInPlane a start direction) →
          NavMesh.trace (NavMesh.build rsqrt (ts2.map embTri)) start.toVec3 direction.toVec3
              (FVal.fin near) (FVal.fin far) =
            NavMesh.trace (NavMesh.build rsqrt (ts.map embTri)) start.toVec3 direction.toVec3
              (FVal.fin near) (FVal.fin far))) := by
  have hnd2 := nonDegenerate_orderings ho hnd
  obtain ⟨hk, _⟩ := rsqrtValue_spec hr (QVec3.dot_self_pos hnd)
  refine ⟨hnd2, ?_, ?_, ?_⟩
  · intro start direction hnp
    have hden : (recordOf rsqrt t).den direction ≠ 0 := by
      rw [recordOf, triRecord_den]
      exact mul_ne_zero (ne_of_gt hk) hnp
    have hden2 : (recordOf rsqrt t2).den direction ≠ 0 := by
      rw [recordOf_orderings rsqrt ho, triRecord_den]
      exact mul_ne_zero (ne_of_gt hk) (fun h => hnp ((parallel_orderings ho direction).mp h))
    refine ⟨(recordOf rsqrt t).tParam start direction, ?_, ?_, ?_⟩
    · rw [NavMesh.triEntry_embTri rsqrt hr t hnd]
      exact NavMesh.param_finite _ start direction hden
    · rw [NavMesh.triEntry_embTri rsqrt hr t2 hnd2,
        ← tParam_orderings rsqrt hr hnd ho start direction hnp]
      exact NavMesh.param_finite _ start direction hden2
    · exact (onPlane_ray_iff _ t.1 t.2.1 t.2.2 start direction _ (ne_of_gt hk) hnp).mpr rfl
  · intro start direction near far
    rw [NavMesh.triEntry_embTri rsqrt hr t hnd, NavMesh.triEntry_embTri rsqrt hr t2 hnd2]
    exact accepts_orderings rsqrt hr hnd ho start direction near far
  · intro ts ts2 hrel hnds start direction near far
    have hnds2 : ∀ b ∈ ts2, nonDegenerate b.1 b.2.1 b.2.2 :=
      forall₂_orderings_right (fun a b hab ha => nonDegenerate_orderings hab ha) ts ts2 hrel hnds
    constructor
    · rw [NavMesh.anyhit_eq_any _ (NavMesh.build_records rsqrt _).1,
        NavMesh.anyhit_eq_any _ (NavMesh.build_records rsqrt _).1,
        (NavMesh.build_records rsqrt _).2, (NavMesh.build_records rsqrt _).2,
        any_accepts_orderings rsqrt hr start direction near far ts ts2 hrel hnds]
    · intro hin
      have hin2 : ∀ b ∈ ts2, ¬ rayInPlane b start direction :=
        forall₂_orderings_right
          (fun a b hab ha h => ha ((rayInPlane_orderings hab start direction).mp h))
          ts ts2 hrel hin
      have hrec : ∀ r ∈ ts.map (recordOf rsqrt), ¬ r.inPlane start direction := by
        intro r hrm
        obtain ⟨a, ha, rfl⟩ := List.mem_map.mp hrm
        rw [recordOf_inPlane_iff rsqrt hr a (hnds a ha)]
        exact hin a ha
      have hrec2 : ∀ r ∈ ts2.map (recordOf rsqrt), ¬ r.inPlane start direction := by
        intro r hrm
        obtain ⟨b, hb, rfl⟩ := List.mem_map.mp hrm
        rw [recordOf_inPlane_iff rsqrt hr b (hnds2 b hb)]
        exact hin2 b hb
      rw [NavMesh.build_finite rsqrt hr ts hnds, NavMesh.build_finite rsqrt hr ts2 hnds2,
        NavMesh.trace_ofRecords _ start direction near far hrec,
        NavMesh.trace_ofRecords _ start direction near far hrec2]
      unfold closestHit
      rw [hitParams_orderings rsqrt hr start direction near far ts ts2 hrel hnds hin]

/-- The floor triangle is hit from above in both windings, at the same distance. -/
theorem floor_both_windings :
    NavMesh.trace (NavMesh.build sampleRsqrt [embTri floorCorners])
        (QVec3.toVec3 ⟨1/4, 1/4, 3⟩) (QVec3.toVec3 ⟨0, 0, -1⟩) (FVal.fin 0) (FVal.fin 250) =
      some (FVal.fin 3) ∧
    NavMesh.trace (NavMesh.build sampleRsqrt [embTri floorFlipped])
        (QVec3.toVec3 ⟨1/4, 1/4, 3⟩) (QVec3.toVec3 ⟨0, 0, -1⟩) (FVal.fin 0) (FVal.fin 250) =
      some (FVal.fin 3) := by
  constructor <;> decide!

/-- Witness for C21 (amended): the floor triangle and its other winding, for the ray
straight down from `(1/4, 1/4, 3)`. -/
theorem corner_order_independent_witness :
    RsqrtPositive sampleRsqrt ∧
    nonDegenerate floorCorners.1 floorCorners.2.1 floorCorners.2.2 ∧
    floorFlipped ∈ orderings floorCorners ∧
    QVec3.dot (triNormal floorCorners.1 floorCorners.2.1 floorCorners.2.2) ⟨0, 0, -1⟩ ≠ 0 ∧
    (∃ τ : ℚ,
      NavMesh.param (NavMesh.triEntry sampleRsqrt (embTri floorCorners).1
          (embTri floorCorners).2.1 (embTri floorCorners).2.2).1
        (QVec3.toVec3 ⟨1/4, 1/4, 3⟩) (QVec3.toVec3 ⟨0, 0, -1⟩) = FVal.fin τ ∧
      NavMesh.param (NavMesh.triEntry sampleRsqrt (embTri floorFlipped).1
          (embTri floorFlipped).2.1 (embTri floorFlipped).2.2).1
        (QVec3.toVec3 ⟨1/4, 1/4, 3⟩) (QVec3.toVec3 ⟨0, 0, -1⟩) = FVal.fin τ ∧
      onPlane floorCorners.1 floorCorners.2.1 floorCorners.2.2
        (QVec3.add ⟨1/4, 1/4, 3⟩ (QVec3.smul τ ⟨0, 0, -1⟩))) :=
  ⟨sampleRsqrt_positive, by decide!, by decide!, by decide!,
    (corner_order_independent sampleRsqrt sampleRsqrt_positive floorCorners floorFlipped
      (by decide!) (by decide!)).2.1 ⟨1/4, 1/4, 3⟩ ⟨0, 0, -1⟩ (by decide!)⟩

end BGR
